import Mathlib

/-!
# Initializer normalization (`compiler/passes/InitNormalize.cpp`)

A shallow embedding of the initializer-normalization pass and proofs about it.

Conventions of the embedding:

* The AST is one inductive family (`Expr`, `CallExpr`, `BlockStmt`); the C++ dynamic
  casts (`toSymExpr`, `toCallExpr`, ...) become pattern matching on the constructor.
* A pointer to a field declaration of the type under construction is the position of
  that declaration in `AggregateType.fields` (a `Nat`); `NULL` is `none`.  Following
  `next` from position `p` reaches position `p + 1`, or `NULL` at the end of the list.
  A position outside the list stands for a declaration that is not in the list.
* `USR_FATAL`, a failed `INT_ASSERT` and a member access through `NULL` end the run;
  they are the three kinds of `Failure`.  `USR_FATAL_CONT` records a message and the
  run continues.
* The tree is not rewritten in place.  A function that rewrites an expression returns
  the rewritten expression, and the statements a function inserts or removes are
  recorded in a log (`Emitted`): `insertBefore->insertBefore(x)` in the order of the
  calls, which is the order the statements have in front of the insertion point, and
  `mFn->insertAtHead(x)` at the head of the method body.  The body held by `mFn` is
  the body the walk started from.
* Fresh symbols (`newTemp`, `new_CStringSymbol`, the `outer` formal) carry the
  identity `0`; the pass compares no fresh symbol with another symbol except through
  `gMethodToken`, which differs from them by name.
* Functions of the compiler that this file calls but does not define (the marker
  recognizers of `initializerRules.h`, the field queries of `AggregateType`, the type
  predicates) are the fields of `Env`; the theorems hold for every `Env`.
-/

namespace Chapel

/-- The three phases, `enum InitPhase`. -/
inductive InitPhase where
  | cPhase0
  | cPhase1
  | cPhase2
  deriving DecidableEq, Repr

/-- The lexical block kinds, `enum BlockType`. -/
inductive BlockType where
  | cBlockNormal
  | cBlockCond
  | cBlockLoop
  | cBlockBegin
  | cBlockCobegin
  | cBlockCoforall
  | cBlockForall
  | cBlockOn
  deriving DecidableEq, Repr

/-- The primitives named in the pass; every other primitive is `PRIM_OTHER`. -/
inductive PrimitiveTag where
  | PRIM_NOOP
  | PRIM_MOVE
  | PRIM_INIT
  | PRIM_INIT_FIELD
  | PRIM_INIT_VAR
  | PRIM_INIT_MAYBE_SYNC_SINGLE_FIELD
  | PRIM_SET_MEMBER
  | PRIM_GET_MEMBER
  | PRIM_NEW
  | PRIM_BLOCK_BEGIN
  | PRIM_BLOCK_BEGIN_ON
  | PRIM_BLOCK_COBEGIN
  | PRIM_BLOCK_COFORALL
  | PRIM_BLOCK_COFORALL_ON
  | PRIM_BLOCK_ON
  | PRIM_OTHER (tag : Nat)
  deriving DecidableEq, Repr

/-- The symbol flags the pass reads or sets. -/
inductive Flag where
  | FLAG_ARG_THIS
  | FLAG_PARAM
  | FLAG_TYPE_VARIABLE
  | FLAG_COMPILER_GENERATED
  | FLAG_GENERIC
  | FLAG_DELAY_GENERIC_EXPANSION
  deriving DecidableEq, Repr

/-- A `Type*`: the pass only compares types and hands them to predicates. -/
structure ChplType where
  name : String
  deriving DecidableEq, Repr

/-- The global `dtUnknown`. -/
def dtUnknown : ChplType := { name := "_unknown" }

/-- The global `dtAny`. -/
def dtAny : ChplType := { name := "_any" }

/-- The classes of `Symbol` the pass distinguishes by a cast. -/
inductive SymbolKind where
  | VarSymbol
  | ArgSymbol
  | TypeSymbol
  | FnSymbol
  deriving DecidableEq, Repr

/-- A `Symbol`.  `id` is the identity of the object; `cstring` is the value of a
C-string immediate made by `new_CStringSymbol`. -/
structure Symbol where
  id : Nat
  name : String
  kind : SymbolKind
  type : ChplType
  immediate : Bool
  cstring : Option String
  flags : List Flag
  deriving DecidableEq, Repr

/-- `Symbol::hasFlag`. -/
def Symbol.hasFlag (s : Symbol) (f : Flag) : Bool := s.flags.contains f

/-- `Symbol::addFlag`. -/
def Symbol.addFlag (s : Symbol) (f : Flag) : Symbol := { s with flags := f :: s.flags }

/-- `Symbol::isImmediate`. -/
def Symbol.isImmediate (s : Symbol) : Bool := s.immediate

mutual
/-- The AST nodes (`Expr` and its subclasses). -/
inductive Expr where
  | symExpr (sym : Symbol)
  | unresolvedSymExpr (unresolved : String)
  | namedExpr (name : String) (actual : Expr)
  | callExpr (call : CallExpr)
  | defExpr (sym : Symbol) (exprType : Option Expr) (init : Option Expr)
  | condStmt (condExpr : Expr) (thenStmt : BlockStmt) (elseStmt : Option BlockStmt)
  | blockStmt (block : BlockStmt)
  | forallStmt (loopBody : BlockStmt)
  | otherExpr (tag : Nat)
/-- A `CallExpr` is either a primitive (no `baseExpr`) or a call of a base
expression; `square` is the flag of the same name. -/
inductive CallExpr where
  | prim (primitive : PrimitiveTag) (actuals : List Expr)
  | named (baseExpr : Expr) (actuals : List Expr) (square : Bool)
/-- A `BlockStmt`: the optional `blockInfo` call and the statement list. -/
inductive BlockStmt where
  | mk (blockInfo : Option CallExpr) (body : List Expr)
end

/-- `CallExpr::isPrimitive(PrimitiveTag)`. -/
def CallExpr.isPrimitive : CallExpr → PrimitiveTag → Bool
  | .prim p _, q => p == q
  | .named _ _ _, _ => false

/-- `CallExpr::isPrimitive()`: the call is a primitive of any kind. -/
def CallExpr.isAnyPrimitive : CallExpr → Bool
  | .prim _ _ => true
  | .named _ _ _ => false

/-- Modelled from the spec: `CallExpr::isNamed` belongs to the AST library.  A call
is named `name` when its base expression is a resolved or an unresolved symbol of
that name ("the binary dot-access operator" is the call named "."). -/
def CallExpr.isNamed : CallExpr → String → Bool
  | .named (.symExpr s) _ _, name => s.name == name
  | .named (.unresolvedSymExpr u) _ _, name => u == name
  | _, _ => false

/-- The actual arguments of a call (`argList`). -/
def CallExpr.actuals : CallExpr → List Expr
  | .prim _ as => as
  | .named _ as _ => as

/-- `CallExpr::numActuals`. -/
def CallExpr.numActuals (c : CallExpr) : Nat := c.actuals.length

/-- `CallExpr::get(1)`, `NULL` when the call has no actual. -/
def CallExpr.get1 (c : CallExpr) : Option Expr := c.actuals.head?

/-- `CallExpr::get(2)`, `NULL` when the call has fewer than two actuals. -/
def CallExpr.get2 (c : CallExpr) : Option Expr := c.actuals.tail.head?

/-- The call with its actuals replaced (the result of rewriting them in place). -/
def CallExpr.withActuals : CallExpr → List Expr → CallExpr
  | .prim p _, as => .prim p as
  | .named b _ sq, as => .named b as sq

/-- A field declaration (`DefExpr` in `AggregateType::fields`). -/
structure DefExpr where
  sym : Symbol
  exprType : Option Expr
  init : Option Expr

/-- The part of `AggregateType` the pass reads: the ordered field list, the names of
the methods in `methods`, the `outer` symbol, `isClass()` and `isGeneric()`. -/
structure AggregateType where
  fields : List DefExpr
  methods : List String
  outer : Option Symbol
  isClass : Bool
  isGeneric : Bool

/-- The part of `FnSymbol` the pass reads or writes.  `thisType` is
`toAggregateType(_this->type)`; `formals` is the formal list. -/
structure FnSymbol where
  name : String
  _this : Symbol
  thisType : AggregateType
  body : BlockStmt
  flags : List Flag
  _outer : Option Symbol
  formals : List Symbol

/-- `FnSymbol::hasFlag`. -/
def FnSymbol.hasFlag (fn : FnSymbol) (f : Flag) : Bool := fn.flags.contains f

/-- How a run ends when it does not return: `USR_FATAL` with its message, a failed
`INT_ASSERT`, or a member access through `NULL`. -/
inductive Failure where
  | usrFatal (msg : String)
  | intAssert
  | nullDeref
  deriving DecidableEq, Repr

/-- Functions of the compiler that the pass calls and that are defined in other
files: the marker recognizers of `initializerRules.h`, the field queries of
`AggregateType`, and the predicates on types.  A field of the type is returned as its
position in `fields`; a field of a parent type is returned as its declaration.
`superIsGeneric t` is `toAggregateType(t)->isGeneric()`, `none` when `t` is not an
aggregate type. -/
structure Env where
  isThisInit : CallExpr → Bool
  isSuperInit : CallExpr → Bool
  isInitDone : CallExpr → Bool
  hasInitDone : BlockStmt → Bool
  toLocalFieldSym : AggregateType → Symbol → Option Nat
  toLocalFieldCall : AggregateType → CallExpr → Option Nat
  toSuperFieldSym : AggregateType → Symbol → Option DefExpr
  toSuperFieldCall : AggregateType → CallExpr → Option DefExpr
  isPrimitiveScalar : ChplType → Bool
  isNonGenericClass : ChplType → Bool
  isNonGenericRecordWithInitializers : ChplType → Bool
  superIsGeneric : ChplType → Option Bool

/-- The state of the pass, `class InitNormalize`. -/
structure InitNormalize where
  mFn : FnSymbol
  mCurrField : Option Nat
  mPhase : InitPhase
  mBlockType : BlockType
  mPrevBlockType : BlockType

/-- What a run has done to the tree so far: the statements put at the head of the
method body (in body order), the statements put in front of the insertion point (in
body order), the statements taken out of the tree, and the messages of
`USR_FATAL_CONT`. -/
structure Emitted where
  atHead : List Expr
  before : List Expr
  removed : List Expr
  diags : List String

/-- Nothing emitted yet. -/
def Emitted.empty : Emitted := { atHead := [], before := [], removed := [], diags := [] }

/-- The statements of a log in the order they have in the method body: the head of
the body comes before every insertion point. -/
def Emitted.inBodyOrder (log : Emitted) : List Expr := log.atHead ++ log.before

/-- The numbering of the phases, `Phase0 < Phase1 < Phase2`. -/
def InitPhase.toNat : InitPhase → Nat
  | .cPhase0 => 0
  | .cPhase1 => 1
  | .cPhase2 => 2

instance : LE InitPhase := ⟨fun a b => a.toNat ≤ b.toNat⟩

instance (a b : InitPhase) : Decidable (a ≤ b) := inferInstanceAs (Decidable (a.toNat ≤ b.toNat))

/-- The lower-numbered of two phases. -/
def InitPhase.min (a b : InitPhase) : InitPhase := if a.toNat ≤ b.toNat then a else b

mutual
/-- `InitNormalize::startPhase(BlockStmt*)`. -/
def startPhase (env : Env) : BlockStmt → InitPhase
  | .mk _ body => startPhaseFrom env body
/-- The `while` loop of `startPhase`, from statement `stmt` on. -/
def startPhaseFrom (env : Env) : List Expr → InitPhase
  | [] => .cPhase2
  | .defExpr _ _ _ :: rest => startPhaseFrom env rest
  | .callExpr callExpr :: rest =>
      if env.isThisInit callExpr then .cPhase0
      else if env.isSuperInit callExpr then .cPhase1
      else if env.isInitDone callExpr then .cPhase1
      else startPhaseFrom env rest
  | .condStmt _ thenStmt none :: rest =>
      let thenPhase := startPhase env thenStmt
      if thenPhase ≠ .cPhase2 then thenPhase else startPhaseFrom env rest
  | .condStmt _ thenStmt (some elseStmt) :: rest =>
      let thenPhase := startPhase env thenStmt
      let elsePhase := startPhase env elseStmt
      if thenPhase = .cPhase0 ∨ elsePhase = .cPhase0 then .cPhase0
      else if thenPhase = .cPhase1 ∨ elsePhase = .cPhase1 then .cPhase1
      else startPhaseFrom env rest
  | .blockStmt block :: rest =>
      let phase := startPhase env block
      if phase ≠ .cPhase2 then phase else startPhaseFrom env rest
  | .forallStmt loopBody :: rest =>
      let phase := startPhase env loopBody
      if phase ≠ .cPhase2 then phase else startPhaseFrom env rest
  | _ :: rest => startPhaseFrom env rest
end

/-- `InitNormalize::type()`. -/
def InitNormalize.type (st : InitNormalize) : AggregateType := st.mFn.thisType

/-- `InitNormalize::isPhase2`. -/
def InitNormalize.isPhase2 (st : InitNormalize) : Bool := st.mPhase == .cPhase2

/-- `field->sym->name` for the field declaration at position `field`. -/
def AggregateType.fieldName (t : AggregateType) (field : Nat) : String :=
  match t.fields.get? field with
  | some d => d.sym.name
  | none => ""

/-- The scan of `isFieldInitialized` from the declaration at position `pos`, whose
list nodes from there on are `nodes`: `false` as soon as `field` is met. -/
def isFieldInitializedFrom (field : Nat) : Nat → List DefExpr → Bool
  | _, [] => true
  | pos, _ :: rest => if pos = field then false else isFieldInitializedFrom field (pos + 1) rest

/-- `InitNormalize::isFieldInitialized`: the field is not met when walking from
`mCurrField` to the end of the field list. -/
def InitNormalize.isFieldInitialized (st : InitNormalize) (field : Nat) : Bool :=
  match st.mCurrField with
  | none => true
  | some c => isFieldInitializedFrom field c (st.type.fields.drop c)

/-- The message of the "used before defined" `USR_FATAL`. -/
def usedBeforeDefinedMsg (name : String) : String :=
  "'" ++ name ++ "' used before defined (first used here)"

/-- The message of the parent-field `USR_FATAL`. -/
def parentFieldMsg (name : String) : String :=
  "Cannot access parent field '" ++ name ++ "' during phase 1"

mutual
/-- `InitNormalize::isFieldAccessible`. -/
def InitNormalize.isFieldAccessible (env : Env) (st : InitNormalize) : Expr → Except Failure Bool
  | .symExpr sym =>
      if sym.isImmediate then .ok true
      else match env.toLocalFieldSym st.type sym with
        | some field =>
            if st.isFieldInitialized field then .ok true
            else .error (.usrFatal (usedBeforeDefinedMsg (st.type.fieldName field)))
        | none =>
            match env.toSuperFieldSym st.type sym with
            | some field =>
                if env.hasInitDone st.mFn.body || st.isPhase2 then .ok true
                else .error (.usrFatal (parentFieldMsg field.sym.name))
            | none => .ok true
  | .callExpr callExpr =>
      match env.toLocalFieldCall st.type callExpr with
      | some field =>
          if st.isFieldInitialized field then .ok true
          else .error (.usrFatal (usedBeforeDefinedMsg (st.type.fieldName field)))
      | none =>
          match env.toSuperFieldCall st.type callExpr with
          | some field =>
              if env.hasInitDone st.mFn.body || st.isPhase2 then .ok true
              else .error (.usrFatal (parentFieldMsg field.sym.name))
          | none => InitNormalize.isFieldAccessibleCall env st callExpr
  | .namedExpr _ _ => .ok true
  | .unresolvedSymExpr _ => .ok true
  | _ => .error .intAssert
/-- The `for_actuals` loop of `isFieldAccessible` on a call. -/
def InitNormalize.isFieldAccessibleCall (env : Env) (st : InitNormalize) : CallExpr → Except Failure Bool
  | .prim _ actuals => InitNormalize.isFieldAccessibleActuals env st actuals
  | .named _ actuals _ => InitNormalize.isFieldAccessibleActuals env st actuals
/-- The `for_actuals` loop of `isFieldAccessible` from one actual on: it stops with
`false` at the first actual that is not accessible. -/
def InitNormalize.isFieldAccessibleActuals (env : Env) (st : InitNormalize) : List Expr → Except Failure Bool
  | [] => .ok true
  | actual :: rest =>
      match InitNormalize.isFieldAccessible env st actual with
      | .error f => .error f
      | .ok false => .ok false
      | .ok true => InitNormalize.isFieldAccessibleActuals env st rest
end

/-- `InitNormalize::isFieldAccess`: the call is named "." and its first actual is a
reference to an `ArgSymbol` that has `FLAG_ARG_THIS`. -/
def isFieldAccess (callExpr : CallExpr) : Bool :=
  if callExpr.isNamed "." then
    match callExpr.get1 with
    | some (.symExpr lhs) =>
        if lhs.kind = .ArgSymbol then lhs.hasFlag .FLAG_ARG_THIS else false
    | _ => false
  else false

/-- The global `gMethodToken`. -/
def gMethodToken : Symbol :=
  { id := 0, name := "_mt", kind := .VarSymbol, type := { name := "_MT" },
    immediate := false, cstring := none, flags := [] }

/-- `new_CStringSymbol(str)`: an immediate that holds the string. -/
def new_CStringSymbol (str : String) : Symbol :=
  { id := 0, name := "_cstr_literal", kind := .VarSymbol, type := { name := "c_string" },
    immediate := true, cstring := some str, flags := [] }

/-- `InitNormalize::handleInsertedMethodCall`: the call after the rewrite of its
base expression. -/
def InitNormalize.handleInsertedMethodCall (st : InitNormalize) (call : CallExpr) : CallExpr :=
  match call with
  | .named (.unresolvedSymExpr us) actuals square =>
      let alreadyMethod : Bool :=
        match actuals with
        | .symExpr firstArg :: _ => firstArg = gMethodToken
        | _ => false
      if alreadyMethod = false then
        let matches_ : Bool := st.type.methods.any (fun fnName => us == fnName)
        if matches_ then
          .named (.callExpr (.named (.unresolvedSymExpr ".")
                    [.symExpr st.mFn._this, .unresolvedSymExpr us] false)) actuals square
        else call
      else call
  | _ => call

/-- The member read `PRIM_GET_MEMBER(this, "name")` that replaces a field reference. -/
def InitNormalize.getMember (st : InitNormalize) (name : String) : Expr :=
  .callExpr (.prim .PRIM_GET_MEMBER [.symExpr st.mFn._this, .symExpr (new_CStringSymbol name)])

mutual
/-- `InitNormalize::updateFieldsMember`: the expression after the rewrite in place. -/
def InitNormalize.updateFieldsMember (env : Env) (st : InitNormalize) : Expr → Except Failure Expr
  | .symExpr sym =>
      match env.toLocalFieldSym st.type sym with
      | some field =>
          if st.isFieldInitialized field then .ok (st.getMember sym.name)
          else .error (.usrFatal (usedBeforeDefinedMsg (st.type.fieldName field)))
      | none =>
          match env.toSuperFieldSym st.type sym with
          | some field =>
              if env.hasInitDone st.mFn.body then .ok (st.getMember sym.name)
              else .error (.usrFatal (parentFieldMsg field.sym.name))
          | none => .ok (.symExpr sym)
  | .callExpr callExpr =>
      if isFieldAccess callExpr = false then
        match InitNormalize.updateFieldsMemberCall env st callExpr with
        | .error f => .error f
        | .ok actuals => .ok (.callExpr ((st.handleInsertedMethodCall callExpr).withActuals actuals))
      else .ok (.callExpr callExpr)
  | .namedExpr name actual => .ok (.namedExpr name actual)
  | .unresolvedSymExpr u => .ok (.unresolvedSymExpr u)
  | _ => .error .intAssert
/-- The `for_actuals` loop of `updateFieldsMember` on a call: the rewritten actuals. -/
def InitNormalize.updateFieldsMemberCall (env : Env) (st : InitNormalize) : CallExpr → Except Failure (List Expr)
  | .prim _ actuals => InitNormalize.updateFieldsMemberActuals env st actuals
  | .named _ actuals _ => InitNormalize.updateFieldsMemberActuals env st actuals
/-- The `for_actuals` loop of `updateFieldsMember` from one actual on. -/
def InitNormalize.updateFieldsMemberActuals (env : Env) (st : InitNormalize) : List Expr → Except Failure (List Expr)
  | [] => .ok []
  | actual :: rest =>
      match InitNormalize.updateFieldsMember env st actual with
      | .error f => .error f
      | .ok actual1 =>
          match InitNormalize.updateFieldsMemberActuals env st rest with
          | .error f => .error f
          | .ok rest1 => .ok (actual1 :: rest1)
end

/-- `newTemp(name, type)`: a fresh variable.  `newTemp(name)` is `newTemp name dtUnknown`. -/
def newTemp (name : String) (type : ChplType) : Symbol :=
  { id := 0, name := name, kind := .VarSymbol, type := type,
    immediate := false, cstring := none, flags := [] }

/-- `type->symbol`: the type symbol of a type. -/
def ChplType.symbol (t : ChplType) : Symbol :=
  { id := 0, name := t.name, kind := .TypeSymbol, type := t,
    immediate := false, cstring := none, flags := [] }

/-- Modelled from the spec: `createCast` is defined in another file; it builds the
call that casts `src` to `toType` ("cast the default expression to the declared
type"). -/
def createCast (src toType : Expr) : CallExpr :=
  .named (.unresolvedSymExpr "_cast") [toType, src] false

/-- `new CallExpr(prim, _this, name, value)` with `name` the C-string symbol of the
field name: the field-assignment operation. -/
def InitNormalize.fieldSet (st : InitNormalize) (prim : PrimitiveTag) (field : DefExpr)
    (value : Expr) : Expr :=
  .callExpr (.prim prim [.symExpr st.mFn._this, .symExpr (new_CStringSymbol field.sym.name), value])

/-- `new DefExpr(tmp)`. -/
def tmpDefn (tmp : Symbol) : Expr := .defExpr tmp none none

/-- `isFieldAccessible(e)`, `INT_ASSERT(false)` when it returns `false`. -/
def InitNormalize.assertAccessible (env : Env) (st : InitNormalize) (e : Expr) : Except Failure Unit :=
  match st.isFieldAccessible env e with
  | .error f => .error f
  | .ok false => .error .intAssert
  | .ok true => .ok ()

/-- The common sequence `if (isFieldAccessible(e) == false) INT_ASSERT(false);
updateFieldsMember(e);`: the rewritten expression. -/
def InitNormalize.checkAndUpdate (env : Env) (st : InitNormalize) (e : Expr) : Except Failure Expr := do
  st.assertAccessible env e
  st.updateFieldsMember env e

/-- `InitNormalize::genericFieldInitTypeWoutInit`: the statements inserted before
the insertion point, in order. -/
def InitNormalize.genericFieldInitTypeWoutInit (env : Env) (st : InitNormalize)
    (field : DefExpr) : Except Failure (List Expr) :=
  if field.sym.hasFlag .FLAG_PARAM = false then .error .intAssert
  else
    let type := field.sym.type
    if env.isPrimitiveScalar type || env.isNonGenericClass type then
      let tmp := (newTemp "tmp" type).addFlag .FLAG_PARAM
      let tmpExpr : Expr := .callExpr (.named (.unresolvedSymExpr "_defaultOf") [.symExpr type.symbol] false)
      let tmpInit : Expr := .callExpr (.prim .PRIM_MOVE [.symExpr tmp, tmpExpr])
      .ok [tmpDefn tmp, tmpInit, st.fieldSet .PRIM_INIT_FIELD field (.symExpr tmp)]
    else if env.isNonGenericRecordWithInitializers type then
      let tmp := (newTemp "tmp" type).addFlag .FLAG_PARAM
      let tmpInit : Expr := .callExpr (.named (.unresolvedSymExpr "init") [.symExpr gMethodToken, .symExpr tmp] false)
      .ok [tmpDefn tmp, tmpInit, st.fieldSet .PRIM_INIT_FIELD field (.symExpr tmp)]
    else
      match field.exprType with
      | none => .error .nullDeref
      | some exprType => do
          let tmp := (newTemp "tmp" type).addFlag .FLAG_PARAM
          let tmpExpr ← st.checkAndUpdate env (.callExpr (.prim .PRIM_INIT [exprType]))
          let tmpInit : Expr := .callExpr (.prim .PRIM_MOVE [.symExpr tmp, tmpExpr])
          .ok [tmpDefn tmp, tmpInit, st.fieldSet .PRIM_INIT_FIELD field (.symExpr tmp)]

/-- `InitNormalize::genericFieldInitTypeWithInit`. -/
def InitNormalize.genericFieldInitTypeWithInit (env : Env) (st : InitNormalize)
    (field : DefExpr) (initExpr : Expr) : Except Failure (List Expr) :=
  if field.sym.hasFlag .FLAG_PARAM = false then .error .intAssert
  else
    match field.exprType with
    | none => .error .nullDeref
    | some exprType => do
        let initExpr1 ← st.checkAndUpdate env initExpr
        .ok [st.fieldSet .PRIM_INIT_FIELD field (.callExpr (createCast initExpr1 exprType))]

/-- The message of the `USR_FATAL` for a type field initialized with `new`. -/
def newTypeFieldMsg (name : String) : String :=
  "Cannot initialize type field '" ++ name ++ "' with 'new' expression"

/-- The message of the `USR_FATAL` for a param field initialized with `new`. -/
def newParamFieldMsg (name : String) : String :=
  "Cannot initialize param field '" ++ name ++ "' with 'new' expression"

/-- `InitNormalize::genericFieldInitTypeInference`. -/
def InitNormalize.genericFieldInitTypeInference (env : Env) (st : InitNormalize)
    (field : DefExpr) (initExpr : Expr) : Except Failure (List Expr) :=
  let isParam := field.sym.hasFlag .FLAG_PARAM
  let isTypeVar := field.sym.hasFlag .FLAG_TYPE_VARIABLE
  match initExpr with
  | .symExpr initSym =>
      let type := initSym.type
      if isTypeVar then do
        let tmp0 := if type = dtAny then newTemp "tmp" dtUnknown else newTemp "tmp" type
        let tmp := tmp0.addFlag .FLAG_TYPE_VARIABLE
        let initExpr1 ← st.checkAndUpdate env initExpr
        let tmpInit : Expr := .callExpr (.prim .PRIM_MOVE [.symExpr tmp, initExpr1])
        .ok [tmpDefn tmp, tmpInit, st.fieldSet .PRIM_INIT_FIELD field (.symExpr tmp)]
      else if env.isPrimitiveScalar type then do
        let tmp0 := newTemp "tmp" type
        let tmp := if isParam then tmp0.addFlag .FLAG_PARAM else tmp0
        let initExpr1 ← st.checkAndUpdate env initExpr
        let tmpInit : Expr := .callExpr (.prim .PRIM_MOVE [.symExpr tmp, initExpr1])
        .ok [tmpDefn tmp, tmpInit, st.fieldSet .PRIM_INIT_FIELD field (.symExpr tmp)]
      else do
        let tmp0 := newTemp "tmp" dtUnknown
        let tmp := if isParam then tmp0.addFlag .FLAG_PARAM else tmp0
        let initExpr1 ← st.checkAndUpdate env initExpr
        let tmpInit : Expr := .callExpr (.prim .PRIM_INIT_VAR [.symExpr tmp, initExpr1])
        .ok [tmpDefn tmp, tmpInit, st.fieldSet .PRIM_INIT_FIELD field (.symExpr tmp)]
  | .callExpr initCall =>
      if (isParam || isTypeVar) && initCall.isPrimitive .PRIM_NEW then
        if isTypeVar then .error (.usrFatal (newTypeFieldMsg field.sym.name))
        else .error (.usrFatal (newParamFieldMsg field.sym.name))
      else if isTypeVar then do
        let tmp := (newTemp "tmp" dtUnknown).addFlag .FLAG_TYPE_VARIABLE
        let initExpr1 ← st.checkAndUpdate env initExpr
        let tmpInit : Expr := .callExpr (.prim .PRIM_MOVE [.symExpr tmp, initExpr1])
        .ok [tmpDefn tmp, tmpInit, st.fieldSet .PRIM_INIT_FIELD field (.symExpr tmp)]
      else do
        let tmp0 := newTemp "tmp" dtUnknown
        let tmp := if isParam then tmp0.addFlag .FLAG_PARAM else tmp0
        let initExpr1 ← st.checkAndUpdate env initExpr
        let tmpInit : Expr := .callExpr (.prim .PRIM_INIT_VAR [.symExpr tmp, initExpr1])
        .ok [tmpDefn tmp, tmpInit, st.fieldSet .PRIM_INIT_FIELD field (.symExpr tmp)]
  | .unresolvedSymExpr _ =>
      .ok [st.fieldSet .PRIM_INIT_FIELD field initExpr]
  | _ => .error .intAssert

/-- `InitNormalize::fieldInitTypeWoutInit`. -/
def InitNormalize.fieldInitTypeWoutInit (env : Env) (st : InitNormalize)
    (field : DefExpr) : Except Failure (List Expr) :=
  let type := field.sym.type
  if env.isPrimitiveScalar type || env.isNonGenericClass type then
    let tmp := newTemp "tmp" type
    let tmpExpr : Expr := .callExpr (.named (.unresolvedSymExpr "_defaultOf") [.symExpr type.symbol] false)
    let tmpInit : Expr := .callExpr (.prim .PRIM_MOVE [.symExpr tmp, tmpExpr])
    .ok [tmpDefn tmp, tmpInit, st.fieldSet .PRIM_SET_MEMBER field (.symExpr tmp)]
  else if env.isNonGenericRecordWithInitializers type then
    let tmp := newTemp "tmp" type
    let tmpInit : Expr := .callExpr (.named (.unresolvedSymExpr "init") [.symExpr gMethodToken, .symExpr tmp] false)
    .ok [tmpDefn tmp, tmpInit, st.fieldSet .PRIM_SET_MEMBER field (.symExpr tmp)]
  else
    match field.exprType with
    | none => .error .nullDeref
    | some exprType => do
        let tmp := newTemp "tmp" type
        let tmpExpr ← st.checkAndUpdate env (.callExpr (.prim .PRIM_INIT [exprType]))
        let tmpInit : Expr := .callExpr (.prim .PRIM_MOVE [.symExpr tmp, tmpExpr])
        .ok [tmpDefn tmp, tmpInit, st.fieldSet .PRIM_SET_MEMBER field (.symExpr tmp)]

/-- The static `isNewExpr`. -/
def isNewExpr : Expr → Bool
  | .callExpr callExpr => callExpr.isPrimitive .PRIM_NEW
  | _ => false

/-- The static `mightBeSyncSingleExpr`. -/
def mightBeSyncSingleExpr (field : DefExpr) : Bool :=
  match field.exprType with
  | some (.symExpr typeSym) => typeSym.hasFlag .FLAG_TYPE_VARIABLE
  | some (.callExpr typeCall) => typeCall.isAnyPrimitive = false
  | _ => false

/-- `InitNormalize::fieldInitTypeWithInit`. -/
def InitNormalize.fieldInitTypeWithInit (env : Env) (st : InitNormalize)
    (field : DefExpr) (initExpr : Expr) : Except Failure (List Expr) :=
  let type := field.sym.type
  if env.isPrimitiveScalar type || env.isNonGenericClass type then do
    let tmp := newTemp "tmp" type
    let initExpr1 ← st.checkAndUpdate env initExpr
    let tmpInit : Expr := .callExpr (.named (.unresolvedSymExpr "=") [.symExpr tmp, initExpr1] false)
    .ok [tmpDefn tmp, tmpInit, st.fieldSet .PRIM_SET_MEMBER field (.symExpr tmp)]
  else if env.isNonGenericRecordWithInitializers type then
    if isNewExpr initExpr then
      match initExpr with
      | .callExpr (.prim _ (.callExpr (.named _ actuals square) :: _)) => do
          let tmp := newTemp "tmp" type
          let argExpr : Expr :=
            .callExpr (.named (.unresolvedSymExpr "init")
              (.symExpr gMethodToken :: .symExpr tmp :: actuals) square)
          let argExpr1 ← st.checkAndUpdate env argExpr
          .ok [tmpDefn tmp, argExpr1, st.fieldSet .PRIM_SET_MEMBER field (.symExpr tmp)]
      | _ => .error .nullDeref
    else do
      let tmp := newTemp "tmp" type
      let initExpr1 ← st.checkAndUpdate env initExpr
      let tmpInit : Expr :=
        .callExpr (.named (.unresolvedSymExpr "init") [.symExpr gMethodToken, .symExpr tmp, initExpr1] false)
      .ok [tmpDefn tmp, tmpInit, st.fieldSet .PRIM_SET_MEMBER field (.symExpr tmp)]
  else if st.mFn.hasFlag .FLAG_COMPILER_GENERATED && field.init.isNone
          && mightBeSyncSingleExpr field then do
    let initExpr1 ← st.checkAndUpdate env initExpr
    .ok [st.fieldSet .PRIM_INIT_MAYBE_SYNC_SINGLE_FIELD field initExpr1]
  else
    match field.exprType with
    | none => do
        let tmp := newTemp "tmp" type
        let initExpr1 ← st.checkAndUpdate env initExpr
        let tmpAssign : Expr := .callExpr (.named (.unresolvedSymExpr "=") [.symExpr tmp, initExpr1] false)
        .ok [tmpDefn tmp, tmpAssign, st.fieldSet .PRIM_SET_MEMBER field (.symExpr tmp)]
    | some exprType => do
        let tmp := newTemp "tmp" type
        let tmpExpr : Expr := .callExpr (.prim .PRIM_INIT [exprType])
        st.assertAccessible env tmpExpr
        st.assertAccessible env initExpr
        let tmpExpr1 ← st.updateFieldsMember env tmpExpr
        let initExpr1 ← st.updateFieldsMember env initExpr
        let tmpMove : Expr := .callExpr (.prim .PRIM_MOVE [.symExpr tmp, tmpExpr1])
        let tmpAssign : Expr := .callExpr (.named (.unresolvedSymExpr "=") [.symExpr tmp, initExpr1] false)
        .ok [tmpDefn tmp, tmpMove, tmpAssign, st.fieldSet .PRIM_SET_MEMBER field (.symExpr tmp)]

/-- `InitNormalize::fieldInitTypeInference`. -/
def InitNormalize.fieldInitTypeInference (env : Env) (st : InitNormalize)
    (field : DefExpr) (initExpr : Expr) : Except Failure (List Expr) :=
  match initExpr with
  | .symExpr initSym =>
      let type := initSym.type
      if env.isPrimitiveScalar type then do
        let tmp := newTemp "tmp" type
        let initExpr1 ← st.checkAndUpdate env initExpr
        let tmpInit : Expr := .callExpr (.prim .PRIM_MOVE [.symExpr tmp, initExpr1])
        .ok [tmpDefn tmp, tmpInit, st.fieldSet .PRIM_SET_MEMBER field (.symExpr tmp)]
      else do
        let tmp := newTemp "tmp" dtUnknown
        let initExpr1 ← st.checkAndUpdate env initExpr
        let tmpInit : Expr := .callExpr (.prim .PRIM_INIT_VAR [.symExpr tmp, initExpr1])
        .ok [tmpDefn tmp, tmpInit, st.fieldSet .PRIM_SET_MEMBER field (.symExpr tmp)]
  | .callExpr _ => do
      let tmp := newTemp "tmp" dtUnknown
      let initExpr1 ← st.checkAndUpdate env initExpr
      let tmpInit : Expr := .callExpr (.prim .PRIM_INIT_VAR [.symExpr tmp, initExpr1])
      .ok [tmpDefn tmp, tmpInit, st.fieldSet .PRIM_SET_MEMBER field (.symExpr tmp)]
  | _ => .error .intAssert

/-- The position after `p` in the field list: `toDefExpr(p->next)`. -/
def AggregateType.nextField (t : AggregateType) (p : Nat) : Option Nat :=
  if p + 1 < t.fields.length then some (p + 1) else none

/-- `InitNormalize::isOuterField`: `type()->outer == field->sym`. -/
def InitNormalize.isOuterField (st : InitNormalize) (field : DefExpr) : Bool :=
  st.type.outer = some field.sym

/-- The formal list with `arg` put right after the formal `after`. -/
def insertFormalAfter (after arg : Symbol) : List Symbol → List Symbol
  | [] => []
  | f :: rest => if f = after then f :: arg :: rest else f :: insertFormalAfter after arg rest

/-- `InitNormalize::makeOuterArg`: the method gets the formal `outer` after `this`,
and `PRIM_SET_MEMBER(this, "outer", outer)` is put at the head of its body.  (The
registration of the method with the outer type is not part of the state.) -/
def InitNormalize.makeOuterArg (st : InitNormalize) (log : Emitted) :
    Except Failure (InitNormalize × Emitted) :=
  match st.type.outer with
  | none => .error .nullDeref
  | some outerSym =>
      let outerArg : Symbol :=
        { id := 0, name := "outer", kind := .ArgSymbol, type := outerSym.type,
          immediate := false, cstring := none, flags := [.FLAG_GENERIC] }
      let fn : FnSymbol :=
        { st.mFn with _outer := some outerArg,
                      formals := insertFormalAfter st.mFn._this outerArg st.mFn.formals }
      let setOuter : Expr :=
        .callExpr (.prim .PRIM_SET_MEMBER
          [.symExpr st.mFn._this, .symExpr (new_CStringSymbol "outer"), .symExpr outerArg])
      .ok ({ st with mFn := fn }, { log with atHead := setOuter :: log.atHead })

/-- The message of the `USR_FATAL_CONT` for a field without type and default. -/
def omitFieldMsg (name : String) : String :=
  "can't omit initialization of field \"" ++ name ++ "\", no type or default value provided"

/-- The statements of a strategy are put in front of the insertion point. -/
def emitBefore (st : InitNormalize) (log : Emitted) (r : Except Failure (List Expr)) :
    Except Failure (InitNormalize × Emitted) :=
  match r with
  | .error f => .error f
  | .ok stmts => .ok (st, { log with before := log.before ++ stmts })

/-- The body of the loop of `InitNormalize::initializeFieldsBefore` for the field
`field` that `mCurrField` points to. -/
def InitNormalize.initializeFieldStep (env : Env) (st : InitNormalize) (log : Emitted)
    (field : DefExpr) : Except Failure (InitNormalize × Emitted) :=
  if st.isOuterField field then st.makeOuterArg log
  else
    match field.exprType, field.init with
    | none, none => .ok (st, { log with diags := log.diags ++ [omitFieldMsg field.sym.name] })
    | exprType, init =>
        if field.sym.hasFlag .FLAG_PARAM || field.sym.hasFlag .FLAG_TYPE_VARIABLE then
          match exprType, init with
          | some _, none => emitBefore st log (st.genericFieldInitTypeWoutInit env field)
          | some _, some i => emitBefore st log (st.genericFieldInitTypeWithInit env field i)
          | none, some i => emitBefore st log (st.genericFieldInitTypeInference env field i)
          | none, none => .error .intAssert
        else
          match init with
          | some initCopy =>
              let isTypeKnown : Bool := field.sym.type ≠ dtUnknown
              if isTypeKnown then emitBefore st log (st.fieldInitTypeWithInit env field initCopy)
              else if exprType.isSome then emitBefore st log (st.fieldInitTypeWithInit env field initCopy)
              else emitBefore st log (st.fieldInitTypeInference env field initCopy)
          | none => emitBefore st log (st.fieldInitTypeWoutInit env field)

/-- The loop of `InitNormalize::initializeFieldsBefore` with `mCurrField` at position
`pos`, whose list nodes from there on are the second list. -/
def InitNormalize.initializeFieldsFrom (env : Env) :
    InitNormalize → Emitted → Nat → List DefExpr → Except Failure (InitNormalize × Emitted)
  | st, log, _, [] => .ok ({ st with mCurrField := none }, log)
  | st, log, pos, field :: rest =>
      match InitNormalize.initializeFieldStep env { st with mCurrField := some pos } log field with
      | .error f => .error f
      | .ok (st1, log1) => InitNormalize.initializeFieldsFrom env st1 log1 (pos + 1) rest

/-- `InitNormalize::initializeFieldsBefore`. -/
def InitNormalize.initializeFieldsBefore (env : Env) (st : InitNormalize) (log : Emitted) :
    Except Failure (InitNormalize × Emitted) :=
  match st.mCurrField with
  | none => .ok (st, log)
  | some c => InitNormalize.initializeFieldsFrom env st log c (st.type.fields.drop c)

/-- `InitNormalize::initializeFieldsAtTail`: the insertion point is a no-op put at
the tail of the block and taken out again afterwards. -/
def InitNormalize.initializeFieldsAtTail (env : Env) (st : InitNormalize) (log : Emitted)
    (_block : BlockStmt) : Except Failure (InitNormalize × Emitted) :=
  match st.mCurrField with
  | none => .ok (st, log)
  | some _ => st.initializeFieldsBefore env log

/-- `InitNormalize::completePhase1`. -/
def InitNormalize.completePhase1 (env : Env) (st : InitNormalize) (log : Emitted)
    (initStmt : CallExpr) : Except Failure (InitNormalize × Emitted) :=
  if env.isThisInit initStmt then
    .ok ({ st with mCurrField := none, mPhase := .cPhase2 }, log)
  else if env.isSuperInit initStmt then
    match st.initializeFieldsBefore env log with
    | .error f => .error f
    | .ok (st1, log1) => .ok ({ st1 with mPhase := .cPhase2 }, log1)
  else if env.isInitDone initStmt then
    match st.initializeFieldsBefore env log with
    | .error f => .error f
    | .ok (st1, log1) => .ok ({ st1 with mPhase := .cPhase2 }, log1)
  else .error .intAssert

/-- The field list with `FLAG_DELAY_GENERIC_EXPANSION` added to the symbol of its
first declaration. -/
def delayGenericExpansion : List DefExpr → List DefExpr
  | [] => []
  | d :: rest => { d with sym := d.sym.addFlag .FLAG_DELAY_GENERIC_EXPANSION } :: rest

/-- `InitNormalize::firstField`: the method (whose type may have got a flag on its
first field) and the first field to initialize. -/
def firstField (env : Env) (fn : FnSymbol) : Except Failure (FnSymbol × Option Nat) :=
  let t := fn.thisType
  if t.isClass then
    match t.fields with
    | [] => .error .nullDeref
    | d :: _ =>
        if t.isGeneric then
          match env.superIsGeneric d.sym.type with
          | none => .error .intAssert
          | some true =>
              .ok ({ fn with thisType := { t with fields := delayGenericExpansion t.fields } },
                   t.nextField 0)
          | some false => .ok (fn, t.nextField 0)
        else .ok (fn, t.nextField 0)
  else
    match t.fields with
    | [] => .ok (fn, none)
    | _ :: _ => .ok (fn, some 0)

/-- `InitNormalize::startPhase(FnSymbol*)`. -/
def startPhaseFn (env : Env) (fn : FnSymbol) : InitPhase := startPhase env fn.body

/-- The constructor `InitNormalize::InitNormalize(FnSymbol*)`. -/
def InitNormalize.begin (env : Env) (fn : FnSymbol) : Except Failure InitNormalize :=
  match firstField env fn with
  | .error f => .error f
  | .ok (fn1, currField) =>
      .ok { mFn := fn1, mCurrField := currField, mPhase := startPhaseFn env fn1,
            mBlockType := .cBlockNormal, mPrevBlockType := .cBlockNormal }

/-- The last lines of every fork constructor: `mPrevBlockType` for the new block type. -/
def InitNormalize.forkWith (curr : InitNormalize) (blockType : BlockType) : InitNormalize :=
  { mFn := curr.mFn, mCurrField := curr.mCurrField, mPhase := curr.mPhase,
    mBlockType := blockType,
    mPrevBlockType := if blockType ≠ curr.mBlockType then curr.mBlockType else curr.mPrevBlockType }

/-- The constructor `InitNormalize::InitNormalize(BlockStmt*, const InitNormalize&)`. -/
def InitNormalize.forkBlock (block : BlockStmt) (curr : InitNormalize) : Except Failure InitNormalize :=
  match block with
  | .mk (some blockInfo) _ =>
      if blockInfo.isPrimitive .PRIM_BLOCK_BEGIN || blockInfo.isPrimitive .PRIM_BLOCK_BEGIN_ON then
        .ok (curr.forkWith .cBlockBegin)
      else if blockInfo.isPrimitive .PRIM_BLOCK_COBEGIN then .ok (curr.forkWith .cBlockCobegin)
      else if blockInfo.isPrimitive .PRIM_BLOCK_COFORALL
              || blockInfo.isPrimitive .PRIM_BLOCK_COFORALL_ON then
        .ok (curr.forkWith .cBlockCoforall)
      else if blockInfo.isPrimitive .PRIM_BLOCK_ON then .ok (curr.forkWith .cBlockOn)
      else .error .intAssert
  | .mk none _ => .ok (curr.forkWith curr.mBlockType)

/-- The constructor `InitNormalize::InitNormalize(CondStmt*, const InitNormalize&)`. -/
def InitNormalize.forkCond (curr : InitNormalize) : InitNormalize := curr.forkWith .cBlockCond

/-- The constructor `InitNormalize::InitNormalize(LoopStmt*, const InitNormalize&)`. -/
def InitNormalize.forkLoop (curr : InitNormalize) : InitNormalize := curr.forkWith .cBlockLoop

/-- The constructor `InitNormalize::InitNormalize(ForallStmt*, const InitNormalize&)`. -/
def InitNormalize.forkForall (curr : InitNormalize) : InitNormalize := curr.forkWith .cBlockForall

/-- `InitNormalize::merge`. -/
def InitNormalize.merge (st fork : InitNormalize) : InitNormalize :=
  { st with mCurrField := fork.mCurrField, mPhase := fork.mPhase }

/-- `InitNormalize::checkPhase`. -/
def InitNormalize.checkPhase (env : Env) (st : InitNormalize) (block : BlockStmt) : InitNormalize :=
  if st.mPhase = .cPhase0 then
    let newPhase := startPhase env block
    if newPhase = .cPhase1 then { st with mPhase := newPhase } else st
  else st

/-- The scan of `isFieldReinitialized` from position `pos`; it ends in the failed
`INT_ASSERT(ptr != NULL)` when it runs off the list. -/
def isFieldReinitializedFrom (currField : Option Nat) (field : Nat) :
    Nat → List DefExpr → Except Failure Bool
  | _, [] => .error .intAssert
  | pos, _ :: rest =>
      if some pos = currField then .ok false
      else if field = pos then .ok true
      else isFieldReinitializedFrom currField field (pos + 1) rest

/-- `InitNormalize::isFieldReinitialized`. -/
def InitNormalize.isFieldReinitialized (st : InitNormalize) (field : Nat) : Except Failure Bool :=
  isFieldReinitializedFrom st.mCurrField field 0 st.type.fields

/-- The static `isSimpleAssignment`. -/
def isSimpleAssignment (callExpr : CallExpr) : Bool := callExpr.isNamed "="

/-- The static `isCompoundAssignment`. -/
def isCompoundAssignment (callExpr : CallExpr) : Bool :=
  callExpr.isNamed "+=" || callExpr.isNamed "-=" || callExpr.isNamed "*=" ||
  callExpr.isNamed "/=" || callExpr.isNamed "**=" || callExpr.isNamed "%=" ||
  callExpr.isNamed "&=" || callExpr.isNamed "|=" || callExpr.isNamed "^=" ||
  callExpr.isNamed "&&=" || callExpr.isNamed "||=" || callExpr.isNamed "<<=" ||
  callExpr.isNamed ">>="

/-- The static `isAssignment`. -/
def isAssignment (callExpr : CallExpr) : Bool :=
  isSimpleAssignment callExpr || isCompoundAssignment callExpr

/-- The `square` flag of a call (primitives are not written with brackets). -/
def CallExpr.square : CallExpr → Bool
  | .prim _ _ => false
  | .named _ _ sq => sq

mutual
/-- `InitNormalize::fieldUsedBeforeInitialized(Expr*)`. -/
def InitNormalize.fieldUsedBeforeInitialized (env : Env) (st : InitNormalize) : Expr → Bool
  | .defExpr _ _ (some init) => InitNormalize.fieldUsedBeforeInitialized env st init
  | .callExpr callExpr => InitNormalize.fieldUsedBeforeInitializedCall env st callExpr
  | _ => false
/-- `InitNormalize::fieldUsedBeforeInitialized(CallExpr*)`. -/
def InitNormalize.fieldUsedBeforeInitializedCall (env : Env) (st : InitNormalize) : CallExpr → Bool
  | .prim p actuals =>
      match env.toLocalFieldCall st.type (.prim p actuals) with
      | some field => !st.isFieldInitialized field
      | none => InitNormalize.fieldUsedBeforeInitializedActuals env st actuals
  | .named baseExpr actuals square =>
      if isAssignment (.named baseExpr actuals square) then
        match actuals with
        | [] => false
        | lhs :: rest =>
            let retval : Bool :=
              match lhs with
              | .callExpr lhsCall =>
                  if isFieldAccess lhsCall then lhsCall.square
                  else InitNormalize.fieldUsedBeforeInitialized env st lhs
              | _ => false
            match rest with
            | [] => retval
            | rhs :: _ => retval || InitNormalize.fieldUsedBeforeInitialized env st rhs
      else
        match env.toLocalFieldCall st.type (.named baseExpr actuals square) with
        | some field => !st.isFieldInitialized field
        | none =>
            if InitNormalize.fieldUsedBeforeInitialized env st baseExpr then true
            else InitNormalize.fieldUsedBeforeInitializedActuals env st actuals
/-- The `for_actuals` loop of `fieldUsedBeforeInitialized`. -/
def InitNormalize.fieldUsedBeforeInitializedActuals (env : Env) (st : InitNormalize) : List Expr → Bool
  | [] => false
  | actual :: rest =>
      if InitNormalize.fieldUsedBeforeInitialized env st actual then true
      else InitNormalize.fieldUsedBeforeInitializedActuals env st rest
end

/-- `InitNormalize::fieldInitFromField` for the field `field` that `mCurrField`
points to. -/
def InitNormalize.fieldInitFromField (env : Env) (st : InitNormalize) (log : Emitted)
    (field : DefExpr) : Except Failure (InitNormalize × Emitted) :=
  match field.exprType, field.init with
  | none, none => .ok (st, { log with diags := log.diags ++ [omitFieldMsg field.sym.name] })
  | exprType, init =>
      if field.sym.hasFlag .FLAG_PARAM || field.sym.hasFlag .FLAG_TYPE_VARIABLE then
        match exprType, init with
        | some _, none => emitBefore st log (st.genericFieldInitTypeWoutInit env field)
        | some _, some i => emitBefore st log (st.genericFieldInitTypeWithInit env field i)
        | none, some i => emitBefore st log (st.genericFieldInitTypeInference env field i)
        | none, none => .error .intAssert
      else
        match exprType, init with
        | some _, none => emitBefore st log (st.fieldInitTypeWoutInit env field)
        | some _, some initCopy => emitBefore st log (st.fieldInitTypeWithInit env field initCopy)
        | none, some initCopy => emitBefore st log (st.fieldInitTypeInference env field initCopy)
        | none, none => .error .intAssert

/-- `InitNormalize::fieldInitFromStmt` for the declaration `field`: the right-hand
side is taken out of the statement, the field is initialized from it in front of the
statement, and the statement is removed.  (The returned next statement is a position
in the tree and is not part of the model.) -/
def InitNormalize.fieldInitFromStmt (env : Env) (st : InitNormalize) (log : Emitted)
    (stmt : CallExpr) (field : DefExpr) : Except Failure (InitNormalize × Emitted) :=
  match stmt.actuals with
  | lhs :: initExpr :: rest =>
      let emitted : Except Failure (List Expr) :=
        if field.sym.hasFlag .FLAG_PARAM then
          if field.exprType.isSome then st.genericFieldInitTypeWithInit env field initExpr
          else st.genericFieldInitTypeInference env field initExpr
        else if field.sym.hasFlag .FLAG_TYPE_VARIABLE then
          st.genericFieldInitTypeInference env field initExpr
        else if field.exprType.isNone && field.init.isNone then
          st.genericFieldInitTypeInference env field initExpr
        else if field.exprType.isSome then st.fieldInitTypeWithInit env field initExpr
        else st.fieldInitTypeInference env field initExpr
      match emitted with
      | .error f => .error f
      | .ok stmts =>
          .ok (st, { log with before := log.before ++ stmts,
                              removed := log.removed ++ [.callExpr (stmt.withActuals (lhs :: rest))] })
  | _ => .error .nullDeref

/-- The `while (field != mCurrField)` loop of `fieldInitFromInitStmt` with
`mCurrField` at position `pos`. -/
def InitNormalize.skipToField (env : Env) (field : Nat) :
    InitNormalize → Emitted → Nat → List DefExpr → Except Failure (InitNormalize × Emitted)
  | _, _, _, [] => .error .nullDeref
  | st, log, pos, d :: rest =>
      if field = pos then .ok ({ st with mCurrField := some pos }, log)
      else
        match InitNormalize.fieldInitFromField env { st with mCurrField := some pos } log d with
        | .error f => .error f
        | .ok (st1, log1) => InitNormalize.skipToField env field st1 log1 (pos + 1) rest

/-- The first block of `fieldInitFromInitStmt`: when `field` is not `mCurrField`, the
assertion that the field is not initialized yet, and the loop that fills the fields
in between. -/
def InitNormalize.initSkippedFields (env : Env) (st : InitNormalize) (log : Emitted)
    (field : Nat) : Except Failure (InitNormalize × Emitted) :=
  if some field ≠ st.mCurrField then
    match st.isFieldReinitialized field with
    | .error f => .error f
    | .ok true => .error .intAssert
    | .ok false =>
        match st.mCurrField with
        | none => .error .nullDeref
        | some c => InitNormalize.skipToField env field st log c (st.type.fields.drop c)
  else .ok (st, log)

/-- `InitNormalize::fieldInitFromInitStmt`. -/
def InitNormalize.fieldInitFromInitStmt (env : Env) (st : InitNormalize) (log : Emitted)
    (field : Nat) (initStmt : CallExpr) : Except Failure (InitNormalize × Emitted) :=
  match st.initSkippedFields env log field with
  | .error f => .error f
  | .ok (st1, log1) =>
      if st1.fieldUsedBeforeInitializedCall env initStmt then
        .error (.usrFatal "Field used before it is initialized")
      else
        match st1.type.fields.get? field with
        | none => .error .nullDeref
        | some d =>
            match st1.fieldInitFromStmt env log1 initStmt d with
            | .error f => .error f
            | .ok (st2, log2) =>
                .ok ({ st2 with mCurrField := st2.type.nextField field }, log2)

/-! ### Specification-side notions used in the statements -/

/-- The field at position `field` lies strictly before `mCurrField` in declaration
order; every field does when `mCurrField` is `NULL`. -/
def InitNormalize.fieldIsBefore (st : InitNormalize) (field : Nat) : Prop :=
  match st.mCurrField with
  | none => True
  | some c => field < c

instance (st : InitNormalize) (field : Nat) : Decidable (st.fieldIsBefore field) := by
  unfold InitNormalize.fieldIsBefore
  cases st.mCurrField <;> infer_instance

/-- The statement is a field-assignment operation: a `PRIM_SET_MEMBER`,
`PRIM_INIT_FIELD` or `PRIM_INIT_MAYBE_SYNC_SINGLE_FIELD` primitive. -/
def isFieldAssignment : Expr → Bool
  | .callExpr (.prim .PRIM_SET_MEMBER _) => true
  | .callExpr (.prim .PRIM_INIT_FIELD _) => true
  | .callExpr (.prim .PRIM_INIT_MAYBE_SYNC_SINGLE_FIELD _) => true
  | _ => false

/-- The field name a field-assignment operation carries as its second actual. -/
def assignedName : Expr → Option String
  | .callExpr (.prim p (_ :: .symExpr name :: _)) =>
      if isFieldAssignment (.callExpr (.prim p [])) then name.cstring else none
  | _ => none

/-- The field-assignment operations of a statement list, in the order of the list,
each given by the field name it carries. -/
def fieldAssignments (stmts : List Expr) : List (Option String) :=
  (stmts.filter isFieldAssignment).map assignedName

/-- The field is filled by an emission strategy when implicit fill reaches it: it is
not the `outer` pseudo-field and it has a declared type or a default expression. -/
def InitNormalize.filledByStrategy (st : InitNormalize) (field : DefExpr) : Bool :=
  !st.isOuterField field && (field.exprType.isSome || field.init.isSome)

/-! ### A concrete environment and concrete programs -/

/-- The receiver `this` of the example methods. -/
def exThis : Symbol :=
  { id := 1, name := "this", kind := .ArgSymbol, type := { name := "C" },
    immediate := false, cstring := none, flags := [.FLAG_ARG_THIS] }

/-- A variable symbol of the examples. -/
def exVar (id : Nat) (name : String) (type : ChplType) : Symbol :=
  { id := id, name := name, kind := .VarSymbol, type := type,
    immediate := false, cstring := none, flags := [] }

/-- The type `int` of the examples. -/
def exInt : ChplType := { name := "int" }

/-- The type expression `int`. -/
def exIntExpr : Expr := .symExpr exInt.symbol

/-- The call `this.init(...)`. -/
def exThisInit : CallExpr :=
  .named (.callExpr (.named (.unresolvedSymExpr ".")
    [.symExpr exThis, .symExpr (new_CStringSymbol "init")] false)) [] false

/-- The call `super.init(...)`. -/
def exSuperInit : CallExpr :=
  .named (.callExpr (.named (.unresolvedSymExpr ".")
    [.unresolvedSymExpr "super", .symExpr (new_CStringSymbol "init")] false)) [] false

/-- The call `this.initDone()`. -/
def exInitDone : CallExpr :=
  .named (.callExpr (.named (.unresolvedSymExpr ".")
    [.symExpr exThis, .symExpr (new_CStringSymbol "initDone")] false)) [] false

/-- The call is `base.name(...)` for the given test on `base`. -/
def isDotCallOn (isBase : Expr → Bool) (name : String) : CallExpr → Bool
  | .named (.callExpr (.named (.unresolvedSymExpr ".") [base, .symExpr n] _)) _ _ =>
      isBase base && n.cstring == some name
  | _ => false

/-- The expression is a reference to the receiver. -/
def isThisRef : Expr → Bool
  | .symExpr s => s.hasFlag .FLAG_ARG_THIS
  | _ => false

/-- The expression is the unresolved name `super`. -/
def isSuperRef : Expr → Bool
  | .unresolvedSymExpr u => u == "super"
  | _ => false

/-- The statement is the call `this.initDone()`. -/
def isInitDoneStmt : Expr → Bool
  | .callExpr c => isDotCallOn isThisRef "initDone" c
  | _ => false

/-- An environment for the examples: markers are recognized by their shape, a symbol
is a local field when a declaration of the type has that symbol, a call is a local
field access when it is `this.name` for a declared name, the fields of the parent
type are `parentFields`, `int` is the primitive scalar type and `R` the record type
with initializers. -/
def exEnv (parentFields : List DefExpr) : Env :=
  { isThisInit := isDotCallOn isThisRef "init"
    isSuperInit := isDotCallOn isSuperRef "init"
    isInitDone := isDotCallOn isThisRef "initDone"
    hasInitDone := fun b => match b with | .mk _ body => body.any isInitDoneStmt
    toLocalFieldSym := fun t s =>
      let i := t.fields.findIdx (fun d => d.sym == s)
      if i < t.fields.length then some i else none
    toLocalFieldCall := fun t c =>
      match c with
      | .named (.unresolvedSymExpr ".") [.symExpr base, .symExpr n] _ =>
          if base.hasFlag .FLAG_ARG_THIS then
            let i := t.fields.findIdx (fun d => some d.sym.name == n.cstring)
            if i < t.fields.length then some i else none
          else none
      | _ => none
    toSuperFieldSym := fun _ s => parentFields.find? (fun d => d.sym == s)
    toSuperFieldCall := fun _ c =>
      match c with
      | .named (.unresolvedSymExpr ".") [.symExpr base, .symExpr n] _ =>
          if base.hasFlag .FLAG_ARG_THIS then
            parentFields.find? (fun d => some d.sym.name == n.cstring)
          else none
      | _ => none
    isPrimitiveScalar := fun t => t.name == "int"
    isNonGenericClass := fun _ => false
    isNonGenericRecordWithInitializers := fun t => t.name == "R"
    superIsGeneric := fun _ => some false }

/-- The field `a : int`. -/
def exFieldA : DefExpr := { sym := exVar 10 "a" exInt, exprType := some exIntExpr, init := none }

/-- The field `b : int`. -/
def exFieldB : DefExpr := { sym := exVar 11 "b" exInt, exprType := some exIntExpr, init := none }

/-- A record type with the given fields and no methods. -/
def exRecord (fields : List DefExpr) : AggregateType :=
  { fields := fields, methods := [], outer := none, isClass := false, isGeneric := false }

/-- An initializer of type `t` with the given body. -/
def exInit (t : AggregateType) (body : List Expr) : FnSymbol :=
  { name := "init", _this := exThis, thisType := t, body := .mk none body, flags := [],
    _outer := none, formals := [gMethodToken, exThis] }

/-- A state of the initializer `fn` at the given field and phase, in a normal block. -/
def exState (fn : FnSymbol) (currField : Option Nat) (phase : InitPhase) : InitNormalize :=
  { mFn := fn, mCurrField := currField, mPhase := phase,
    mBlockType := .cBlockNormal, mPrevBlockType := .cBlockNormal }

/-- The record with fields `a : int` and `b : int`. -/
def exTypeAB : AggregateType := exRecord [exFieldA, exFieldB]

/-- The expression is a reference to the inherited field `field`: a bare symbol that
is not an immediate and not a field of the type itself, or a call that is not an
access to a field of the type itself, which the type resolves to a field of a parent. -/
def IsSuperFieldRef (env : Env) (st : InitNormalize) (e : Expr) (field : DefExpr) : Prop :=
  (∃ sym, e = .symExpr sym ∧ sym.isImmediate = false ∧
      env.toLocalFieldSym st.type sym = none ∧ env.toSuperFieldSym st.type sym = some field) ∨
  (∃ call, e = .callExpr call ∧
      env.toLocalFieldCall st.type call = none ∧ env.toSuperFieldCall st.type call = some field)

/-- The inherited field `x : int` of the examples. -/
def exParentX : DefExpr := { sym := exVar 20 "x" exInt, exprType := some exIntExpr, init := none }

mutual
/-- The expression contains, at any depth, a bare reference to the symbol `sym`. -/
def Expr.hasBareRef (sym : Symbol) : Expr → Bool
  | .symExpr s => s = sym
  | .namedExpr _ actual => Expr.hasBareRef sym actual
  | .callExpr call => CallExpr.hasBareRef sym call
  | _ => false
/-- The call contains a bare reference to `sym` in its base expression or actuals. -/
def CallExpr.hasBareRef (sym : Symbol) : CallExpr → Bool
  | .prim _ actuals => Expr.hasBareRefIn sym actuals
  | .named baseExpr actuals _ => Expr.hasBareRef sym baseExpr || Expr.hasBareRefIn sym actuals
/-- One of the expressions contains a bare reference to `sym`. -/
def Expr.hasBareRefIn (sym : Symbol) : List Expr → Bool
  | [] => false
  | e :: rest => Expr.hasBareRef sym e || Expr.hasBareRefIn sym rest
end

/-- The bare reference to `sym` is the expression itself or is reached from it
through actuals of calls only, none of these calls being an access to a field of the
type or of a parent (`toLocalField` and `toSuperField` of the call are `NULL`). -/
inductive CheckedRef (env : Env) (st : InitNormalize) (sym : Symbol) : Expr → Prop where
  | here : CheckedRef env st sym (.symExpr sym)
  | actual (call : CallExpr) (a : Expr) :
      env.toLocalFieldCall st.type call = none → env.toSuperFieldCall st.type call = none →
      a ∈ call.actuals → CheckedRef env st sym a → CheckedRef env st sym (.callExpr call)

/-- The bare reference to `sym` is the expression itself or is reached from it
through actuals of calls only, none of these calls being in explicit field-access
form (`isFieldAccess`). -/
inductive RewrittenRef (sym : Symbol) : Expr → Prop where
  | here : RewrittenRef sym (.symExpr sym)
  | actual (call : CallExpr) (a : Expr) :
      isFieldAccess call = false → a ∈ call.actuals → RewrittenRef sym a →
      RewrittenRef sym (.callExpr call)

/-- The call `f(x = b)`: the field `b` inside a named actual. -/
def exNamedActualCall : Expr :=
  .callExpr (.named (.unresolvedSymExpr "f") [.namedExpr "x" (.symExpr exFieldB.sym)] false)

/-- The call `f(x, b)` with the inherited field `x` before the field `b`. -/
def exCallOfXAndB : Expr :=
  .callExpr (.named (.unresolvedSymExpr "f")
    [.symExpr exParentX.sym, .symExpr exFieldB.sym] false)

/-- The call `f(b)`. -/
def exCallOfB : Expr :=
  .callExpr (.named (.unresolvedSymExpr "f") [.symExpr exFieldB.sym] false)

/-- The statements are `pre` followed by one field-assignment operation on the
receiver `this` for the name of `field`, and no statement of `pre` is a
field-assignment operation. -/
def EmitsOneFieldSet (st : InitNormalize) (field : DefExpr) (stmts : List Expr) : Prop :=
  ∃ pre prim value,
    stmts = pre ++ [st.fieldSet prim field value] ∧
    (prim = .PRIM_SET_MEMBER ∨ prim = .PRIM_INIT_FIELD ∨
      prim = .PRIM_INIT_MAYBE_SYNC_SINGLE_FIELD) ∧
    ∀ s ∈ pre, isFieldAssignment s = false

/-- The fields that implicit fill still has to visit: the declarations from
`mCurrField` to the end of the field list. -/
def InitNormalize.remainingFields (st : InitNormalize) : List DefExpr :=
  match st.mCurrField with
  | none => []
  | some c => st.type.fields.drop c

/-- The field gets the `USR_FATAL_CONT` when implicit fill reaches it: it is not the
`outer` pseudo-field and has neither a declared type nor a default expression. -/
def InitNormalize.omittedField (st : InitNormalize) (field : DefExpr) : Bool :=
  !st.isOuterField field && (field.exprType.isNone && field.init.isNone)

/-- What is common to a state before and after implicit fill: everything but
`mCurrField`, and of the method everything but the `outer` formal. -/
def InitNormalize.sameFrame (st st1 : InitNormalize) : Prop :=
  st1.mPhase = st.mPhase ∧ st1.mBlockType = st.mBlockType ∧
  st1.mPrevBlockType = st.mPrevBlockType ∧ st1.mFn.thisType = st.mFn.thisType ∧
  st1.mFn._this = st.mFn._this ∧ st1.mFn.body = st.mFn.body ∧ st1.mFn.flags = st.mFn.flags

/-- What implicit fill of the fields `nodes` adds to a log. -/
def InitNormalize.fillResult (st : InitNormalize) (nodes : List DefExpr) (log log1 : Emitted) :
    Prop :=
  fieldAssignments log1.before
    = fieldAssignments log.before
        ++ (nodes.filter st.filledByStrategy).map (fun d => some d.sym.name) ∧
  fieldAssignments log1.atHead
    = ((nodes.filter st.isOuterField).map (fun _ => some "outer")).reverse
        ++ fieldAssignments log.atHead ∧
  log1.diags = log.diags ++ (nodes.filter st.omittedField).map (fun d => omitFieldMsg d.sym.name) ∧
  log1.removed = log.removed

/-- The declared fields that an initializer has to fill: the field list, without the
`super` pseudo-field at its head when the type is a class. -/
def FnSymbol.realFields (fn : FnSymbol) : List DefExpr :=
  if fn.thisType.isClass then fn.thisType.fields.drop 1 else fn.thisType.fields

/-- The symbol of the `outer` pseudo-field of the examples. -/
def exOuterSym : Symbol := exVar 30 "outer" { name := "Outer" }

/-- The `outer` pseudo-field: no declared type, no default. -/
def exFieldOuter : DefExpr := { sym := exOuterSym, exprType := none, init := none }

/-- A nested record with the fields `a : int` and `outer`. -/
def exTypeAOuter : AggregateType :=
  { fields := [exFieldA, exFieldOuter], methods := [], outer := some exOuterSym,
    isClass := false, isGeneric := false }

/-- The field `a` with the default expression `b` and no declared type. -/
def exFieldAFromB : DefExpr :=
  { sym := exVar 12 "a" dtUnknown, exprType := none, init := some (.symExpr exFieldB.sym) }

/-- The record `[a = b, b : int]`. -/
def exTypeAFromB : AggregateType := exRecord [exFieldAFromB, exFieldB]

/-- The statements of the default-value initialization of an `int` field `name`. -/
def exDefaultInt (name : String) : List Expr :=
  [tmpDefn (newTemp "tmp" exInt),
   .callExpr (.prim .PRIM_MOVE [.symExpr (newTemp "tmp" exInt),
     .callExpr (.named (.unresolvedSymExpr "_defaultOf") [.symExpr exInt.symbol] false)]),
   .callExpr (.prim .PRIM_SET_MEMBER
     [.symExpr exThis, .symExpr (new_CStringSymbol name), .symExpr (newTemp "tmp" exInt)])]

/-- The state `child` is a fork of `parent`: the result of one of the four fork
constructors. -/
def IsFork (parent child : InitNormalize) : Prop :=
  child = parent.forkCond ∨ child = parent.forkLoop ∨ child = parent.forkForall ∨
  ∃ block, InitNormalize.forkBlock block parent = .ok child

/-- The states that the walk over a method body can reach from a state: by
`checkPhase`, `completePhase1`, `initializeFieldsBefore`, `initializeFieldsAtTail` and
`fieldInitFromInitStmt` when they return, and by forking the state, walking from the
fork, and merging the result back. -/
inductive Walk (env : Env) : InitNormalize → InitNormalize → Prop where
  | refl (st : InitNormalize) : Walk env st st
  | checkPhase {st st1 : InitNormalize} (block : BlockStmt) :
      Walk env st st1 → Walk env st (st1.checkPhase env block)
  | completePhase1 {st st1 : InitNormalize} (log : Emitted) (stmt : CallExpr)
      (st2 : InitNormalize) (log2 : Emitted) :
      Walk env st st1 → st1.completePhase1 env log stmt = .ok (st2, log2) → Walk env st st2
  | initializeFieldsBefore {st st1 : InitNormalize} (log : Emitted)
      (st2 : InitNormalize) (log2 : Emitted) :
      Walk env st st1 → st1.initializeFieldsBefore env log = .ok (st2, log2) → Walk env st st2
  | initializeFieldsAtTail {st st1 : InitNormalize} (log : Emitted) (block : BlockStmt)
      (st2 : InitNormalize) (log2 : Emitted) :
      Walk env st st1 → st1.initializeFieldsAtTail env log block = .ok (st2, log2) →
      Walk env st st2
  | fieldInitFromInitStmt {st st1 : InitNormalize} (log : Emitted) (field : Nat)
      (stmt : CallExpr) (st2 : InitNormalize) (log2 : Emitted) :
      Walk env st st1 → st1.fieldInitFromInitStmt env log field stmt = .ok (st2, log2) →
      Walk env st st2
  | forkMerge {st st1 : InitNormalize} (child child1 : InitNormalize) :
      Walk env st st1 → IsFork st1 child → Walk env child child1 →
      Walk env st (st1.merge child1)

/-- The classification of one statement, in the words of the specification: Phase0
for a this-init marker call, Phase1 for a super-init or completion marker call, the
classification of the then-branch for a conditional without else-branch, the
lower-numbered of the two branch classifications for a conditional with both, the
classification of the block or loop body for a nested block or a forall, and Phase2
for a field declaration, any other call and any other statement. -/
def stmtClassification (env : Env) : Expr → InitPhase
  | .callExpr callExpr =>
      if env.isThisInit callExpr then .cPhase0
      else if env.isSuperInit callExpr || env.isInitDone callExpr then .cPhase1
      else .cPhase2
  | .condStmt _ thenStmt none => startPhase env thenStmt
  | .condStmt _ thenStmt (some elseStmt) =>
      InitPhase.min (startPhase env thenStmt) (startPhase env elseStmt)
  | .blockStmt block => startPhase env block
  | .forallStmt loopBody => startPhase env loopBody
  | _ => .cPhase2

/-- The first classification of the list that is not Phase2, and Phase2 when there
is none. -/
def firstNotPhase2 : List InitPhase → InitPhase
  | [] => .cPhase2
  | p :: rest => if p ≠ .cPhase2 then p else firstNotPhase2 rest

/-- The statements of a block. -/
def BlockStmt.body : BlockStmt → List Expr
  | .mk _ body => body

mutual
/-- The statement is a marker call, or has one in a branch, nested block or loop
body, at any depth. -/
def hasMarkerCall (env : Env) : Expr → Bool
  | .callExpr callExpr =>
      env.isThisInit callExpr || env.isSuperInit callExpr || env.isInitDone callExpr
  | .condStmt _ thenStmt none => blockHasMarkerCall env thenStmt
  | .condStmt _ thenStmt (some elseStmt) =>
      blockHasMarkerCall env thenStmt || blockHasMarkerCall env elseStmt
  | .blockStmt block => blockHasMarkerCall env block
  | .forallStmt loopBody => blockHasMarkerCall env loopBody
  | _ => false
/-- The block has a marker call at some depth. -/
def blockHasMarkerCall (env : Env) : BlockStmt → Bool
  | .mk _ body => anyHasMarkerCall env body
/-- One of the statements has a marker call at some depth. -/
def anyHasMarkerCall (env : Env) : List Expr → Bool
  | [] => false
  | stmt :: rest => hasMarkerCall env stmt || anyHasMarkerCall env rest
end

/-- A block whose conditional has `super.init()` in its else-branch only. -/
def exCondBlock : BlockStmt :=
  .mk none [.otherExpr 0,
    .condStmt (.unresolvedSymExpr "c") (.mk none [.otherExpr 1])
      (some (.mk none [.callExpr exSuperInit]))]

/-- `InitNormalize::inLoopBody`. -/
def InitNormalize.inLoopBody (st : InitNormalize) : Bool := st.mBlockType == .cBlockLoop

/-- `InitNormalize::inCondStmt`. -/
def InitNormalize.inCondStmt (st : InitNormalize) : Bool := st.mBlockType == .cBlockCond

/-- `InitNormalize::inParallelStmt`. -/
def InitNormalize.inParallelStmt (st : InitNormalize) : Bool :=
  st.mBlockType == .cBlockBegin || st.mBlockType == .cBlockCobegin

/-- `InitNormalize::inCoforall`. -/
def InitNormalize.inCoforall (st : InitNormalize) : Bool := st.mBlockType == .cBlockCoforall

/-- `InitNormalize::inForall`. -/
def InitNormalize.inForall (st : InitNormalize) : Bool := st.mBlockType == .cBlockForall

/-- `InitNormalize::inOn`. -/
def InitNormalize.inOn (st : InitNormalize) : Bool := st.mBlockType == .cBlockOn

/-- `InitNormalize::inOnInLoopBody`. -/
def InitNormalize.inOnInLoopBody (st : InitNormalize) : Bool :=
  st.inOn && st.mPrevBlockType == .cBlockLoop

/-- `InitNormalize::inOnInCondStmt`. -/
def InitNormalize.inOnInCondStmt (st : InitNormalize) : Bool :=
  st.inOn && st.mPrevBlockType == .cBlockCond

/-- `InitNormalize::inOnInParallelStmt`. -/
def InitNormalize.inOnInParallelStmt (st : InitNormalize) : Bool :=
  st.inOn && (st.mPrevBlockType == .cBlockBegin || st.mPrevBlockType == .cBlockCobegin)

/-- `InitNormalize::inOnInCoforall`. -/
def InitNormalize.inOnInCoforall (st : InitNormalize) : Bool :=
  st.inOn && st.mPrevBlockType == .cBlockCoforall

/-- `InitNormalize::inOnInForall`. -/
def InitNormalize.inOnInForall (st : InitNormalize) : Bool :=
  st.inOn && st.mPrevBlockType == .cBlockForall

/-- The state `child` has the method, phase and current field of `parent`, the block
kind `kind`, and as previous block kind the block kind of `parent` when `kind`
differs from it and the previous block kind of `parent` otherwise. -/
def IsForkOfKind (parent : InitNormalize) (kind : BlockType) (child : InitNormalize) : Prop :=
  child.mFn = parent.mFn ∧ child.mPhase = parent.mPhase ∧
  child.mCurrField = parent.mCurrField ∧ child.mBlockType = kind ∧
  child.mPrevBlockType
    = (if kind ≠ parent.mBlockType then parent.mBlockType else parent.mPrevBlockType)

/-- The block is an on-block: its `blockInfo` is the primitive `PRIM_BLOCK_ON`. -/
def BlockStmt.isOnBlock : BlockStmt → Bool
  | .mk (some blockInfo) _ => blockInfo.isPrimitive .PRIM_BLOCK_ON
  | .mk none _ => false

/-- The block carries no tag: it has no `blockInfo`. -/
def BlockStmt.isUntagged : BlockStmt → Bool
  | .mk none _ => true
  | .mk (some _) _ => false

/-- The states reached from a state by forking any number of times into untagged
nested blocks or on-blocks. -/
inductive NestedInBlocks : InitNormalize → InitNormalize → Prop where
  | refl (st : InitNormalize) : NestedInBlocks st st
  | fork {st st1 : InitNormalize} (block : BlockStmt) (st2 : InitNormalize) :
      NestedInBlocks st st1 → (block.isUntagged = true ∨ block.isOnBlock = true) →
      InitNormalize.forkBlock block st1 = .ok st2 → NestedInBlocks st st2

/-- An on-block with an empty body. -/
def exOnBlock : BlockStmt := .mk (some (.prim .PRIM_BLOCK_ON [])) []

/-- A begin-block with an empty body. -/
def exBeginBlock : BlockStmt := .mk (some (.prim .PRIM_BLOCK_BEGIN [])) []

/-- An untagged block with an empty body. -/
def exPlainBlock : BlockStmt := .mk none []

/-- A state of the initializer `fn` in Phase2 whose body has no completion marker. -/
def exPhase2State : InitNormalize := exState (exInit exTypeAB []) none .cPhase2

/-- A field `name` with neither a declared type nor a default expression. -/
def exFieldBare (id : Nat) (name : String) : DefExpr :=
  { sym := exVar id name dtUnknown, exprType := none, init := none }

/-- The record `[a : int, c, d, b : int]` in which `c` and `d` have neither a type
nor a default. -/
def exTypeACDB : AggregateType :=
  exRecord [exFieldA, exFieldBare 13 "c", exFieldBare 14 "d", exFieldB]

/-- The environment resolves the symbol `s` neither to a field of the type nor to a
field of a parent. -/
def NotAField (env : Env) (st : InitNormalize) (s : Symbol) : Prop :=
  env.toLocalFieldSym st.type s = none ∧ env.toSuperFieldSym st.type s = none

/-- The symbols that the pass itself puts into expressions are not fields: the
receiver `this`, the method token, and the C-string symbols that carry field names. -/
def PassSymbolsAreNotFields (env : Env) (st : InitNormalize) : Prop :=
  NotAField env st st.mFn._this ∧ NotAField env st gMethodToken ∧
  ∀ name, NotAField env st (new_CStringSymbol name)

/-- The first actual is a reference to `gMethodToken`. -/
def firstActualIsMethodToken : List Expr → Bool
  | .symExpr firstArg :: _ => firstArg = gMethodToken
  | _ => false

/-- The base expression `this.name` that `handleInsertedMethodCall` builds. -/
def InitNormalize.dotMethod (st : InitNormalize) (name : String) : Expr :=
  .callExpr (.named (.unresolvedSymExpr ".")
    [.symExpr st.mFn._this, .unresolvedSymExpr name] false)

/-- A record with the given fields and the method `foo`. -/
def exRecordWithFoo (fields : List DefExpr) : AggregateType :=
  { fields := fields, methods := ["foo"], outer := none, isClass := false, isGeneric := false }

/-- The record `[a, b]` with the method `foo`. -/
def exTypeABWithFoo : AggregateType := exRecordWithFoo [exFieldA, exFieldB]

/-- The state in which `a` of `[a, b]` is initialized and `b` is not. -/
def exStateFoo : InitNormalize := exState (exInit exTypeABWithFoo []) (some 1) .cPhase1

/-- The rewritten call `this.foo(this.a)`. -/
def exCallFooOfARewritten : Expr :=
  .callExpr (.named (exStateFoo.dotMethod "foo") [exStateFoo.getMember "a"] false)

/-- The call `foo(a)`. -/
def exCallFooOfA : Expr :=
  .callExpr (.named (.unresolvedSymExpr "foo") [.symExpr exFieldA.sym] false)

/-- The field declaration has a declared type or a default expression. -/
def DefExpr.hasTypeOrDefault (d : DefExpr) : Bool := d.exprType.isSome || d.init.isSome

/-- The choice of strategy in `fieldInitFromStmt` for the declaration `field` and the
right-hand side `initExpr`. -/
def InitNormalize.strategyForRhs (env : Env) (st : InitNormalize) (field : DefExpr)
    (initExpr : Expr) : Except Failure (List Expr) :=
  if field.sym.hasFlag .FLAG_PARAM then
    if field.exprType.isSome then st.genericFieldInitTypeWithInit env field initExpr
    else st.genericFieldInitTypeInference env field initExpr
  else if field.sym.hasFlag .FLAG_TYPE_VARIABLE then
    st.genericFieldInitTypeInference env field initExpr
  else if field.exprType.isNone && field.init.isNone then
    st.genericFieldInitTypeInference env field initExpr
  else if field.exprType.isSome then st.fieldInitTypeWithInit env field initExpr
  else st.fieldInitTypeInference env field initExpr

/-- What the implicit fill of the skipped fields `skipped` by `fieldInitFromField`
adds to a log: statements in front of the insertion point with one field-assignment
operation, in order, for each field that has a type or a default, and one continuable
diagnostic for each field that has neither. -/
def ImplicitFill (skipped : List DefExpr) (log log1 : Emitted) : Prop :=
  ∃ stmts, log1.before = log.before ++ stmts ∧
    fieldAssignments stmts
      = (skipped.filter DefExpr.hasTypeOrDefault).map (fun d => some d.sym.name) ∧
    log1.atHead = log.atHead ∧ log1.removed = log.removed ∧
    log1.diags = log.diags ++
      (skipped.filter (fun d => !d.hasTypeOrDefault)).map (fun d => omitFieldMsg d.sym.name)

/-- The access `this.name`. -/
def exThisDot (name : String) : Expr :=
  .callExpr (.named (.unresolvedSymExpr ".")
    [.symExpr exThis, .symExpr (new_CStringSymbol name)] false)

/-- The statement `this.name = rhs`. -/
def exAssign (name : String) (rhs : Expr) : CallExpr :=
  .named (.unresolvedSymExpr "=") [exThisDot name, rhs] false

/-- The integer literal `n`. -/
def exLit (n : Nat) : Symbol :=
  { id := 100 + n, name := "_literal", kind := .VarSymbol, type := exInt,
    immediate := true, cstring := none, flags := [] }

/-- The field `b` with the default expression `7` and no declared type. -/
def exFieldBDefault : DefExpr :=
  { sym := exVar 11 "b" dtUnknown, exprType := none, init := some (.symExpr (exLit 7)) }

/-- The record `[a : int, b = 7]`. -/
def exTypeADefaultB : AggregateType := exRecord [exFieldA, exFieldBDefault]

/-- The record `[c, a : int]` in which `c` has neither a type nor a default. -/
def exTypeCA : AggregateType := exRecord [exFieldBare 13 "c", exFieldA]

/-- The record `[b : int, a : int]`. -/
def exTypeBA : AggregateType := exRecord [exFieldB, exFieldA]

/-- The statements emitted for `this.a = 5;` followed by the completion marker in
the record `[a : int, b = 7]`. -/
def exScenario2Emitted : List Expr :=
  [tmpDefn (newTemp "tmp" exInt),
   .callExpr (.named (.unresolvedSymExpr "=")
     [.symExpr (newTemp "tmp" exInt), .symExpr (exLit 5)] false),
   .callExpr (.prim .PRIM_SET_MEMBER
     [.symExpr exThis, .symExpr (new_CStringSymbol "a"), .symExpr (newTemp "tmp" exInt)]),
   tmpDefn (newTemp "tmp" exInt),
   .callExpr (.prim .PRIM_MOVE [.symExpr (newTemp "tmp" exInt), .symExpr (exLit 7)]),
   .callExpr (.prim .PRIM_SET_MEMBER
     [.symExpr exThis, .symExpr (new_CStringSymbol "b"), .symExpr (newTemp "tmp" exInt)])]

/-- The expression reads the field at position `a` of the type `t` through an explicit
access that `fieldUsedBeforeInitialized` visits: it is a call that is not an
assignment and that `toLocalField` resolves to `a`, or such a call is reached from it
through the base expression or an actual of a call that is not an assignment and that
`toLocalField` does not resolve, through the right-hand side of an assignment, or
through the initial value of a declaration. -/
inductive FlaggedRead (env : Env) (t : AggregateType) (a : Nat) : Expr → Prop where
  | here (call : CallExpr) :
      isAssignment call = false → env.toLocalFieldCall t call = some a →
      FlaggedRead env t a (.callExpr call)
  | base (baseExpr : Expr) (actuals : List Expr) (square : Bool) :
      isAssignment (.named baseExpr actuals square) = false →
      env.toLocalFieldCall t (.named baseExpr actuals square) = none →
      FlaggedRead env t a baseExpr →
      FlaggedRead env t a (.callExpr (.named baseExpr actuals square))
  | actual (call : CallExpr) (e : Expr) :
      isAssignment call = false → env.toLocalFieldCall t call = none →
      e ∈ call.actuals → FlaggedRead env t a e → FlaggedRead env t a (.callExpr call)
  | rhs (call : CallExpr) (lhs rhs : Expr) (rest : List Expr) :
      isAssignment call = true → call.actuals = lhs :: rhs :: rest →
      FlaggedRead env t a rhs → FlaggedRead env t a (.callExpr call)
  | init (sym : Symbol) (exprType : Option Expr) (e : Expr) :
      FlaggedRead env t a e → FlaggedRead env t a (.defExpr sym exprType (some e))

/-- The right-hand side `rhs` holds a bare reference to `sym` where the initialization
of a field from `rhs` rewrites it: the reference is `rhs` itself or is reached from it
through actuals of calls that are not in field-access form, and when `rhs` is a `new`
expression, whose arguments alone are visited for a field of a record type with
initializers, the reference is so reached from one of these arguments. -/
def ReadInRhs (sym : Symbol) (rhs : Expr) : Prop :=
  RewrittenRef sym rhs ∧
  (isNewExpr rhs = true → ∀ p base actuals square tail,
    rhs = .callExpr (.prim p (.callExpr (.named base actuals square) :: tail)) →
    ∃ e, e ∈ actuals ∧ RewrittenRef sym e)

/-- The sum `a + 1` with the field `a` of `exTypeBA` as a bare symbol. -/
def exBarePlusOne : Expr :=
  .callExpr (.named (.unresolvedSymExpr "+") [.symExpr exFieldA.sym, .symExpr (exLit 1)] false)

/-- The sum `this.a + 1`. -/
def exThisDotPlusOne : Expr :=
  .callExpr (.named (.unresolvedSymExpr "+") [exThisDot "a", .symExpr (exLit 1)] false)

/-- The call `f(x = a)`: the field `a` inside a named actual. -/
def exNamedActualOfA : Expr :=
  .callExpr (.named (.unresolvedSymExpr "f") [.namedExpr "x" (.symExpr exFieldA.sym)] false)

/-- The position of the first real field of a type: the first declared field, and
for a class the field after the `super` pseudo-field that heads the list; `NULL` when
there is no such field. -/
def AggregateType.firstRealField (t : AggregateType) : Option Nat :=
  if (if t.isClass then 1 else 0) < t.fields.length then some (if t.isClass then 1 else 0)
  else none

/-- What the constructor from a method needs of the type of a class: the `super`
pseudo-field heads the field list, and when the class is generic the type of that
field is an aggregate type. -/
def FnSymbol.classHasSuperField (env : Env) (fn : FnSymbol) : Prop :=
  fn.thisType.isClass = true →
    fn.thisType.fields ≠ [] ∧
    (fn.thisType.isGeneric = true →
      ∀ d, fn.thisType.fields.head? = some d → env.superIsGeneric d.sym.type ≠ none)

/-- The `super` pseudo-field of a class of the examples. -/
def exFieldSuper : DefExpr :=
  { sym := exVar 40 "super" { name := "object" }, exprType := none, init := none }

/-- A class with the given fields and no methods. -/
def exClass (fields : List DefExpr) : AggregateType :=
  { fields := fields, methods := [], outer := none, isClass := true, isGeneric := false }

/-- The condition under which `handleInsertedMethodCall` rewrites the call: the base
expression is the unresolved name `us`, the first actual is not `gMethodToken`, and
`us` is the name of a method in the method list of the type. -/
def InitNormalize.isInsertedMethodCall (st : InitNormalize) (call : CallExpr) (us : String) :
    Prop :=
  (∃ actuals square, call = .named (.unresolvedSymExpr us) actuals square) ∧
  firstActualIsMethodToken call.actuals = false ∧ us ∈ st.type.methods

/-- The base expression of a call, `NULL` for a primitive. -/
def CallExpr.baseExpr : CallExpr → Option Expr
  | .prim _ _ => none
  | .named b _ _ => some b

/-- The log `log1` is the log `log` with statements added at the head of the method
body and in front of the insertion point and with diagnostics added; nothing is
removed from the tree and nothing is put behind the insertion point. -/
def Emitted.ExtendedTo (log log1 : Emitted) : Prop :=
  ∃ newHead newBefore newDiags,
    log1.atHead = newHead ++ log.atHead ∧ log1.before = log.before ++ newBefore ∧
    log1.diags = log.diags ++ newDiags ∧ log1.removed = log.removed

/-- The statement `init` initializes the temporary `tmp`: it is `PRIM_MOVE(tmp, e)`,
`PRIM_INIT_VAR(tmp, e)`, the assignment `tmp = e`, the call `init(_mt, tmp, ...)`, or
that call as rewritten by the check and rewrite of its actuals. -/
def InitNormalize.IsTempInit (env : Env) (st : InitNormalize) (tmp : Symbol) (init : Expr) :
    Prop :=
  (∃ e, init = .callExpr (.prim .PRIM_MOVE [.symExpr tmp, e])) ∨
  (∃ e, init = .callExpr (.prim .PRIM_INIT_VAR [.symExpr tmp, e])) ∨
  (∃ e, init = .callExpr (.named (.unresolvedSymExpr "=") [.symExpr tmp, e] false)) ∨
  (∃ rest, init = .callExpr (.named (.unresolvedSymExpr "init")
      (.symExpr gMethodToken :: .symExpr tmp :: rest) false)) ∨
  (∃ rest sq, st.checkAndUpdate env (.callExpr (.named (.unresolvedSymExpr "init")
      (.symExpr gMethodToken :: .symExpr tmp :: rest) sq)) = .ok init)

/-- The statements are exactly a temporary binding, an initialization of that
temporary, and a field-assignment of `field` that stores the temporary. -/
def InitNormalize.IsTempTriple (env : Env) (st : InitNormalize) (field : DefExpr)
    (stmts : List Expr) : Prop :=
  ∃ tmp init prim,
    stmts = [tmpDefn tmp, init, st.fieldSet prim field (.symExpr tmp)] ∧
    st.IsTempInit env tmp init ∧ (prim = .PRIM_SET_MEMBER ∨ prim = .PRIM_INIT_FIELD)

/-- The statements are exactly a temporary binding, the move of the default of the
declared type into the temporary, the assignment of the initializer to the temporary,
and a `PRIM_SET_MEMBER` of `field` that stores the temporary. -/
def InitNormalize.IsTempQuad (st : InitNormalize) (field : DefExpr) (stmts : List Expr) :
    Prop :=
  ∃ tmp typeExpr init,
    stmts = [tmpDefn tmp, .callExpr (.prim .PRIM_MOVE [.symExpr tmp, typeExpr]),
      .callExpr (.named (.unresolvedSymExpr "=") [.symExpr tmp, init] false),
      st.fieldSet .PRIM_SET_MEMBER field (.symExpr tmp)]

/-- The param field `p : int` with the default expression `5`. -/
def exParamP : DefExpr :=
  { sym := (exVar 15 "p" exInt).addFlag .FLAG_PARAM, exprType := some exIntExpr,
    init := some (.symExpr (exLit 5)) }

/-- A type that is neither a primitive scalar nor a class or record known to the
example environment. -/
def exTypeT : ChplType := { name := "T" }

/-- The field `t : T` with the default expression `5`. -/
def exFieldTyped : DefExpr :=
  { sym := exVar 16 "t" exTypeT, exprType := some (.symExpr exTypeT.symbol),
    init := some (.symExpr (exLit 5)) }

/-- The record `[p, t]` with the param field `p : int = 5` and the field `t : T = 5`. -/
def exTypePT : AggregateType := exRecord [exParamP, exFieldTyped]

/-- The temporary of the strategies for a param field: `newTemp("tmp", type)` with
`FLAG_PARAM`. -/
def paramTemp (field : DefExpr) : Symbol := (newTemp "tmp" field.sym.type).addFlag .FLAG_PARAM

/-- The type-variable field `t : int`, which is not a param. -/
def exTypeVarTyped : DefExpr :=
  { sym := (exVar 17 "t" exInt).addFlag .FLAG_TYPE_VARIABLE, exprType := some exIntExpr,
    init := none }

/-- The param field `q : int` without default. -/
def exParamQ : DefExpr :=
  { sym := (exVar 18 "q" exInt).addFlag .FLAG_PARAM, exprType := some exIntExpr, init := none }

/-- The record `[t, q, p]` of generic fields with a declared type. -/
def exTypeGeneric : AggregateType := exRecord [exTypeVarTyped, exParamQ, exParamP]

/-- The expression `new R(5)`. -/
def exNewR : CallExpr :=
  .prim .PRIM_NEW [.callExpr (.named (.unresolvedSymExpr "R") [.symExpr (exLit 5)] false)]

/-- The type-variable field `tv` without declared type. -/
def exTypeVarField : DefExpr :=
  { sym := (exVar 19 "tv" dtUnknown).addFlag .FLAG_TYPE_VARIABLE, exprType := none,
    init := some (.callExpr exNewR) }

/-- The param field `pv` without declared type. -/
def exParamField : DefExpr :=
  { sym := (exVar 21 "pv" dtUnknown).addFlag .FLAG_PARAM, exprType := none,
    init := some (.callExpr exNewR) }

/-- The field `r` without declared type, neither param nor type variable, with the
default expression `new R(5)`. -/
def exFieldNew : DefExpr :=
  { sym := exVar 22 "r" dtUnknown, exprType := none, init := some (.callExpr exNewR) }

/-- The field `k` without declared-type expression, whose type is already known to be
`int`, with the default expression `5`. -/
def exFieldKnown : DefExpr :=
  { sym := exVar 24 "k" exInt, exprType := none, init := some (.symExpr (exLit 5)) }

/-- The record `[k, a : int]`. -/
def exTypeKA : AggregateType := exRecord [exFieldKnown, exFieldA]

/-- A nested record with the fields `outer` and `a : int`. -/
def exTypeOuterA : AggregateType :=
  { fields := [exFieldOuter, exFieldA], methods := [], outer := some exOuterSym,
    isClass := false, isGeneric := false }

/-- The field is one on which the two paths of implicit fill choose differently: the
`outer` pseudo-field, or an ordinary field with a default expression and no
declared-type expression whose type is already known. -/
def InitNormalize.fillPathsDiffer (st : InitNormalize) (field : DefExpr) : Bool :=
  st.isOuterField field ||
  (!field.sym.hasFlag .FLAG_PARAM && !field.sym.hasFlag .FLAG_TYPE_VARIABLE &&
    field.exprType.isNone && field.init.isSome && decide (field.sym.type ≠ dtUnknown))

/-- The statement is a maybe-sync-single operation
`PRIM_INIT_MAYBE_SYNC_SINGLE_FIELD(...)`. -/
def isMaybeSyncOp : Expr → Bool
  | .callExpr (.prim .PRIM_INIT_MAYBE_SYNC_SINGLE_FIELD _) => true
  | _ => false

/-- The conditions under which `fieldInitTypeWithInit` reaches its deferred branch:
the type of the field is neither a primitive scalar, a non-generic class nor a
non-generic record with initializers, the method is compiler-generated, the
declaration has no default expression, and the declared type might be a sync or
single. -/
def InitNormalize.maybeSyncGate (env : Env) (st : InitNormalize) (field : DefExpr) : Bool :=
  !(env.isPrimitiveScalar field.sym.type || env.isNonGenericClass field.sym.type) &&
  !env.isNonGenericRecordWithInitializers field.sym.type &&
  (st.mFn.hasFlag .FLAG_COMPILER_GENERATED && field.init.isNone && mightBeSyncSingleExpr field)

/-- A type variable `t` used as a declared type. -/
def exTypeVarSym : Symbol := (exVar 25 "t" dtUnknown).addFlag .FLAG_TYPE_VARIABLE

/-- The field `s : t` whose declared type is the type variable `t`, without default. -/
def exFieldOfTypeVar : DefExpr :=
  { sym := exVar 26 "s" dtUnknown, exprType := some (.symExpr exTypeVarSym), init := none }

/-- A compiler-generated initializer of type `t` with the given body. -/
def exGeneratedInit (t : AggregateType) (body : List Expr) : FnSymbol :=
  { name := "init", _this := exThis, thisType := t, body := .mk none body,
    flags := [.FLAG_COMPILER_GENERATED], _outer := none, formals := [gMethodToken, exThis] }

/-- The states reached from `root` by forks and merges: a fork of a reached state is
reached, and so is a reached state after the merge of a reached state into it. -/
inductive ForkReach (root : InitNormalize) : InitNormalize → Prop where
  | root : ForkReach root root
  | fork {s t : InitNormalize} : ForkReach root s → IsFork s t → ForkReach root t
  | merge {s t : InitNormalize} : ForkReach root s → ForkReach root t → ForkReach root (s.merge t)

/-- The block kinds of a state fit together: both are `cBlockNormal`, or the block
kind is not `cBlockNormal` and the previous block kind differs from it. -/
def InitNormalize.blockKindsConsistent (st : InitNormalize) : Prop :=
  (st.mBlockType = .cBlockNormal ∧ st.mPrevBlockType = .cBlockNormal) ∨
  (st.mBlockType ≠ .cBlockNormal ∧ st.mPrevBlockType ≠ st.mBlockType)

/-- What ends a run of `isFieldAccessible`: the value `true`, a `USR_FATAL`, or the
failed `INT_ASSERT(false)` for a node that is none of the kinds it knows. -/
def IsAccessOutcome (r : Except Failure Bool) : Prop :=
  r = .ok true ∨ r = .error .intAssert ∨ ∃ msg, r = .error (.usrFatal msg)

/-- The formal `outer` that `makeOuterArg` creates for the outer type `outerType`:
`new ArgSymbol(INTENT_BLANK, "outer", outerType)` with `FLAG_GENERIC`. -/
def outerFormal (outerType : ChplType) : Symbol :=
  { id := 0, name := "outer", kind := .ArgSymbol, type := outerType,
    immediate := false, cstring := none, flags := [.FLAG_GENERIC] }

/-- The state after `makeOuterArg` for the `outer` pseudo-field `field`: the method has
the formal `outer` after `this`. -/
def InitNormalize.withOuterFormal (st : InitNormalize) (field : DefExpr) : InitNormalize :=
  { st with mFn := { st.mFn with
      _outer := some (outerFormal field.sym.type),
      formals := insertFormalAfter st.mFn._this (outerFormal field.sym.type) st.mFn.formals } }

/-- The log after `makeOuterArg` in the state `st`: `PRIM_SET_MEMBER(this, "outer",
outer)` at the head of the method body. -/
def Emitted.withOuterSet (log : Emitted) (st : InitNormalize) (field : DefExpr) : Emitted :=
  { log with atHead :=
      .callExpr (.prim .PRIM_SET_MEMBER
        [.symExpr st.mFn._this, .symExpr (new_CStringSymbol "outer"),
         .symExpr (outerFormal field.sym.type)]) :: log.atHead }

/-- The call `init(_mt, tmp, args...)` on the temporary `tmp`. -/
def initCallOn (tmp : Symbol) (args : List Expr) (square : Bool) : Expr :=
  .callExpr (.named (.unresolvedSymExpr "init")
    (.symExpr gMethodToken :: .symExpr tmp :: args) square)

/-- The field `r : R` of the record type `R` with initializers. -/
def exFieldR : DefExpr :=
  { sym := exVar 27 "r" { name := "R" }, exprType := some (.symExpr (ChplType.symbol { name := "R" })),
    init := none }

/-- The record `[a : int, r : R]`. -/
def exTypeAR : AggregateType := exRecord [exFieldA, exFieldR]

/-- The expression `new R(a, 5)` with the field `a` as a bare symbol. -/
def exNewROfA : Expr :=
  .callExpr (.prim .PRIM_NEW
    [.callExpr (.named (.unresolvedSymExpr "R") [.symExpr exFieldA.sym, .symExpr (exLit 5)] false)])

/-- No statement of the log, at the head of the body or in front of the insertion
point, is a maybe-sync-single operation. -/
def Emitted.noMaybeSync (log : Emitted) : Prop :=
  (∀ s ∈ log.atHead, isMaybeSyncOp s = false) ∧ (∀ s ∈ log.before, isMaybeSyncOp s = false)

/-- The initializer of the type `t` of the examples, compiler-generated, with an empty
body. -/
def exGeneratedState (t : AggregateType) (cur : Option Nat) : InitNormalize :=
  exState (exGeneratedInit t []) cur .cPhase1

/-- What a strategy that returns has rewritten of the initializer `d`: `d` itself, or
the `init` call built from the arguments of the `new` expression `d`. -/
def InitNormalize.RewritesInit (env : Env) (st : InitNormalize) (d : Expr) : Prop :=
  (∃ e1, st.updateFieldsMember env d = .ok e1) ∨
  (isNewExpr d = true ∧ ∃ p base actuals square tail tmp e1,
    d = .callExpr (.prim p (.callExpr (.named base actuals square) :: tail)) ∧
    st.updateFieldsMember env (.callExpr (.named (.unresolvedSymExpr "init")
      (.symExpr gMethodToken :: .symExpr tmp :: actuals) square)) = .ok e1)

/-- The field `b` without declared type whose default expression is `f(x = a)`. -/
def exFieldBNamed : DefExpr :=
  { sym := exVar 11 "b" dtUnknown, exprType := none, init := some exNamedActualOfA }

/-- The record `[b = f(x = a), a : int]`. -/
def exTypeBNamedA : AggregateType := exRecord [exFieldBNamed, exFieldA]

/-- The field `b` without declared type whose default expression is the field `a`. -/
def exFieldBFromA : DefExpr :=
  { sym := exVar 11 "b" dtUnknown, exprType := none, init := some (.symExpr exFieldA.sym) }

/-- The record `[a : int, b = a]`. -/
def exTypeABFromA : AggregateType := exRecord [exFieldA, exFieldBFromA]

/-- The field `c` without declared type whose default expression is `c` itself. -/
def exFieldSelf : DefExpr :=
  { sym := exVar 28 "c" dtUnknown, exprType := none, init := some (.symExpr (exVar 28 "c" dtUnknown)) }

/-- The record `[c = c]`. -/
def exTypeSelf : AggregateType := exRecord [exFieldSelf]

/-! ## Theorems -/

/-! ### The initialized-field scan -/

theorem isFieldInitializedFrom_eq_true (field : Nat) (nodes : List DefExpr) (pos : Nat) :
    isFieldInitializedFrom field pos nodes = true ↔ ¬ (pos ≤ field ∧ field < pos + nodes.length) := by
  induction nodes generalizing pos with
  | nil => simp [isFieldInitializedFrom]
  | cons d rest ih =>
      unfold isFieldInitializedFrom
      by_cases h : pos = field
      · subst h
        simp
      · simp only [h, if_false, ih, List.length_cons]
        constructor
        · intro hn hc
          apply hn
          omega
        · intro hn hc
          apply hn
          omega

theorem isFieldInitialized_iff_before (st : InitNormalize) (field : Nat)
    (hField : field < st.type.fields.length) :
    st.isFieldInitialized field = true ↔ st.fieldIsBefore field := by
  unfold InitNormalize.isFieldInitialized InitNormalize.fieldIsBefore
  cases hc : st.mCurrField with
  | none => simp
  | some c =>
      simp only [isFieldInitializedFrom_eq_true, List.length_drop]
      constructor
      · intro hn
        by_contra hlt
        apply hn
        omega
      · intro hlt hc2
        omega

theorem local_field_accessible_iff (env : Env) (st : InitNormalize) (sym : Symbol)
    (field : Nat) (hImm : sym.isImmediate = false)
    (hLocal : env.toLocalFieldSym st.type sym = some field)
    (hField : field < st.type.fields.length) :
    (st.isFieldAccessible env (.symExpr sym) = .ok true ↔ st.fieldIsBefore field) ∧
    (¬ st.fieldIsBefore field →
      st.isFieldAccessible env (.symExpr sym)
        = .error (.usrFatal (usedBeforeDefinedMsg (st.type.fieldName field)))) := by
  have key := isFieldInitialized_iff_before st field hField
  rw [InitNormalize.isFieldAccessible]
  simp only [hImm, hLocal]
  by_cases hb : st.fieldIsBefore field
  · have hi : st.isFieldInitialized field = true := key.mpr hb
    simp [hi, hb]
  · have hi : st.isFieldInitialized field = false := by
      cases h : st.isFieldInitialized field
      · rfl
      · exact absurd (key.mp h) hb
    simp [hi, hb]

/-- C1: for a bare reference to a non-immediate symbol that is the field at position
`field` of the type under construction, `isFieldAccessible` returns `true` exactly
when the field lies strictly before `mCurrField` (always, when `mCurrField` is
`NULL`), and otherwise ends in the `USR_FATAL` "'name' used before defined". -/
theorem isFieldAccessible_local_field (env : Env) (st : InitNormalize) (sym : Symbol)
    (field : Nat) (hImm : sym.isImmediate = false)
    (hLocal : env.toLocalFieldSym st.type sym = some field)
    (hField : field < st.type.fields.length) :
    (st.isFieldAccessible env (.symExpr sym) = .ok true ↔ st.fieldIsBefore field) ∧
    (¬ st.fieldIsBefore field →
      st.isFieldAccessible env (.symExpr sym)
        = .error (.usrFatal (usedBeforeDefinedMsg (st.type.fieldName field)))) :=
  local_field_accessible_iff env st sym field hImm hLocal hField

/-- Witness of C1 at the record `[a, b]` with `mCurrField` at `b`: `a` is accepted. -/
theorem isFieldAccessible_local_field_witness :
    ((exState (exInit exTypeAB []) (some 1) .cPhase1).isFieldAccessible (exEnv [])
        (.symExpr exFieldA.sym) = .ok true
      ↔ (exState (exInit exTypeAB []) (some 1) .cPhase1).fieldIsBefore 0) ∧
    (¬ (exState (exInit exTypeAB []) (some 1) .cPhase1).fieldIsBefore 0 →
      (exState (exInit exTypeAB []) (some 1) .cPhase1).isFieldAccessible (exEnv [])
        (.symExpr exFieldA.sym)
        = .error (.usrFatal (usedBeforeDefinedMsg
            ((exState (exInit exTypeAB []) (some 1) .cPhase1).type.fieldName 0)))) :=
  isFieldAccessible_local_field (exEnv []) (exState (exInit exTypeAB []) (some 1) .cPhase1)
    exFieldA.sym 0 (by decide) (by decide) (by decide)

/-- C3: a reference to an inherited field is accepted by `isFieldAccessible` exactly
when the phase is Phase2 or the method body has a completion marker; otherwise the
run ends in the `USR_FATAL` "Cannot access parent field 'name' during phase 1", in
particular in Phase0 and Phase1 without a completion marker. -/
theorem isFieldAccessible_super_field (env : Env) (st : InitNormalize) (e : Expr)
    (field : DefExpr) (hRef : IsSuperFieldRef env st e field) :
    (st.isFieldAccessible env e = .ok true
      ↔ (st.mPhase = .cPhase2 ∨ env.hasInitDone st.mFn.body = true)) ∧
    (¬ (st.mPhase = .cPhase2 ∨ env.hasInitDone st.mFn.body = true) →
      st.isFieldAccessible env e = .error (.usrFatal (parentFieldMsg field.sym.name))) ∧
    ((st.mPhase = .cPhase0 ∨ st.mPhase = .cPhase1) → env.hasInitDone st.mFn.body = false →
      st.isFieldAccessible env e = .error (.usrFatal (parentFieldMsg field.sym.name))) := by
  have hval : st.isFieldAccessible env e =
      if env.hasInitDone st.mFn.body || st.isPhase2 then .ok true
      else .error (.usrFatal (parentFieldMsg field.sym.name)) := by
    rcases hRef with ⟨sym, rfl, hImm, hLoc, hSup⟩ | ⟨call, rfl, hLoc, hSup⟩
    · rw [InitNormalize.isFieldAccessible]
      simp only [hImm, hLoc, hSup]
      rfl
    · rw [InitNormalize.isFieldAccessible]
      simp only [hLoc, hSup]
  rw [hval]
  unfold InitNormalize.isPhase2
  cases hd : env.hasInitDone st.mFn.body <;> cases hp : st.mPhase <;> simp

/-- Witness of C3: the derived type reads the inherited field `x` in Phase1 with no
completion marker in the body, and is rejected. -/
theorem isFieldAccessible_super_field_witness :
    (exState (exInit exTypeAB []) (some 0) .cPhase1).isFieldAccessible (exEnv [exParentX])
        (.symExpr exParentX.sym)
      = .error (.usrFatal "Cannot access parent field 'x' during phase 1") :=
  (isFieldAccessible_super_field (exEnv [exParentX])
    (exState (exInit exTypeAB []) (some 0) .cPhase1) (.symExpr exParentX.sym) exParentX
    (Or.inl ⟨exParentX.sym, rfl, by decide, by decide, rfl⟩)).2.2 (Or.inr rfl) (by decide)

mutual
theorem isFieldAccessible_ne_false (env : Env) (st : InitNormalize) :
    ∀ e : Expr, st.isFieldAccessible env e ≠ .ok false
  | .symExpr sym => by
      rw [InitNormalize.isFieldAccessible]
      split
      · simp
      · split
        · split <;> simp
        · split
          · split <;> simp
          · simp
  | .callExpr c => by
      rw [InitNormalize.isFieldAccessible]
      split
      · split <;> simp
      · split
        · split <;> simp
        · exact isFieldAccessibleCall_ne_false env st c
  | .namedExpr _ _ => by simp [InitNormalize.isFieldAccessible]
  | .unresolvedSymExpr _ => by simp [InitNormalize.isFieldAccessible]
  | .defExpr _ _ _ => by simp [InitNormalize.isFieldAccessible]
  | .condStmt _ _ _ => by simp [InitNormalize.isFieldAccessible]
  | .blockStmt _ => by simp [InitNormalize.isFieldAccessible]
  | .forallStmt _ => by simp [InitNormalize.isFieldAccessible]
  | .otherExpr _ => by simp [InitNormalize.isFieldAccessible]
theorem isFieldAccessibleCall_ne_false (env : Env) (st : InitNormalize) :
    ∀ c : CallExpr, InitNormalize.isFieldAccessibleCall env st c ≠ .ok false
  | .prim _ actuals => by
      rw [InitNormalize.isFieldAccessibleCall]
      exact isFieldAccessibleActuals_ne_false env st actuals
  | .named _ actuals _ => by
      rw [InitNormalize.isFieldAccessibleCall]
      exact isFieldAccessibleActuals_ne_false env st actuals
theorem isFieldAccessibleActuals_ne_false (env : Env) (st : InitNormalize) :
    ∀ l : List Expr, InitNormalize.isFieldAccessibleActuals env st l ≠ .ok false
  | [] => by simp [InitNormalize.isFieldAccessibleActuals]
  | a :: rest => by
      rw [InitNormalize.isFieldAccessibleActuals]
      have ha := isFieldAccessible_ne_false env st a
      have hr := isFieldAccessibleActuals_ne_false env st rest
      split
      · simp
      · rename_i h
        exact absurd h ha
      · exact hr
end

theorem isFieldAccessibleActuals_error_of_mem (env : Env) (st : InitNormalize) (a : Expr)
    (ha : ∃ f, st.isFieldAccessible env a = .error f) :
    ∀ l : List Expr, a ∈ l → ∃ f, InitNormalize.isFieldAccessibleActuals env st l = .error f
  | [], h => by simp at h
  | b :: rest, h => by
      rw [InitNormalize.isFieldAccessibleActuals]
      cases hb : st.isFieldAccessible env b with
      | error f => exact ⟨f, rfl⟩
      | ok r =>
          cases r with
          | false => exact absurd hb (isFieldAccessible_ne_false env st b)
          | true =>
              have hne : a ≠ b := by
                rintro rfl
                obtain ⟨f, hf⟩ := ha
                rw [hf] at hb
                cases hb
              have hmem : a ∈ rest := by
                rcases List.mem_cons.mp h with h1 | h1
                · exact absurd h1 hne
                · exact h1
              exact isFieldAccessibleActuals_error_of_mem env st a ha rest hmem

theorem updateFieldsMemberActuals_error_of_mem (env : Env) (st : InitNormalize) (a : Expr)
    (ha : ∃ f, st.updateFieldsMember env a = .error f) :
    ∀ l : List Expr, a ∈ l → ∃ f, InitNormalize.updateFieldsMemberActuals env st l = .error f
  | [], h => by simp at h
  | b :: rest, h => by
      rw [InitNormalize.updateFieldsMemberActuals]
      cases hb : st.updateFieldsMember env b with
      | error f => exact ⟨f, rfl⟩
      | ok r =>
          have hne : a ≠ b := by
            rintro rfl
            obtain ⟨f, hf⟩ := ha
            rw [hf] at hb
            cases hb
          have hmem : a ∈ rest := by
            rcases List.mem_cons.mp h with h1 | h1
            · exact absurd h1 hne
            · exact h1
          obtain ⟨f, hf⟩ := updateFieldsMemberActuals_error_of_mem env st a ha rest hmem
          exact ⟨f, by simp [hf]⟩

theorem isFieldAccessibleCall_eq (env : Env) (st : InitNormalize) (c : CallExpr) :
    InitNormalize.isFieldAccessibleCall env st c
      = InitNormalize.isFieldAccessibleActuals env st c.actuals := by
  cases c <;> rw [InitNormalize.isFieldAccessibleCall] <;> rfl

theorem updateFieldsMemberCall_eq (env : Env) (st : InitNormalize) (c : CallExpr) :
    InitNormalize.updateFieldsMemberCall env st c
      = InitNormalize.updateFieldsMemberActuals env st c.actuals := by
  cases c <;> rw [InitNormalize.updateFieldsMemberCall] <;> rfl

theorem isFieldAccessible_error_of_checkedRef (env : Env) (st : InitNormalize) (sym : Symbol)
    (field : Nat) (hImm : sym.isImmediate = false)
    (hLocal : env.toLocalFieldSym st.type sym = some field)
    (hField : field < st.type.fields.length) (hNot : ¬ st.fieldIsBefore field)
    (e : Expr) (hRef : CheckedRef env st sym e) :
    ∃ f, st.isFieldAccessible env e = .error f := by
  induction hRef with
  | here => exact ⟨_, (local_field_accessible_iff env st sym field hImm hLocal hField).2 hNot⟩
  | actual call a hLoc hSup hMem _ ih =>
      rw [InitNormalize.isFieldAccessible]
      simp only [hLoc, hSup, isFieldAccessibleCall_eq]
      exact isFieldAccessibleActuals_error_of_mem env st a ih _ hMem

theorem updateFieldsMember_local_field (env : Env) (st : InitNormalize) (sym : Symbol)
    (field : Nat) (hLocal : env.toLocalFieldSym st.type sym = some field) :
    st.updateFieldsMember env (.symExpr sym) =
      if st.isFieldInitialized field then .ok (st.getMember sym.name)
      else .error (.usrFatal (usedBeforeDefinedMsg (st.type.fieldName field))) := by
  rw [InitNormalize.updateFieldsMember]
  simp only [hLocal]

theorem updateFieldsMember_error_of_rewrittenRef (env : Env) (st : InitNormalize) (sym : Symbol)
    (field : Nat) (hLocal : env.toLocalFieldSym st.type sym = some field)
    (hField : field < st.type.fields.length) (hNot : ¬ st.fieldIsBefore field)
    (e : Expr) (hRef : RewrittenRef sym e) :
    ∃ f, st.updateFieldsMember env e = .error f := by
  induction hRef with
  | here =>
      have hi : st.isFieldInitialized field = false := by
        cases h : st.isFieldInitialized field
        · rfl
        · exact absurd ((isFieldInitialized_iff_before st field hField).mp h) hNot
      rw [updateFieldsMember_local_field env st sym field hLocal, hi]
      exact ⟨_, rfl⟩
  | actual call a hAcc hMem _ ih =>
      rw [InitNormalize.updateFieldsMember]
      obtain ⟨f, hf⟩ := updateFieldsMemberActuals_error_of_mem env st a ih _ hMem
      simp only [hAcc, updateFieldsMemberCall_eq, hf]
      exact ⟨f, rfl⟩

theorem checkAndUpdate_error_of_check (env : Env) (st : InitNormalize) (e : Expr)
    (h : ∃ f, st.isFieldAccessible env e = .error f) :
    ∃ f, st.checkAndUpdate env e = .error f := by
  obtain ⟨f, hf⟩ := h
  refine ⟨f, ?_⟩
  unfold InitNormalize.checkAndUpdate InitNormalize.assertAccessible
  rw [hf]
  rfl

/-- C2 as stated fails: with nothing initialized in the record `[a, b]`, the call
`f(x = b)` contains a bare reference to the field `b`, yet `isFieldAccessible` returns
`true` and `updateFieldsMember` returns the call unchanged, the reference neither
rejected nor rewritten.  And where such a reference is rejected, the diagnostic need
not be "used before defined": on `f(x, b)` with `x` an inherited field, in Phase1, the
run ends in the parent-field diagnostic of the actual before `b`. -/
theorem named_actual_is_not_checked :
    Expr.hasBareRef exFieldB.sym exNamedActualCall = true ∧
    (exEnv []).toLocalFieldSym exTypeAB exFieldB.sym = some 1 ∧
    ¬ (exState (exInit exTypeAB []) (some 0) .cPhase1).fieldIsBefore 1 ∧
    (exState (exInit exTypeAB []) (some 0) .cPhase1).isFieldAccessible (exEnv [])
        exNamedActualCall = .ok true ∧
    (exState (exInit exTypeAB []) (some 0) .cPhase1).updateFieldsMember (exEnv [])
        exNamedActualCall = .ok exNamedActualCall ∧
    (exState (exInit exTypeAB []) (some 0) .cPhase1).checkAndUpdate (exEnv [])
        exNamedActualCall = .ok exNamedActualCall ∧
    (exState (exInit exTypeAB []) (some 0) .cPhase1).checkAndUpdate (exEnv [exParentX])
        exCallOfXAndB = .error (.usrFatal "Cannot access parent field 'x' during phase 1") :=
  ⟨by decide, by decide, by decide, rfl, rfl, rfl, rfl⟩

/-- C2, amended: a bare reference to a field of the type is rewritten into a member
read only when the field lies strictly before `mCurrField`; and when the field is at
or after `mCurrField`, every expression in which the reference is reached through
actuals of calls that are not field accesses is rejected: `updateFieldsMember` ends
in a failure, `isFieldAccessible` ends in a failure and so does the pair, and on the
bare reference itself the failure is the `USR_FATAL` "used before defined". -/
theorem no_premature_use (env : Env) (st : InitNormalize) (sym : Symbol) (field : Nat)
    (hLocal : env.toLocalFieldSym st.type sym = some field)
    (hField : field < st.type.fields.length) :
    (∀ e1, st.updateFieldsMember env (.symExpr sym) = .ok e1 →
        st.fieldIsBefore field ∧ e1 = st.getMember sym.name) ∧
    (¬ st.fieldIsBefore field →
        st.updateFieldsMember env (.symExpr sym)
          = .error (.usrFatal (usedBeforeDefinedMsg (st.type.fieldName field))) ∧
        (∀ e, RewrittenRef sym e → ∃ f, st.updateFieldsMember env e = .error f) ∧
        (sym.isImmediate = false → ∀ e, CheckedRef env st sym e →
          (∃ f, st.isFieldAccessible env e = .error f) ∧
          (∃ f, st.checkAndUpdate env e = .error f))) := by
  have hUpd := updateFieldsMember_local_field env st sym field hLocal
  have key := isFieldInitialized_iff_before st field hField
  constructor
  · intro e1 h
    rw [hUpd] at h
    cases hi : st.isFieldInitialized field with
    | false => simp [hi] at h
    | true =>
        simp only [hi, if_true] at h
        cases h
        exact ⟨key.mp hi, rfl⟩
  · intro hNot
    have hi : st.isFieldInitialized field = false := by
      cases h : st.isFieldInitialized field
      · rfl
      · exact absurd (key.mp h) hNot
    refine ⟨by rw [hUpd, hi]; rfl, ?_, ?_⟩
    · intro e hRef
      exact updateFieldsMember_error_of_rewrittenRef env st sym field hLocal hField hNot e hRef
    · intro hImm e hRef
      have h := isFieldAccessible_error_of_checkedRef env st sym field hImm hLocal hField hNot e hRef
      exact ⟨h, checkAndUpdate_error_of_check env st e h⟩

/-- Witness of C2 (amended): with nothing initialized, `f(b)` is rejected by the pair. -/
theorem no_premature_use_witness :
    ∃ f, (exState (exInit exTypeAB []) (some 0) .cPhase1).checkAndUpdate (exEnv []) exCallOfB
      = .error f :=
  ((no_premature_use (exEnv []) (exState (exInit exTypeAB []) (some 0) .cPhase1)
      exFieldB.sym 1 (by decide) (by decide)).2 (by decide)).2.2 (by decide) exCallOfB
    (CheckedRef.actual _ (.symExpr exFieldB.sym) (by decide) rfl
      (by simp [CallExpr.actuals]) CheckedRef.here) |>.2

/-! ### The emission strategies -/

theorem except_bind_ok {ε α β : Type} (x : Except ε α) (f : α → Except ε β) (b : β) :
    (x >>= f) = .ok b ↔ ∃ a, x = .ok a ∧ f a = .ok b := by
  cases x with
  | error e => simp [bind, Except.bind]
  | ok a => simp [bind, Except.bind]

theorem checkAndUpdate_ok (env : Env) (st : InitNormalize) (e e1 : Expr)
    (h : st.checkAndUpdate env e = .ok e1) :
    st.isFieldAccessible env e = .ok true ∧ st.updateFieldsMember env e = .ok e1 := by
  unfold InitNormalize.checkAndUpdate at h
  obtain ⟨u, hu, h2⟩ := (except_bind_ok _ _ _).mp h
  refine ⟨?_, h2⟩
  unfold InitNormalize.assertAccessible at hu
  cases hc : st.isFieldAccessible env e with
  | error f => simp [hc] at hu
  | ok r =>
      cases r with
      | false => simp [hc] at hu
      | true => rfl

theorem handleInsertedMethodCall_named (st : InitNormalize) (b : Expr) (actuals : List Expr)
    (sq : Bool) :
    ∃ b1, st.handleInsertedMethodCall (.named b actuals sq) = .named b1 actuals sq := by
  unfold InitNormalize.handleInsertedMethodCall
  cases b with
  | unresolvedSymExpr us =>
      simp only
      split_ifs
      · exact ⟨_, rfl⟩
      · exact ⟨_, rfl⟩
      · exact ⟨_, rfl⟩
  | _ => exact ⟨_, rfl⟩

theorem updateFieldsMember_named_not_assignment (env : Env) (st : InitNormalize)
    (b : Expr) (actuals : List Expr) (sq : Bool) (e1 : Expr)
    (h : st.updateFieldsMember env (.callExpr (.named b actuals sq)) = .ok e1) :
    isFieldAssignment e1 = false := by
  rw [InitNormalize.updateFieldsMember] at h
  obtain ⟨b1, hb1⟩ := handleInsertedMethodCall_named st b actuals sq
  rw [hb1] at h
  split at h
  · split at h
    · cases h
    · cases h
      rfl
  · cases h
    rfl

theorem emits_of_pre (st : InitNormalize) (field : DefExpr) (pre : List Expr)
    (prim : PrimitiveTag) (value : Expr)
    (hprim : prim = .PRIM_SET_MEMBER ∨ prim = .PRIM_INIT_FIELD ∨
      prim = .PRIM_INIT_MAYBE_SYNC_SINGLE_FIELD)
    (hpre : ∀ s ∈ pre, isFieldAssignment s = false) :
    EmitsOneFieldSet st field (pre ++ [st.fieldSet prim field value]) :=
  ⟨pre, prim, value, rfl, hprim, hpre⟩

theorem fieldInitTypeWoutInit_emits (env : Env) (st : InitNormalize) (field : DefExpr)
    (stmts : List Expr) (h : st.fieldInitTypeWoutInit env field = .ok stmts) :
    EmitsOneFieldSet st field stmts := by
  unfold InitNormalize.fieldInitTypeWoutInit at h
  dsimp only at h
  repeat' split at h
  all_goals first
    | (obtain ⟨x, _, h2⟩ := (except_bind_ok _ _ _).mp h
       cases h2
       exact emits_of_pre st field [_, _] _ _ (by simp) (by simp [isFieldAssignment, tmpDefn]))
    | (cases h
       exact emits_of_pre st field [_, _] _ _ (by simp) (by simp [isFieldAssignment, tmpDefn]))
    | cases h

theorem fieldInitTypeWithInit_emits (env : Env) (st : InitNormalize) (field : DefExpr)
    (initExpr : Expr) (stmts : List Expr)
    (h : st.fieldInitTypeWithInit env field initExpr = .ok stmts) :
    EmitsOneFieldSet st field stmts := by
  unfold InitNormalize.fieldInitTypeWithInit at h
  dsimp only at h
  repeat' split at h
  all_goals first
    | cases h
    | (obtain ⟨_, _, h2⟩ := (except_bind_ok _ _ _).mp h
       obtain ⟨_, _, h3⟩ := (except_bind_ok _ _ _).mp h2
       obtain ⟨_, _, h4⟩ := (except_bind_ok _ _ _).mp h3
       obtain ⟨_, _, h5⟩ := (except_bind_ok _ _ _).mp h4
       cases h5
       exact emits_of_pre st field [_, _, _] _ _ (by simp) (by simp [isFieldAssignment, tmpDefn]))
    | (obtain ⟨x, hx, h2⟩ := (except_bind_ok _ _ _).mp h
       cases h2
       first
         | (have hx2 := updateFieldsMember_named_not_assignment env st _ _ _ _
              (checkAndUpdate_ok env st _ _ hx).2
            refine emits_of_pre st field [_, _] _ _ (by simp) ?_
            intro s hs
            rcases List.mem_cons.mp hs with rfl | hs
            · rfl
            · rcases List.mem_cons.mp hs with rfl | hs
              · exact hx2
              · simp at hs)
         | exact emits_of_pre st field [_, _] _ _ (by simp) (by simp [isFieldAssignment, tmpDefn])
         | exact emits_of_pre st field [] _ _ (by simp) (by simp))

theorem fieldInitTypeInference_emits (env : Env) (st : InitNormalize) (field : DefExpr)
    (initExpr : Expr) (stmts : List Expr)
    (h : st.fieldInitTypeInference env field initExpr = .ok stmts) :
    EmitsOneFieldSet st field stmts := by
  unfold InitNormalize.fieldInitTypeInference at h
  dsimp only at h
  repeat' split at h
  all_goals first
    | cases h
    | (obtain ⟨x, hx, h2⟩ := (except_bind_ok _ _ _).mp h
       cases h2
       exact emits_of_pre st field [_, _] _ _ (by simp) (by simp [isFieldAssignment, tmpDefn]))

theorem genericFieldInitTypeWoutInit_emits (env : Env) (st : InitNormalize) (field : DefExpr)
    (stmts : List Expr) (h : st.genericFieldInitTypeWoutInit env field = .ok stmts) :
    EmitsOneFieldSet st field stmts := by
  unfold InitNormalize.genericFieldInitTypeWoutInit at h
  dsimp only at h
  repeat' split at h
  all_goals first
    | (obtain ⟨x, _, h2⟩ := (except_bind_ok _ _ _).mp h
       cases h2
       exact emits_of_pre st field [_, _] _ _ (by simp) (by simp [isFieldAssignment, tmpDefn]))
    | (cases h
       exact emits_of_pre st field [_, _] _ _ (by simp) (by simp [isFieldAssignment, tmpDefn]))
    | cases h

theorem genericFieldInitTypeWithInit_emits (env : Env) (st : InitNormalize) (field : DefExpr)
    (initExpr : Expr) (stmts : List Expr)
    (h : st.genericFieldInitTypeWithInit env field initExpr = .ok stmts) :
    EmitsOneFieldSet st field stmts := by
  unfold InitNormalize.genericFieldInitTypeWithInit at h
  repeat' split at h
  all_goals first
    | cases h
    | (obtain ⟨x, hx, h2⟩ := (except_bind_ok _ _ _).mp h
       cases h2
       exact emits_of_pre st field [] _ _ (by simp) (by simp))

theorem genericFieldInitTypeInference_emits (env : Env) (st : InitNormalize) (field : DefExpr)
    (initExpr : Expr) (stmts : List Expr)
    (h : st.genericFieldInitTypeInference env field initExpr = .ok stmts) :
    EmitsOneFieldSet st field stmts := by
  unfold InitNormalize.genericFieldInitTypeInference at h
  dsimp only at h
  repeat' split at h
  all_goals first
    | (obtain ⟨x, hx, h2⟩ := (except_bind_ok _ _ _).mp h
       cases h2
       exact emits_of_pre st field [_, _] _ _ (by simp) (by simp [isFieldAssignment, tmpDefn]))
    | (cases h
       exact emits_of_pre st field [] _ _ (by simp) (by simp))
    | cases h

theorem emitsOneFieldSet_fieldAssignments (st : InitNormalize) (field : DefExpr)
    (stmts : List Expr) (h : EmitsOneFieldSet st field stmts) :
    fieldAssignments stmts = [some field.sym.name] := by
  obtain ⟨pre, prim, value, rfl, hprim, hpre⟩ := h
  have hfilter : pre.filter isFieldAssignment = [] := by
    rw [List.filter_eq_nil_iff]
    intro s hs
    simp [hpre s hs]
  unfold fieldAssignments
  rw [List.filter_append, hfilter]
  rcases hprim with rfl | rfl | rfl <;> rfl

/-- C6: each of the six emission strategies, when it returns, has inserted before
the insertion point a statement list that ends with one field-assignment operation
(`PRIM_SET_MEMBER`, `PRIM_INIT_FIELD` or `PRIM_INIT_MAYBE_SYNC_SINGLE_FIELD`) whose
receiver is `this` and whose name argument is the name of the field, and that has no
other field-assignment operation: exactly one such operation, and it is the last
statement inserted. -/
theorem strategies_emit_one_field_set (env : Env) (st : InitNormalize) (field : DefExpr) :
    (∀ stmts, st.genericFieldInitTypeWoutInit env field = .ok stmts →
        EmitsOneFieldSet st field stmts) ∧
    (∀ initExpr stmts, st.genericFieldInitTypeWithInit env field initExpr = .ok stmts →
        EmitsOneFieldSet st field stmts) ∧
    (∀ initExpr stmts, st.genericFieldInitTypeInference env field initExpr = .ok stmts →
        EmitsOneFieldSet st field stmts) ∧
    (∀ stmts, st.fieldInitTypeWoutInit env field = .ok stmts →
        EmitsOneFieldSet st field stmts) ∧
    (∀ initExpr stmts, st.fieldInitTypeWithInit env field initExpr = .ok stmts →
        EmitsOneFieldSet st field stmts) ∧
    (∀ initExpr stmts, st.fieldInitTypeInference env field initExpr = .ok stmts →
        EmitsOneFieldSet st field stmts) ∧
    (∀ stmts, EmitsOneFieldSet st field stmts →
        (stmts.filter isFieldAssignment).length = 1 ∧
        fieldAssignments stmts = [some field.sym.name] ∧
        ∃ prim value, stmts.getLast? = some (.callExpr (.prim prim
          [.symExpr st.mFn._this, .symExpr (new_CStringSymbol field.sym.name), value])) ∧
          isFieldAssignment (.callExpr (.prim prim [])) = true) := by
  refine ⟨fun stmts h => genericFieldInitTypeWoutInit_emits env st field stmts h,
    fun i stmts h => genericFieldInitTypeWithInit_emits env st field i stmts h,
    fun i stmts h => genericFieldInitTypeInference_emits env st field i stmts h,
    fun stmts h => fieldInitTypeWoutInit_emits env st field stmts h,
    fun i stmts h => fieldInitTypeWithInit_emits env st field i stmts h,
    fun i stmts h => fieldInitTypeInference_emits env st field i stmts h, ?_⟩
  intro stmts h
  have hfa := emitsOneFieldSet_fieldAssignments st field stmts h
  refine ⟨?_, hfa, ?_⟩
  · have hlen := congrArg List.length hfa
    simpa [fieldAssignments] using hlen
  · obtain ⟨pre, prim, value, rfl, hprim, _⟩ := h
    refine ⟨prim, value, by simp [InitNormalize.fieldSet], ?_⟩
    rcases hprim with rfl | rfl | rfl <;> rfl

/-- Witness of C6: `fieldInitTypeWoutInit` on the field `a : int`. -/
theorem strategies_emit_one_field_set_witness :
    EmitsOneFieldSet (exState (exInit exTypeAB []) (some 0) .cPhase1) exFieldA
      [tmpDefn (newTemp "tmp" exInt),
       .callExpr (.prim .PRIM_MOVE [.symExpr (newTemp "tmp" exInt),
         .callExpr (.named (.unresolvedSymExpr "_defaultOf") [.symExpr exInt.symbol] false)]),
       .callExpr (.prim .PRIM_SET_MEMBER
         [.symExpr exThis, .symExpr (new_CStringSymbol "a"), .symExpr (newTemp "tmp" exInt)])] :=
  (strategies_emit_one_field_set (exEnv []) (exState (exInit exTypeAB []) (some 0) .cPhase1)
    exFieldA).2.2.2.1 _ rfl

/-! ### Implicit fill -/

theorem emitBefore_ok (st : InitNormalize) (log : Emitted) (r : Except Failure (List Expr))
    (st1 : InitNormalize) (log1 : Emitted) (h : emitBefore st log r = .ok (st1, log1)) :
    ∃ stmts, r = .ok stmts ∧ st1 = st ∧ log1 = { log with before := log.before ++ stmts } := by
  unfold emitBefore at h
  cases r with
  | error f => cases h
  | ok stmts =>
      cases h
      exact ⟨stmts, rfl, rfl, rfl⟩

theorem fieldAssignments_append (a b : List Expr) :
    fieldAssignments (a ++ b) = fieldAssignments a ++ fieldAssignments b := by
  simp [fieldAssignments, List.filter_append]

/-- What one step of implicit fill does with a field that is not `outer`: the
strategies it may run. -/
theorem initializeFieldStep_strategy (env : Env) (st : InitNormalize) (log : Emitted)
    (field : DefExpr) (st1 : InitNormalize) (log1 : Emitted)
    (hOuter : st.isOuterField field = false)
    (hSome : (field.exprType.isSome || field.init.isSome) = true)
    (h : st.initializeFieldStep env log field = .ok (st1, log1)) :
    ∃ stmts, EmitsOneFieldSet st field stmts ∧ st1 = st ∧
      log1 = { log with before := log.before ++ stmts } := by
  unfold InitNormalize.initializeFieldStep at h
  simp only [hOuter, Bool.false_eq_true, if_false] at h
  cases hT : field.exprType <;> cases hI : field.init <;> simp only [hT, hI] at h hSome
  · simp at hSome
  all_goals
    repeat' split at h
    all_goals first
      | (obtain ⟨stmts, hr, h1, h2⟩ := emitBefore_ok _ _ _ _ _ h
         first
           | exact ⟨stmts, genericFieldInitTypeWoutInit_emits env st field stmts hr, h1, h2⟩
           | exact ⟨stmts, genericFieldInitTypeWithInit_emits env st field _ stmts hr, h1, h2⟩
           | exact ⟨stmts, genericFieldInitTypeInference_emits env st field _ stmts hr, h1, h2⟩
           | exact ⟨stmts, fieldInitTypeWoutInit_emits env st field stmts hr, h1, h2⟩
           | exact ⟨stmts, fieldInitTypeWithInit_emits env st field _ stmts hr, h1, h2⟩
           | exact ⟨stmts, fieldInitTypeInference_emits env st field _ stmts hr, h1, h2⟩)

theorem sameFrame_refl (st : InitNormalize) : st.sameFrame st :=
  ⟨rfl, rfl, rfl, rfl, rfl, rfl, rfl⟩

theorem initializeFieldStep_spec (env : Env) (st : InitNormalize) (log : Emitted)
    (field : DefExpr) (st1 : InitNormalize) (log1 : Emitted)
    (h : st.initializeFieldStep env log field = .ok (st1, log1)) :
    st.sameFrame st1 ∧ st1.mCurrField = st.mCurrField ∧ st.fillResult [field] log log1 := by
  by_cases hOuter : st.isOuterField field = true
  · unfold InitNormalize.initializeFieldStep at h
    simp only [hOuter, if_true] at h
    unfold InitNormalize.makeOuterArg at h
    split at h
    · cases h
    · cases h
      refine ⟨⟨rfl, rfl, rfl, rfl, rfl, rfl, rfl⟩, rfl, ?_⟩
      simp [InitNormalize.fillResult, InitNormalize.filledByStrategy,
        InitNormalize.omittedField, hOuter, fieldAssignments, isFieldAssignment, assignedName,
        new_CStringSymbol]
  · have hOuter : st.isOuterField field = false := by simpa using hOuter
    by_cases hSome : (field.exprType.isSome || field.init.isSome) = true
    · obtain ⟨stmts, hE, h1, h2⟩ :=
        initializeFieldStep_strategy env st log field st1 log1 hOuter hSome h
      have h1s := h1.symm
      subst h1s
      subst h2
      have hfa := emitsOneFieldSet_fieldAssignments st field stmts hE
      refine ⟨sameFrame_refl st, rfl, ?_⟩
      have hOm : st.omittedField field = false := by
        cases hT : field.exprType <;> cases hI : field.init <;>
          simp [InitNormalize.omittedField, hT, hI] at hSome ⊢
      simp [InitNormalize.fillResult, InitNormalize.filledByStrategy, hOm, hOuter, hSome,
        fieldAssignments_append, hfa]
    · have hT : field.exprType = none := by
        cases hT : field.exprType <;> simp [hT] at hSome ⊢
      have hI : field.init = none := by
        cases hI : field.init <;> simp [hI] at hSome ⊢
      unfold InitNormalize.initializeFieldStep at h
      simp only [hOuter, Bool.false_eq_true, if_false, hT, hI] at h
      cases h
      refine ⟨sameFrame_refl st, rfl, ?_⟩
      simp [InitNormalize.fillResult, InitNormalize.filledByStrategy,
        InitNormalize.omittedField, hOuter, hT, hI]

theorem sameFrame_trans (a b c : InitNormalize) (h1 : a.sameFrame b) (h2 : b.sameFrame c) :
    a.sameFrame c := by
  obtain ⟨p1, p2, p3, p4, p5, p6, p7⟩ := h1
  obtain ⟨q1, q2, q3, q4, q5, q6, q7⟩ := h2
  exact ⟨q1.trans p1, q2.trans p2, q3.trans p3, q4.trans p4, q5.trans p5, q6.trans p6,
    q7.trans p7⟩

theorem fillResult_congr (st st1 : InitNormalize) (h : st1.mFn.thisType = st.mFn.thisType)
    (nodes : List DefExpr) (log log1 : Emitted) :
    st1.fillResult nodes log log1 ↔ st.fillResult nodes log log1 := by
  have h1 : st1.filledByStrategy = st.filledByStrategy := by
    funext d
    simp [InitNormalize.filledByStrategy, InitNormalize.isOuterField, InitNormalize.type, h]
  have h2 : st1.isOuterField = st.isOuterField := by
    funext d
    simp [InitNormalize.isOuterField, InitNormalize.type, h]
  have h3 : st1.omittedField = st.omittedField := by
    funext d
    simp [InitNormalize.omittedField, InitNormalize.isOuterField, InitNormalize.type, h]
  simp [InitNormalize.fillResult, h1, h2, h3]

theorem fillResult_cons (st : InitNormalize) (d : DefExpr) (rest : List DefExpr)
    (log log1 log2 : Emitted) (h1 : st.fillResult [d] log log1)
    (h2 : st.fillResult rest log1 log2) : st.fillResult (d :: rest) log log2 := by
  obtain ⟨a1, a2, a3, a4⟩ := h1
  obtain ⟨b1, b2, b3, b4⟩ := h2
  refine ⟨?_, ?_, ?_, ?_⟩
  · rw [b1, a1]
    by_cases hd : st.filledByStrategy d = true <;> simp [List.filter_cons, hd]
  · rw [b2, a2]
    by_cases hd : st.isOuterField d = true <;> simp [List.filter_cons, hd]
  · rw [b3, a3]
    by_cases hd : st.omittedField d = true <;> simp [List.filter_cons, hd]
  · rw [b4, a4]

theorem initializeFieldsFrom_spec (env : Env) (nodes : List DefExpr) :
    ∀ (st : InitNormalize) (log : Emitted) (pos : Nat) (st1 : InitNormalize) (log1 : Emitted),
      InitNormalize.initializeFieldsFrom env st log pos nodes = .ok (st1, log1) →
      st.sameFrame st1 ∧ st1.mCurrField = none ∧ st.fillResult nodes log log1 := by
  induction nodes with
  | nil =>
      intro st log pos st1 log1 h
      unfold InitNormalize.initializeFieldsFrom at h
      cases h
      exact ⟨⟨rfl, rfl, rfl, rfl, rfl, rfl, rfl⟩, rfl, by simp [InitNormalize.fillResult]⟩
  | cons d rest ih =>
      intro st log pos st1 log1 h
      unfold InitNormalize.initializeFieldsFrom at h
      split at h
      · cases h
      · rename_i st2 log2 hstep
        obtain ⟨hf1, _, hr1⟩ := initializeFieldStep_spec env _ log d st2 log2 hstep
        obtain ⟨hf2, hc2, hr2⟩ := ih st2 log2 (pos + 1) st1 log1 h
        have hf0 : st.sameFrame { st with mCurrField := some pos } :=
          ⟨rfl, rfl, rfl, rfl, rfl, rfl, rfl⟩
        have hf12 := sameFrame_trans _ _ _ hf0 hf1
        refine ⟨sameFrame_trans _ _ _ hf12 hf2, hc2, ?_⟩
        have hr1s : st.fillResult [d] log log2 :=
          (fillResult_congr st { st with mCurrField := some pos } rfl [d] log log2).mp hr1
        have hr2s : st.fillResult rest log2 log1 :=
          (fillResult_congr st st2 hf12.2.2.2.1 rest log2 log1).mp hr2
        exact fillResult_cons st d rest log log2 log1 hr1s hr2s

theorem initializeFieldsBefore_spec (env : Env) (st : InitNormalize) (log : Emitted)
    (st1 : InitNormalize) (log1 : Emitted)
    (h : st.initializeFieldsBefore env log = .ok (st1, log1)) :
    st.sameFrame st1 ∧ st1.mCurrField = none ∧ st.fillResult st.remainingFields log log1 := by
  unfold InitNormalize.initializeFieldsBefore at h
  unfold InitNormalize.remainingFields
  cases hc : st.mCurrField with
  | none =>
      simp only [hc] at h
      cases h
      exact ⟨sameFrame_refl st, hc, by simp [InitNormalize.fillResult]⟩
  | some c =>
      simp only [hc] at h
      exact initializeFieldsFrom_spec env _ st log c st1 log1 h

/-- C5 as stated fails: in the nested record `[a : int, outer]` with `mCurrField` at
`a`, implicit fill puts the assignment of `outer` at the head of the method body, so
in the body it comes before the assignment of `a`, against the declaration order. -/
theorem outer_assignment_precedes_earlier_field :
    exTypeAOuter.fields.map (fun d => d.sym.name) = ["a", "outer"] ∧
    ((exState (exInit exTypeAOuter [.callExpr exInitDone]) (some 0) .cPhase1).initializeFieldsBefore
        (exEnv []) Emitted.empty).map
        (fun r => (r.1.mCurrField, fieldAssignments r.2.inBodyOrder))
      = .ok (none, [some "outer", some "a"]) :=
  ⟨rfl, rfl⟩

/-- C5, amended: when `initializeFieldsBefore` returns, `mCurrField` is `NULL`, the
phase is unchanged, and the field-assignment operations it has put in front of the
insertion point are, in declaration order, one for each remaining field that is not
the `outer` pseudo-field and has a declared type or a default expression; the
assignment of `outer` is put at the head of the method body instead.  For the record
`[a : int, b : int]` with only a completion marker, `completePhase1` emits the
assignment of the default value of `a` followed by that of `b` and ends in Phase2. -/
theorem implicit_fill_in_declaration_order (env : Env) (st : InitNormalize) (log : Emitted)
    (st1 : InitNormalize) (log1 : Emitted)
    (h : st.initializeFieldsBefore env log = .ok (st1, log1)) :
    st1.mCurrField = none ∧ st1.mPhase = st.mPhase ∧
    fieldAssignments log1.before
      = fieldAssignments log.before
          ++ (st.remainingFields.filter st.filledByStrategy).map (fun d => some d.sym.name) ∧
    fieldAssignments log1.atHead
      = ((st.remainingFields.filter st.isOuterField).map (fun _ => some "outer")).reverse
          ++ fieldAssignments log.atHead ∧
    ((InitNormalize.begin (exEnv []) (exInit exTypeAB [.callExpr exInitDone])).bind
        (fun st0 => st0.completePhase1 (exEnv []) Emitted.empty exInitDone)).map
        (fun r => (r.1.mPhase, r.1.mCurrField, r.2.atHead, r.2.before))
      = .ok (.cPhase2, none, [], exDefaultInt "a" ++ exDefaultInt "b") := by
  obtain ⟨hf, hc, hr⟩ := initializeFieldsBefore_spec env st log st1 log1 h
  exact ⟨hc, hf.1, hr.1, hr.2.1, rfl⟩

/-- Witness of C5 (amended): implicit fill of the record `[a : int, b : int]`. -/
theorem implicit_fill_in_declaration_order_witness :
    ∃ st1 log1,
      (exState (exInit exTypeAB []) (some 0) .cPhase1).initializeFieldsBefore (exEnv [])
        Emitted.empty = .ok (st1, log1) ∧
      st1.mCurrField = none ∧ fieldAssignments log1.before = [some "a", some "b"] :=
  ⟨_, _, rfl,
    (implicit_fill_in_declaration_order (exEnv []) (exState (exInit exTypeAB []) (some 0) .cPhase1)
      Emitted.empty _ _ rfl).1,
    (implicit_fill_in_declaration_order (exEnv []) (exState (exInit exTypeAB []) (some 0) .cPhase1)
      Emitted.empty _ _ rfl).2.2.1⟩

/-! ### `completePhase1` and `begin` -/

theorem completePhase1_flush (env : Env) (st : InitNormalize) (log : Emitted) (stmt : CallExpr)
    (hThis : env.isThisInit stmt = false)
    (hMarker : env.isSuperInit stmt = true ∨ env.isInitDone stmt = true) :
    st.completePhase1 env log stmt =
      match st.initializeFieldsBefore env log with
      | .error f => .error f
      | .ok (st1, log1) => .ok ({ st1 with mPhase := .cPhase2 }, log1) := by
  unfold InitNormalize.completePhase1
  simp only [hThis, Bool.false_eq_true, if_false]
  cases hS : env.isSuperInit stmt with
  | true => simp only [if_true]
  | false =>
      rcases hMarker with h | h
      · rw [hS] at h
        cases h
      · simp only [Bool.false_eq_true, if_false, h, if_true]

theorem completePhase1_ok (env : Env) (st : InitNormalize) (log : Emitted) (stmt : CallExpr)
    (st1 : InitNormalize) (log1 : Emitted)
    (h : st.completePhase1 env log stmt = .ok (st1, log1)) :
    st1.mPhase = .cPhase2 ∧ st1.mCurrField = none ∧
    (env.isThisInit stmt = true ∨ env.isSuperInit stmt = true ∨ env.isInitDone stmt = true) ∧
    (env.isThisInit stmt = true → log1 = log) ∧
    (env.isThisInit stmt = false → st.fillResult st.remainingFields log log1) := by
  by_cases hT : env.isThisInit stmt = true
  · unfold InitNormalize.completePhase1 at h
    simp only [hT, if_true] at h
    cases h
    exact ⟨rfl, rfl, Or.inl hT, fun _ => rfl, fun hf => by simp [hT] at hf⟩
  · have hT : env.isThisInit stmt = false := by simpa using hT
    by_cases hM : env.isSuperInit stmt = true ∨ env.isInitDone stmt = true
    · rw [completePhase1_flush env st log stmt hT hM] at h
      cases hfill : st.initializeFieldsBefore env log with
      | error f => simp [hfill] at h
      | ok r =>
          obtain ⟨st2, log2⟩ := r
          simp only [hfill] at h
          cases h
          obtain ⟨_, hc, hr⟩ := initializeFieldsBefore_spec env st log _ _ hfill
          exact ⟨rfl, hc, Or.inr hM, fun hf => by simp [hT] at hf, fun _ => hr⟩
    · have hS : env.isSuperInit stmt = false := by
        cases hS : env.isSuperInit stmt
        · rfl
        · exact absurd (Or.inl hS) hM
      have hD : env.isInitDone stmt = false := by
        cases hD : env.isInitDone stmt
        · rfl
        · exact absurd (Or.inr hD) hM
      unfold InitNormalize.completePhase1 at h
      simp [hT, hS, hD] at h

theorem begin_remainingFields (env : Env) (fn : FnSymbol) (st0 : InitNormalize)
    (h : InitNormalize.begin env fn = .ok st0) :
    st0.remainingFields = fn.realFields ∧ st0.mFn.thisType.outer = fn.thisType.outer := by
  unfold InitNormalize.begin at h
  split at h
  · cases h
  · rename_i fn1 cur hfirst
    cases h
    unfold firstField at hfirst
    unfold InitNormalize.remainingFields FnSymbol.realFields InitNormalize.type
    by_cases hC : fn.thisType.isClass = true
    · simp only [hC, if_true] at hfirst ⊢
      cases hfl : fn.thisType.fields with
      | nil => simp [hfl] at hfirst
      | cons d rest =>
          simp only [hfl] at hfirst
          have hnext : ∀ l : List DefExpr, l.length = (d :: rest).length →
              l.drop 1 = rest →
              (match (if 0 + 1 < (d :: rest).length then some (0 + 1) else none) with
                | none => ([] : List DefExpr)
                | some c => l.drop c) = rest := by
            intro l _ hl
            cases rest with
            | nil => simp
            | cons r rs => simpa using hl
          repeat' split at hfirst
          all_goals cases hfirst
          all_goals
            simp only [AggregateType.nextField, hfl, delayGenericExpansion]
            refine ⟨?_, ?_⟩
            · exact hnext _ (by simp) (by simp)
            · first | rfl | trivial
    · simp only [hC, Bool.false_eq_true, if_false] at hfirst ⊢
      split at hfirst
      · rename_i hfl
        cases hfirst
        simp [hfl]
      · rename_i hfl
        cases hfirst
        simp

/-- C4 as stated fails: for the record `[a : int, b : int]` and an initializer whose
marker is `this.init(...)`, the tracker made by `begin` reaches Phase2 through
`completePhase1` and no statement at all has been emitted, so not one
field-assignment operation per declared field. -/
theorem this_init_emits_no_field_assignment :
    exTypeAB.fields.length = 2 ∧
    (exEnv []).isThisInit exThisInit = true ∧
    ((InitNormalize.begin (exEnv []) (exInit exTypeAB [.callExpr exThisInit])).bind
        (fun st0 => st0.completePhase1 (exEnv []) Emitted.empty exThisInit)).map
        (fun r => (r.1.mPhase, r.2.atHead, r.2.before))
      = .ok (.cPhase2, [], []) :=
  ⟨rfl, rfl, rfl⟩

/-- C4, amended: when `completePhase1` returns on a tracker made by `begin`, the
phase is Phase2; for a super-init or completion marker the emitted code has exactly
one field-assignment operation for every declared field (the `super` pseudo-field of
a class apart) that has a declared type or a default expression, those of the fields
other than `outer` in front of the marker in declaration order and that of `outer` at
the head of the body, and none for a field with neither type nor default, for which
the continuable diagnostic is recorded; for a this-init marker nothing is emitted. -/
theorem completeness_after_completePhase1 (env : Env) (fn : FnSymbol) (st0 : InitNormalize)
    (stmt : CallExpr) (st1 : InitNormalize) (log1 : Emitted)
    (hBegin : InitNormalize.begin env fn = .ok st0)
    (hComplete : st0.completePhase1 env Emitted.empty stmt = .ok (st1, log1)) :
    st1.mPhase = .cPhase2 ∧
    (env.isThisInit stmt = true → log1 = Emitted.empty) ∧
    (env.isThisInit stmt = false →
      fieldAssignments log1.before
        = (fn.realFields.filter st0.filledByStrategy).map (fun d => some d.sym.name) ∧
      fieldAssignments log1.atHead
        = ((fn.realFields.filter st0.isOuterField).map (fun _ => some "outer")).reverse ∧
      log1.diags = (fn.realFields.filter st0.omittedField).map (fun d => omitFieldMsg d.sym.name)) := by
  obtain ⟨hp, _, _, hThis, hFill⟩ := completePhase1_ok env st0 Emitted.empty stmt st1 log1 hComplete
  obtain ⟨hrem, _⟩ := begin_remainingFields env fn st0 hBegin
  refine ⟨hp, hThis, ?_⟩
  intro hT
  obtain ⟨h1, h2, h3, _⟩ := hFill hT
  rw [hrem] at h1 h2 h3
  refine ⟨?_, ?_, ?_⟩
  · simpa [Emitted.empty, fieldAssignments] using h1
  · simpa [Emitted.empty, fieldAssignments] using h2
  · simpa [Emitted.empty] using h3

/-- Witness of C4 (amended): the record `[a : int, b : int]` with a completion marker. -/
theorem completeness_after_completePhase1_witness :
    ∃ st0 st1 log1,
      InitNormalize.begin (exEnv []) (exInit exTypeAB [.callExpr exInitDone]) = .ok st0 ∧
      st0.completePhase1 (exEnv []) Emitted.empty exInitDone = .ok (st1, log1) ∧
      st1.mPhase = .cPhase2 ∧ fieldAssignments log1.before = [some "a", some "b"] :=
  ⟨_, _, _, rfl, rfl,
    (completeness_after_completePhase1 (exEnv []) (exInit exTypeAB [.callExpr exInitDone])
      _ exInitDone _ _ rfl rfl).1,
    ((completeness_after_completePhase1 (exEnv []) (exInit exTypeAB [.callExpr exInitDone])
      _ exInitDone _ _ rfl rfl).2.2 rfl).1⟩

/-- C7 as stated fails: the statement is a completion marker, yet `completePhase1`
does not complete: in the record `[a = b, b : int]` the default of `a` reads the
field `b`, which is not initialized, and the flush ends in a `USR_FATAL`. -/
theorem completePhase1_fails_on_marker :
    (exEnv []).isInitDone exInitDone = true ∧
    (exState (exInit exTypeAFromB [.callExpr exInitDone]) (some 0) .cPhase1).completePhase1
        (exEnv []) Emitted.empty exInitDone
      = .error (.usrFatal "'b' used before defined (first used here)") :=
  ⟨rfl, rfl⟩

/-- C7, amended: `completePhase1` fails its `INT_ASSERT` when the statement is none
of the three markers, and completes only if it is one of them; on a this-init marker
it always completes; on a super-init or completion marker it completes exactly when
the flush of the remaining fields by `initializeFieldsBefore` does, and otherwise ends
in the failure of that flush.  Whenever it completes, the phase is Phase2 and
`mCurrField` is `NULL`. -/
theorem completePhase1_outcome (env : Env) (st : InitNormalize) (log : Emitted)
    (stmt : CallExpr) :
    (env.isThisInit stmt = false → env.isSuperInit stmt = false → env.isInitDone stmt = false →
      st.completePhase1 env log stmt = .error .intAssert) ∧
    (env.isThisInit stmt = true →
      st.completePhase1 env log stmt
        = .ok ({ st with mCurrField := none, mPhase := .cPhase2 }, log)) ∧
    (env.isThisInit stmt = false → (env.isSuperInit stmt = true ∨ env.isInitDone stmt = true) →
      st.completePhase1 env log stmt =
        match st.initializeFieldsBefore env log with
        | .error f => .error f
        | .ok (st1, log1) => .ok ({ st1 with mPhase := .cPhase2 }, log1)) ∧
    (∀ st1 log1, st.completePhase1 env log stmt = .ok (st1, log1) →
      st1.mPhase = .cPhase2 ∧ st1.mCurrField = none ∧
      (env.isThisInit stmt = true ∨ env.isSuperInit stmt = true ∨ env.isInitDone stmt = true)) := by
  refine ⟨?_, ?_, ?_, ?_⟩
  · intro h1 h2 h3
    unfold InitNormalize.completePhase1
    simp [h1, h2, h3]
  · intro h1
    unfold InitNormalize.completePhase1
    simp [h1]
  · intro h1 h2
    exact completePhase1_flush env st log stmt h1 h2
  · intro st1 log1 h
    obtain ⟨hp, hc, hm, _, _⟩ := completePhase1_ok env st log stmt st1 log1 h
    exact ⟨hp, hc, hm⟩

/-- Witness of C7 (amended): a call that is no marker fails the assertion. -/
theorem completePhase1_outcome_witness :
    (exState (exInit exTypeAB []) (some 0) .cPhase0).completePhase1 (exEnv []) Emitted.empty
        (.named (.unresolvedSymExpr "f") [] false)
      = .error .intAssert :=
  (completePhase1_outcome (exEnv []) (exState (exInit exTypeAB []) (some 0) .cPhase0)
    Emitted.empty (.named (.unresolvedSymExpr "f") [] false)).1 rfl rfl rfl

/-! ### Phase monotonicity -/

theorem InitPhase.le_refl (a : InitPhase) : a ≤ a := Nat.le_refl _

theorem InitPhase.le_trans {a b c : InitPhase} (h1 : a ≤ b) (h2 : b ≤ c) : a ≤ c :=
  Nat.le_trans h1 h2

theorem InitPhase.le_cPhase2 (a : InitPhase) : a ≤ .cPhase2 := by
  cases a <;> decide

theorem checkPhase_phase_le (env : Env) (st : InitNormalize) (block : BlockStmt) :
    st.mPhase ≤ (st.checkPhase env block).mPhase := by
  unfold InitNormalize.checkPhase
  split
  · rename_i h0
    dsimp only
    split
    · rename_i h1
      rw [h0, h1]
      show InitPhase.cPhase0 ≤ InitPhase.cPhase1
      decide
    · exact InitPhase.le_refl _
  · exact InitPhase.le_refl _

theorem fieldInitFromField_state (env : Env) (st : InitNormalize) (log : Emitted)
    (field : DefExpr) (st1 : InitNormalize) (log1 : Emitted)
    (h : st.fieldInitFromField env log field = .ok (st1, log1)) : st1 = st := by
  unfold InitNormalize.fieldInitFromField at h
  repeat' split at h
  all_goals first
    | (cases h
       rfl)
    | cases h
    | (obtain ⟨_, _, h1, _⟩ := emitBefore_ok _ _ _ _ _ h
       exact h1)

theorem skipToField_frame (env : Env) (field : Nat) (nodes : List DefExpr) :
    ∀ (st : InitNormalize) (log : Emitted) (pos : Nat) (st1 : InitNormalize) (log1 : Emitted),
      InitNormalize.skipToField env field st log pos nodes = .ok (st1, log1) →
      st.sameFrame st1 := by
  induction nodes with
  | nil =>
      intro st log pos st1 log1 h
      unfold InitNormalize.skipToField at h
      cases h
  | cons d rest ih =>
      intro st log pos st1 log1 h
      unfold InitNormalize.skipToField at h
      split at h
      · cases h
        exact ⟨rfl, rfl, rfl, rfl, rfl, rfl, rfl⟩
      · cases hstep : InitNormalize.fieldInitFromField env { st with mCurrField := some pos } log d with
        | error f => simp [hstep] at h
        | ok r =>
            obtain ⟨st2, log2⟩ := r
            simp only [hstep] at h
            have h2 := fieldInitFromField_state env _ log d st2 log2 hstep
            subst h2
            have hf0 : st.sameFrame { st with mCurrField := some pos } :=
              ⟨rfl, rfl, rfl, rfl, rfl, rfl, rfl⟩
            exact sameFrame_trans _ _ _ hf0 (ih _ log2 (pos + 1) st1 log1 h)

theorem fieldInitFromStmt_state (env : Env) (st : InitNormalize) (log : Emitted)
    (stmt : CallExpr) (field : DefExpr) (st1 : InitNormalize) (log1 : Emitted)
    (h : st.fieldInitFromStmt env log stmt field = .ok (st1, log1)) : st1 = st := by
  unfold InitNormalize.fieldInitFromStmt at h
  split at h
  · dsimp only at h
    split at h
    · cases h
    · cases h
      rfl
  · cases h

theorem initSkippedFields_frame (env : Env) (st : InitNormalize) (log : Emitted)
    (field : Nat) (st1 : InitNormalize) (log1 : Emitted)
    (h : st.initSkippedFields env log field = .ok (st1, log1)) : st.sameFrame st1 := by
  unfold InitNormalize.initSkippedFields at h
  split at h
  · split at h
    · cases h
    · cases h
    · split at h
      · cases h
      · exact skipToField_frame env field _ st log _ st1 log1 h
  · cases h
    exact sameFrame_refl st

theorem fieldInitFromInitStmt_frame (env : Env) (st : InitNormalize) (log : Emitted)
    (field : Nat) (stmt : CallExpr) (st1 : InitNormalize) (log1 : Emitted)
    (h : st.fieldInitFromInitStmt env log field stmt = .ok (st1, log1)) :
    st.sameFrame st1 := by
  unfold InitNormalize.fieldInitFromInitStmt at h
  cases hskip : st.initSkippedFields env log field with
  | error f => simp [hskip] at h
  | ok r =>
      obtain ⟨sa, la⟩ := r
      simp only [hskip] at h
      have hsa := initSkippedFields_frame env st log field sa la hskip
      split at h
      · cases h
      · split at h
        · cases h
        · rename_i d _
          cases hstmt : sa.fieldInitFromStmt env la stmt d with
          | error f => simp [hstmt] at h
          | ok r2 =>
              obtain ⟨sb, lb⟩ := r2
              simp only [hstmt] at h
              have hsb := fieldInitFromStmt_state env sa la stmt d sb lb hstmt
              subst hsb
              cases h
              exact sameFrame_trans _ _ _ hsa ⟨rfl, rfl, rfl, rfl, rfl, rfl, rfl⟩

theorem fork_phase (parent child : InitNormalize) (h : IsFork parent child) :
    child.mPhase = parent.mPhase ∧ child.mCurrField = parent.mCurrField ∧
    child.mFn = parent.mFn := by
  rcases h with rfl | rfl | rfl | ⟨block, hb⟩
  · exact ⟨rfl, rfl, rfl⟩
  · exact ⟨rfl, rfl, rfl⟩
  · exact ⟨rfl, rfl, rfl⟩
  · unfold InitNormalize.forkBlock at hb
    repeat' split at hb
    all_goals first
      | (cases hb
         exact ⟨rfl, rfl, rfl⟩)
      | cases hb

theorem walk_phase_le (env : Env) (st st1 : InitNormalize) (h : Walk env st st1) :
    st.mPhase ≤ st1.mPhase := by
  induction h with
  | refl st => exact InitPhase.le_refl _
  | checkPhase block _ ih => exact InitPhase.le_trans ih (checkPhase_phase_le env _ block)
  | completePhase1 log stmt st2 log2 _ hop ih =>
      rw [(completePhase1_ok env _ log stmt st2 log2 hop).1]
      exact InitPhase.le_cPhase2 _
  | initializeFieldsBefore log st2 log2 _ hop ih =>
      rw [(initializeFieldsBefore_spec env _ log st2 log2 hop).1.1]
      exact ih
  | initializeFieldsAtTail log block st2 log2 _ hop ih =>
      unfold InitNormalize.initializeFieldsAtTail at hop
      split at hop
      · cases hop
        exact ih
      · rw [(initializeFieldsBefore_spec env _ log st2 log2 hop).1.1]
        exact ih
  | fieldInitFromInitStmt log field stmt st2 log2 _ hop ih =>
      rw [(fieldInitFromInitStmt_frame env _ log field stmt st2 log2 hop).1]
      exact ih
  | forkMerge child child1 _ hfork _ ih1 ih2 =>
      have hc := (fork_phase _ child hfork).1
      rw [hc] at ih2
      exact InitPhase.le_trans ih1 ih2

/-- C8: under `Phase0 ≤ Phase1 ≤ Phase2`, each of `checkPhase`, `completePhase1`,
`initializeFieldsBefore`, `initializeFieldsAtTail` and `fieldInitFromInitStmt` leaves
the phase at least what it was, every fork starts at the phase of its parent, and
merging back any state reached from a fork of the parent by these operations and
further forks and merges does not lower the phase of the parent. -/
theorem phase_monotone (env : Env) :
    (∀ (st : InitNormalize) block, st.mPhase ≤ (st.checkPhase env block).mPhase) ∧
    (∀ (st : InitNormalize) log stmt st1 log1,
      st.completePhase1 env log stmt = .ok (st1, log1) → st.mPhase ≤ st1.mPhase) ∧
    (∀ (st : InitNormalize) log st1 log1,
      st.initializeFieldsBefore env log = .ok (st1, log1) → st.mPhase ≤ st1.mPhase) ∧
    (∀ (st : InitNormalize) log block st1 log1,
      st.initializeFieldsAtTail env log block = .ok (st1, log1) → st.mPhase ≤ st1.mPhase) ∧
    (∀ (st : InitNormalize) log field stmt st1 log1,
      st.fieldInitFromInitStmt env log field stmt = .ok (st1, log1) → st.mPhase ≤ st1.mPhase) ∧
    (∀ parent child, IsFork parent child → child.mPhase = parent.mPhase) ∧
    (∀ st st1, Walk env st st1 → st.mPhase ≤ st1.mPhase) ∧
    (∀ parent child child1, IsFork parent child → Walk env child child1 →
      parent.mPhase ≤ (parent.merge child1).mPhase) := by
  refine ⟨checkPhase_phase_le env, ?_, ?_, ?_, ?_, ?_, walk_phase_le env, ?_⟩
  · intro st log stmt st1 log1 h
    exact walk_phase_le env st st1 (Walk.completePhase1 log stmt st1 log1 (Walk.refl st) h)
  · intro st log st1 log1 h
    exact walk_phase_le env st st1 (Walk.initializeFieldsBefore log st1 log1 (Walk.refl st) h)
  · intro st log block st1 log1 h
    exact walk_phase_le env st st1
      (Walk.initializeFieldsAtTail log block st1 log1 (Walk.refl st) h)
  · intro st log field stmt st1 log1 h
    exact walk_phase_le env st st1
      (Walk.fieldInitFromInitStmt log field stmt st1 log1 (Walk.refl st) h)
  · intro parent child h
    exact (fork_phase parent child h).1
  · intro parent child child1 hf hw
    exact walk_phase_le env parent (parent.merge child1)
      (Walk.forkMerge child child1 (Walk.refl parent) hf hw)

/-- Witness of C8: a Phase0 state is forked into a conditional, the fork looks ahead
into a block with `super.init()` and is merged back; the parent is then in Phase1. -/
theorem phase_monotone_witness :
    (exState (exInit exTypeAB []) (some 0) .cPhase0).mPhase
      ≤ ((exState (exInit exTypeAB []) (some 0) .cPhase0).merge
          ((exState (exInit exTypeAB []) (some 0) .cPhase0).forkCond.checkPhase (exEnv [])
            exCondBlock)).mPhase ∧
    ((exState (exInit exTypeAB []) (some 0) .cPhase0).merge
          ((exState (exInit exTypeAB []) (some 0) .cPhase0).forkCond.checkPhase (exEnv [])
            exCondBlock)).mPhase = .cPhase1 :=
  ⟨(phase_monotone (exEnv [])).2.2.2.2.2.2.2 _ _ _ (Or.inl rfl)
      (Walk.checkPhase exCondBlock (Walk.refl _)), rfl⟩

/-! ### The phase classifier -/

theorem firstNotPhase2_append (a b : List InitPhase) :
    firstNotPhase2 (a ++ b)
      = if firstNotPhase2 a ≠ .cPhase2 then firstNotPhase2 a else firstNotPhase2 b := by
  induction a with
  | nil => simp [firstNotPhase2]
  | cons p rest ih =>
      simp only [List.cons_append, firstNotPhase2]
      by_cases hp : p = .cPhase2
      · simp [hp, ih]
      · simp [hp]

theorem startPhaseFrom_cons (env : Env) (stmt : Expr) (rest : List Expr) :
    startPhaseFrom env (stmt :: rest)
      = if stmtClassification env stmt ≠ .cPhase2 then stmtClassification env stmt
        else startPhaseFrom env rest := by
  cases stmt with
  | callExpr c =>
      rw [startPhaseFrom]
      simp only [stmtClassification]
      cases env.isThisInit c <;> cases env.isSuperInit c <;> cases env.isInitDone c <;> simp
  | condStmt c t e =>
      cases e with
      | none =>
          rw [startPhaseFrom]
          simp only [stmtClassification]
      | some e =>
          rw [startPhaseFrom]
          simp only [stmtClassification, InitPhase.min]
          cases startPhase env t <;> cases startPhase env e <;> simp [InitPhase.toNat]
  | blockStmt b =>
      rw [startPhaseFrom]
      simp only [stmtClassification]
  | forallStmt b =>
      rw [startPhaseFrom]
      simp only [stmtClassification]
  | symExpr _ => simp [startPhaseFrom, stmtClassification]
  | unresolvedSymExpr _ => simp [startPhaseFrom, stmtClassification]
  | namedExpr _ _ => simp [startPhaseFrom, stmtClassification]
  | defExpr _ _ _ => simp [startPhaseFrom, stmtClassification]
  | otherExpr _ => simp [startPhaseFrom, stmtClassification]

theorem startPhaseFrom_eq_first (env : Env) (body : List Expr) :
    startPhaseFrom env body = firstNotPhase2 (body.map (stmtClassification env)) := by
  induction body with
  | nil => simp [startPhaseFrom, firstNotPhase2]
  | cons stmt rest ih =>
      rw [startPhaseFrom_cons, List.map_cons, firstNotPhase2, ih]

theorem startPhase_eq_from (env : Env) (block : BlockStmt) :
    startPhase env block = startPhaseFrom env block.body := by
  cases block
  rw [startPhase]
  rfl

mutual
theorem stmtClassification_of_no_marker (env : Env) :
    ∀ stmt : Expr, hasMarkerCall env stmt = false → stmtClassification env stmt = .cPhase2
  | .callExpr c => by
      intro h
      simp only [hasMarkerCall, Bool.or_eq_false_iff] at h
      simp [stmtClassification, h.1.1, h.1.2, h.2]
  | .condStmt _ t none => by
      intro h
      simp only [hasMarkerCall] at h
      simp only [stmtClassification]
      exact startPhase_of_no_marker env t h
  | .condStmt _ t (some e) => by
      intro h
      simp only [hasMarkerCall, Bool.or_eq_false_iff] at h
      simp only [stmtClassification]
      rw [startPhase_of_no_marker env t h.1, startPhase_of_no_marker env e h.2]
      rfl
  | .blockStmt b => by
      intro h
      simp only [hasMarkerCall] at h
      simp only [stmtClassification]
      exact startPhase_of_no_marker env b h
  | .forallStmt b => by
      intro h
      simp only [hasMarkerCall] at h
      simp only [stmtClassification]
      exact startPhase_of_no_marker env b h
  | .symExpr _ => by simp [stmtClassification]
  | .unresolvedSymExpr _ => by simp [stmtClassification]
  | .namedExpr _ _ => by simp [stmtClassification]
  | .defExpr _ _ _ => by simp [stmtClassification]
  | .otherExpr _ => by simp [stmtClassification]
theorem startPhase_of_no_marker (env : Env) :
    ∀ block : BlockStmt, blockHasMarkerCall env block = false → startPhase env block = .cPhase2
  | .mk _ body => by
      intro h
      simp only [blockHasMarkerCall] at h
      rw [startPhase]
      exact startPhaseFrom_of_no_marker env body h
theorem startPhaseFrom_of_no_marker (env : Env) :
    ∀ body : List Expr, anyHasMarkerCall env body = false → startPhaseFrom env body = .cPhase2
  | [] => by simp [startPhaseFrom]
  | stmt :: rest => by
      intro h
      simp only [anyHasMarkerCall, Bool.or_eq_false_iff] at h
      rw [startPhaseFrom_cons, stmtClassification_of_no_marker env stmt h.1,
        startPhaseFrom_of_no_marker env rest h.2]
      simp
end

/-- C9: `startPhase(block)` is the classification of the first statement of the
block whose own classification is not Phase2, and Phase2 when there is none, with
the classification of a statement as the specification gives it; in particular a
block with no marker call at any depth classifies as Phase2. -/
theorem startPhase_first_classified (env : Env) (block : BlockStmt) :
    startPhase env block = firstNotPhase2 (block.body.map (stmtClassification env)) ∧
    (blockHasMarkerCall env block = false → startPhase env block = .cPhase2) :=
  ⟨by rw [startPhase_eq_from, startPhaseFrom_eq_first], startPhase_of_no_marker env block⟩

/-- Witness of C9: a block with a declaration and an ordinary statement only. -/
theorem startPhase_first_classified_witness :
    startPhase (exEnv []) (.mk none [.defExpr exFieldA.sym none none, .otherExpr 0]) = .cPhase2 :=
  (startPhase_first_classified (exEnv [])
    (.mk none [.defExpr exFieldA.sym none none, .otherExpr 0])).2 rfl

theorem startPhaseFrom_append (env : Env) (pre rest : List Expr) :
    startPhaseFrom env (pre ++ rest)
      = if startPhaseFrom env pre ≠ .cPhase2 then startPhaseFrom env pre
        else startPhaseFrom env rest := by
  simp only [startPhaseFrom_eq_first, List.map_append, firstNotPhase2_append]

theorem InitPhase.min_comm (a b : InitPhase) : InitPhase.min a b = InitPhase.min b a := by
  cases a <;> cases b <;> rfl

/-- C10: a conditional with both branches contributes to `startPhase` the minimum of
the classifications of its two branches under `Phase0 < Phase1 < Phase2`; swapping
the two arms of a two-armed conditional does not change `startPhase` of the enclosing
block; and a conditional without else-branch classifies like the same conditional
with an empty else-branch. -/
theorem startPhase_cond_is_min (env : Env) :
    (∀ c t e rest,
      startPhaseFrom env (.condStmt c t (some e) :: rest)
        = if InitPhase.min (startPhase env t) (startPhase env e) ≠ .cPhase2
          then InitPhase.min (startPhase env t) (startPhase env e)
          else startPhaseFrom env rest) ∧
    (∀ info pre c t e post,
      startPhase env (.mk info (pre ++ .condStmt c t (some e) :: post))
        = startPhase env (.mk info (pre ++ .condStmt c e (some t) :: post))) ∧
    (∀ info pre c t post elseInfo,
      startPhase env (.mk info (pre ++ .condStmt c t none :: post))
        = startPhase env (.mk info (pre ++ .condStmt c t (some (.mk elseInfo [])) :: post))) := by
  refine ⟨?_, ?_, ?_⟩
  · intro c t e rest
    rw [startPhaseFrom_cons]
    rfl
  · intro info pre c t e post
    simp only [startPhase_eq_from, BlockStmt.body, startPhaseFrom_append, startPhaseFrom_cons,
      stmtClassification]
    rw [InitPhase.min_comm]
  · intro info pre c t post elseInfo
    have hmin : ∀ p : InitPhase, InitPhase.min p (startPhaseFrom env []) = p := by
      intro p
      rw [startPhaseFrom]
      cases p <;> rfl
    simp only [startPhase_eq_from, BlockStmt.body, startPhaseFrom_append, startPhaseFrom_cons,
      stmtClassification, hmin]

/-! ### `checkPhase` -/

/-- C11: `checkPhase` changes the phase only from Phase0 to Phase1, and does so
exactly when the state is in Phase0 and `startPhase(block)` is Phase1; it never lowers
the phase, never ends in Phase2 from a lower phase, and leaves the method,
`mCurrField`, `mBlockType` and `mPrevBlockType` unchanged. -/
theorem checkPhase_only_upgrades_phase0 (env : Env) (st : InitNormalize) (block : BlockStmt) :
    (st.checkPhase env block).mPhase
      = (if st.mPhase = .cPhase0 ∧ startPhase env block = .cPhase1 then .cPhase1
         else st.mPhase) ∧
    ((st.checkPhase env block).mPhase ≠ st.mPhase ↔
      (st.mPhase = .cPhase0 ∧ startPhase env block = .cPhase1)) ∧
    st.mPhase ≤ (st.checkPhase env block).mPhase ∧
    ((st.checkPhase env block).mPhase = .cPhase2 → st.mPhase = .cPhase2) ∧
    (st.checkPhase env block).mCurrField = st.mCurrField ∧
    (st.checkPhase env block).mBlockType = st.mBlockType ∧
    (st.checkPhase env block).mPrevBlockType = st.mPrevBlockType ∧
    (st.checkPhase env block).mFn = st.mFn := by
  have hle := checkPhase_phase_le env st block
  refine ⟨?_, ?_, hle, ?_, ?_, ?_, ?_, ?_⟩
  all_goals
    unfold InitNormalize.checkPhase
    by_cases h0 : st.mPhase = .cPhase0 <;> by_cases h1 : startPhase env block = .cPhase1 <;>
      simp [h0, h1]

/-- Witness of C11: in Phase0, a block that starts with `super.init()` moves the
state to Phase1. -/
theorem checkPhase_only_upgrades_phase0_witness :
    ((exState (exInit exTypeAB []) (some 0) .cPhase0).checkPhase (exEnv [])
      (.mk none [.callExpr exSuperInit])).mPhase = .cPhase1 :=
  (checkPhase_only_upgrades_phase0 (exEnv []) (exState (exInit exTypeAB []) (some 0) .cPhase0)
    (.mk none [.callExpr exSuperInit])).1.trans (if_pos ⟨rfl, rfl⟩)

/-! ### `isFieldAccess` -/

/-- C13: `isFieldAccess(call)` is `true` exactly when the call is named "." and its
first actual is a reference to an `ArgSymbol` that has `FLAG_ARG_THIS`; it is `false`
for every other call: a dot call whose first actual refers to another symbol, a dot
call whose first actual is not a symbol reference (a nested call), a call with no
actuals, and a call that is not named ".". -/
theorem isFieldAccess_iff (callExpr : CallExpr) :
    (isFieldAccess callExpr = true ↔
      (callExpr.isNamed "." = true ∧
        ∃ lhs, callExpr.get1 = some (.symExpr lhs) ∧ lhs.kind = .ArgSymbol ∧
          lhs.hasFlag .FLAG_ARG_THIS = true)) ∧
    (∀ lhs, callExpr.get1 = some (.symExpr lhs) →
      (lhs.kind ≠ .ArgSymbol ∨ lhs.hasFlag .FLAG_ARG_THIS = false) →
      isFieldAccess callExpr = false) ∧
    (∀ inner, callExpr.get1 = some (.callExpr inner) → isFieldAccess callExpr = false) ∧
    (callExpr.actuals = [] → isFieldAccess callExpr = false) ∧
    (callExpr.isNamed "." = false → isFieldAccess callExpr = false) := by
  have key : isFieldAccess callExpr = true ↔
      (callExpr.isNamed "." = true ∧
        ∃ lhs, callExpr.get1 = some (.symExpr lhs) ∧ lhs.kind = .ArgSymbol ∧
          lhs.hasFlag .FLAG_ARG_THIS = true) := by
    unfold isFieldAccess
    by_cases hn : callExpr.isNamed "." = true
    · simp only [hn, if_true, true_and]
      cases hg : callExpr.get1 with
      | none => simp
      | some e =>
          cases e with
          | symExpr lhs =>
              by_cases hk : lhs.kind = .ArgSymbol
              · simp [hk]
              · simp [hk]
          | _ => simp
    · simp [hn]
  refine ⟨key, ?_, ?_, ?_, ?_⟩
  · intro lhs hg hne
    cases hfa : isFieldAccess callExpr with
    | false => rfl
    | true =>
        obtain ⟨_, lhs2, hg2, hk, hf⟩ := key.mp hfa
        rw [hg] at hg2
        cases hg2
        rcases hne with h | h
        · exact absurd hk h
        · rw [h] at hf
          cases hf
  · intro inner hg
    cases hfa : isFieldAccess callExpr with
    | false => rfl
    | true =>
        obtain ⟨_, lhs2, hg2, _, _⟩ := key.mp hfa
        rw [hg] at hg2
        cases hg2
  · intro hempty
    cases hfa : isFieldAccess callExpr with
    | false => rfl
    | true =>
        obtain ⟨_, lhs2, hg2, _, _⟩ := key.mp hfa
        simp [CallExpr.get1, hempty] at hg2
  · intro hn
    cases hfa : isFieldAccess callExpr with
    | false => rfl
    | true =>
        obtain ⟨hn2, _⟩ := key.mp hfa
        rw [hn] at hn2
        cases hn2

/-- Witness of C13: the dot call `a.init` on a variable that is not the receiver. -/
theorem isFieldAccess_iff_witness :
    isFieldAccess (.named (.unresolvedSymExpr ".")
      [.symExpr exFieldA.sym, .symExpr (new_CStringSymbol "init")] false) = false :=
  (isFieldAccess_iff (.named (.unresolvedSymExpr ".")
      [.symExpr exFieldA.sym, .symExpr (new_CStringSymbol "init")] false)).2.1
    exFieldA.sym rfl (Or.inl (by decide))

/-! ### `isFieldReinitialized` -/

theorem isFieldReinitializedFrom_eq (currField : Option Nat) (field : Nat)
    (nodes : List DefExpr) :
    ∀ pos, pos ≤ field → field < pos + nodes.length →
      isFieldReinitializedFrom currField field pos nodes
        = .ok (match currField with
               | none => true
               | some c => decide (c < pos ∨ field < c)) := by
  induction nodes with
  | nil =>
      intro pos h1 h2
      simp at h2
      omega
  | cons d rest ih =>
      intro pos h1 h2
      unfold isFieldReinitializedFrom
      cases currField with
      | none =>
          by_cases hf : field = pos
          · simp [hf]
          · simp only [hf, if_false]
            have := ih (pos + 1) (by omega) (by simp at h2; omega)
            simpa using this
      | some c =>
          by_cases hc : pos = c
          · subst hc
            simp
            omega
          · have hc2 : ¬ (some pos = some c) := by simpa using hc
            simp only [hc2, if_false]
            by_cases hf : field = pos
            · subst hf
              simp
              omega
            · simp only [hf, if_false]
              rw [ih (pos + 1) (by omega) (by simp at h2; omega)]
              congr 1
              simp only [decide_eq_decide]
              omega

/-- C18: for a field of the type under construction, `isFieldReinitialized` returns
(its assertion holds) and the value is `true` exactly when the field lies strictly
before `mCurrField` in declaration order, every field doing so when `mCurrField` is
`NULL`; the query is a function of the state and yields nothing but that value. -/
theorem isFieldReinitialized_iff_before (st : InitNormalize) (field : Nat)
    (hField : field < st.type.fields.length) :
    st.isFieldReinitialized field = .ok (decide (st.fieldIsBefore field)) ∧
    (st.isFieldReinitialized field = .ok true ↔ st.fieldIsBefore field) := by
  have h := isFieldReinitializedFrom_eq st.mCurrField field st.type.fields 0 (Nat.zero_le _)
    (by simpa using hField)
  have hval : st.isFieldReinitialized field = .ok (decide (st.fieldIsBefore field)) := by
    unfold InitNormalize.isFieldReinitialized
    rw [h]
    congr 1
    by_cases hb : st.fieldIsBefore field
    · rw [decide_eq_true hb]
      unfold InitNormalize.fieldIsBefore at hb
      cases hc : st.mCurrField with
      | none => rfl
      | some c =>
          rw [hc] at hb
          simpa using hb
    · rw [decide_eq_false hb]
      unfold InitNormalize.fieldIsBefore at hb
      cases hc : st.mCurrField with
      | none =>
          rw [hc] at hb
          exact absurd trivial hb
      | some c =>
          rw [hc] at hb
          simpa using hb
  refine ⟨hval, ?_⟩
  rw [hval]
  simp

/-- Witness of C18: in the record `[a, b]` with `mCurrField` at `b`, the field `a` is
reinitialized by an assignment and `b` is not. -/
theorem isFieldReinitialized_iff_before_witness :
    (exState (exInit exTypeAB []) (some 1) .cPhase1).isFieldReinitialized 0 = .ok true ∧
    (exState (exInit exTypeAB []) (some 1) .cPhase1).isFieldReinitialized 1 = .ok false :=
  ⟨(isFieldReinitialized_iff_before (exState (exInit exTypeAB []) (some 1) .cPhase1) 0
      (by decide)).1,
   (isFieldReinitialized_iff_before (exState (exInit exTypeAB []) (some 1) .cPhase1) 1
      (by decide)).1⟩

/-! ### The fork constructors -/

theorem forkWith_isForkOfKind (parent : InitNormalize) (kind : BlockType) :
    IsForkOfKind parent kind (parent.forkWith kind) :=
  ⟨rfl, rfl, rfl, rfl, rfl⟩

theorem forkBlock_tagged (parent : InitNormalize) (tag : PrimitiveTag) (actuals body : List Expr) :
    InitNormalize.forkBlock (.mk (some (.prim tag actuals)) body) parent =
      (if tag = .PRIM_BLOCK_BEGIN ∨ tag = .PRIM_BLOCK_BEGIN_ON then
          .ok (parent.forkWith .cBlockBegin)
       else if tag = .PRIM_BLOCK_COBEGIN then .ok (parent.forkWith .cBlockCobegin)
       else if tag = .PRIM_BLOCK_COFORALL ∨ tag = .PRIM_BLOCK_COFORALL_ON then
          .ok (parent.forkWith .cBlockCoforall)
       else if tag = .PRIM_BLOCK_ON then .ok (parent.forkWith .cBlockOn)
       else .error .intAssert) := by
  unfold InitNormalize.forkBlock
  simp only [CallExpr.isPrimitive, Bool.or_eq_true, beq_iff_eq]

theorem isPrimitive_eq_true (c : CallExpr) (tag : PrimitiveTag) (h : c.isPrimitive tag = true) :
    ∃ actuals, c = .prim tag actuals := by
  cases c with
  | prim p actuals =>
      simp only [CallExpr.isPrimitive, beq_iff_eq] at h
      subst h
      exact ⟨actuals, rfl⟩
  | named b a s => simp [CallExpr.isPrimitive] at h

/-- C19: every fork constructor yields a state with the method, phase and
`mCurrField` of the parent.  Its block kind is Conditional, Loop or Forall for those
statements; for a block it is Begin for a begin or begin-on tag, Cobegin for a
cobegin tag, Coforall for a coforall or coforall-on tag, On for an on tag, and the
block kind of the parent when the block has no tag.  Its previous block kind is the
block kind of the parent when the new block kind differs from that, and the previous
block kind of the parent otherwise. -/
theorem fork_constructors (parent : InitNormalize) :
    IsForkOfKind parent .cBlockCond parent.forkCond ∧
    IsForkOfKind parent .cBlockLoop parent.forkLoop ∧
    IsForkOfKind parent .cBlockForall parent.forkForall ∧
    (∀ blockInfo body,
      (blockInfo.isPrimitive .PRIM_BLOCK_BEGIN = true ∨
        blockInfo.isPrimitive .PRIM_BLOCK_BEGIN_ON = true) →
      ∃ child, InitNormalize.forkBlock (.mk (some blockInfo) body) parent = .ok child ∧
        IsForkOfKind parent .cBlockBegin child) ∧
    (∀ blockInfo body, blockInfo.isPrimitive .PRIM_BLOCK_COBEGIN = true →
      ∃ child, InitNormalize.forkBlock (.mk (some blockInfo) body) parent = .ok child ∧
        IsForkOfKind parent .cBlockCobegin child) ∧
    (∀ blockInfo body,
      (blockInfo.isPrimitive .PRIM_BLOCK_COFORALL = true ∨
        blockInfo.isPrimitive .PRIM_BLOCK_COFORALL_ON = true) →
      ∃ child, InitNormalize.forkBlock (.mk (some blockInfo) body) parent = .ok child ∧
        IsForkOfKind parent .cBlockCoforall child) ∧
    (∀ blockInfo body, blockInfo.isPrimitive .PRIM_BLOCK_ON = true →
      ∃ child, InitNormalize.forkBlock (.mk (some blockInfo) body) parent = .ok child ∧
        IsForkOfKind parent .cBlockOn child) ∧
    (∀ body,
      ∃ child, InitNormalize.forkBlock (.mk none body) parent = .ok child ∧
        IsForkOfKind parent parent.mBlockType child) ∧
    (∀ block child, InitNormalize.forkBlock block parent = .ok child →
      IsForkOfKind parent child.mBlockType child) := by
  refine ⟨forkWith_isForkOfKind _ _, forkWith_isForkOfKind _ _, forkWith_isForkOfKind _ _,
    ?_, ?_, ?_, ?_, ?_, ?_⟩
  · intro blockInfo body h
    rcases h with h | h <;> obtain ⟨actuals, rfl⟩ := isPrimitive_eq_true _ _ h <;>
      exact ⟨_, by rw [forkBlock_tagged]; simp, forkWith_isForkOfKind _ _⟩
  · intro blockInfo body h
    obtain ⟨actuals, rfl⟩ := isPrimitive_eq_true _ _ h
    exact ⟨_, by rw [forkBlock_tagged]; simp, forkWith_isForkOfKind _ _⟩
  · intro blockInfo body h
    rcases h with h | h <;> obtain ⟨actuals, rfl⟩ := isPrimitive_eq_true _ _ h <;>
      exact ⟨_, by rw [forkBlock_tagged]; simp, forkWith_isForkOfKind _ _⟩
  · intro blockInfo body h
    obtain ⟨actuals, rfl⟩ := isPrimitive_eq_true _ _ h
    exact ⟨_, by rw [forkBlock_tagged]; simp, forkWith_isForkOfKind _ _⟩
  · intro body
    exact ⟨_, rfl, forkWith_isForkOfKind _ _⟩
  · intro block child h
    unfold InitNormalize.forkBlock at h
    repeat' split at h
    all_goals first
      | (cases h
         exact forkWith_isForkOfKind _ _)
      | cases h

/-- Witness of C19: a begin-block entered from a normal block. -/
theorem fork_constructors_witness :
    ∃ child,
      InitNormalize.forkBlock exBeginBlock (exState (exInit exTypeAB []) (some 0) .cPhase1)
        = .ok child ∧
      child.mBlockType = .cBlockBegin ∧ child.mPrevBlockType = .cBlockNormal ∧
      child.mPhase = .cPhase1 ∧ child.mCurrField = some 0 :=
  match (fork_constructors (exState (exInit exTypeAB []) (some 0) .cPhase1)).2.2.2.1
      (.prim .PRIM_BLOCK_BEGIN []) [] (Or.inl rfl) with
  | ⟨child, hfork, _, hphase, hcur, hkind, hprev⟩ => ⟨child, hfork, hkind, hprev, hphase, hcur⟩

/-! ### On-blocks inside other blocks -/

theorem forkBlock_on (st st1 : InitNormalize) (block : BlockStmt)
    (hOn : block.isOnBlock = true) (h : InitNormalize.forkBlock block st = .ok st1) :
    st1 = st.forkWith .cBlockOn := by
  cases block with
  | mk info body =>
      cases info with
      | none => simp [BlockStmt.isOnBlock] at hOn
      | some blockInfo =>
          obtain ⟨actuals, rfl⟩ := isPrimitive_eq_true _ _ hOn
          rw [forkBlock_tagged] at h
          simp at h
          exact h.symm

theorem forkBlock_untagged (st st1 : InitNormalize) (block : BlockStmt)
    (hUn : block.isUntagged = true) (h : InitNormalize.forkBlock block st = .ok st1) :
    st1 = st.forkWith st.mBlockType := by
  cases block with
  | mk info body =>
      cases info with
      | some blockInfo => simp [BlockStmt.isUntagged] at hUn
      | none =>
          unfold InitNormalize.forkBlock at h
          cases h
          rfl

theorem nestedInBlocks_in_on (s0 s : InitNormalize) (h : NestedInBlocks s0 s)
    (hOn : s0.mBlockType = .cBlockOn) :
    s.mBlockType = .cBlockOn ∧ s.mPrevBlockType = s0.mPrevBlockType := by
  induction h with
  | refl => exact ⟨hOn, rfl⟩
  | fork block st2 _ hkind hfork ih =>
      obtain ⟨ih1, ih2⟩ := ih
      rcases hkind with hUn | hOnB
      · rw [forkBlock_untagged _ _ block hUn hfork]
        simp [InitNormalize.forkWith, ih1, ih2]
      · rw [forkBlock_on _ _ block hOnB hfork]
        simp [InitNormalize.forkWith, ih1, ih2]

/-- C20: when a tracker whose block kind is Loop is forked into an on-block and the
result is forked any number of further times into untagged nested blocks or further
on-blocks, `inOnInLoopBody` holds in every resulting state; likewise
`inOnInCondStmt` for a Conditional parent, `inOnInParallelStmt` for a Begin or Cobegin
parent, `inOnInCoforall` for a Coforall parent and `inOnInForall` for a Forall
parent. -/
theorem on_block_remembers_enclosing_kind (parent s0 s : InitNormalize) (onBlock : BlockStmt)
    (hOn : onBlock.isOnBlock = true)
    (hFork : InitNormalize.forkBlock onBlock parent = .ok s0)
    (hNested : NestedInBlocks s0 s) :
    (parent.mBlockType = .cBlockLoop → s.inOnInLoopBody = true) ∧
    (parent.mBlockType = .cBlockCond → s.inOnInCondStmt = true) ∧
    ((parent.mBlockType = .cBlockBegin ∨ parent.mBlockType = .cBlockCobegin) →
      s.inOnInParallelStmt = true) ∧
    (parent.mBlockType = .cBlockCoforall → s.inOnInCoforall = true) ∧
    (parent.mBlockType = .cBlockForall → s.inOnInForall = true) := by
  have h0 := forkBlock_on parent s0 onBlock hOn hFork
  have hk0 : s0.mBlockType = .cBlockOn := by rw [h0]; rfl
  obtain ⟨hk, hp⟩ := nestedInBlocks_in_on s0 s hNested hk0
  have hp0 : s0.mPrevBlockType
      = (if BlockType.cBlockOn ≠ parent.mBlockType then parent.mBlockType
         else parent.mPrevBlockType) := by rw [h0]; rfl
  rw [hp0] at hp
  refine ⟨?_, ?_, ?_, ?_, ?_⟩
  · intro h
    simp [InitNormalize.inOnInLoopBody, InitNormalize.inOn, hk, hp, h]
  · intro h
    simp [InitNormalize.inOnInCondStmt, InitNormalize.inOn, hk, hp, h]
  · intro h
    rcases h with h | h <;>
      simp [InitNormalize.inOnInParallelStmt, InitNormalize.inOn, hk, hp, h]
  · intro h
    simp [InitNormalize.inOnInCoforall, InitNormalize.inOn, hk, hp, h]
  · intro h
    simp [InitNormalize.inOnInForall, InitNormalize.inOn, hk, hp, h]

/-- Witness of C20: a loop body, an on-block in it, an untagged block in that, and
a further on-block. -/
theorem on_block_remembers_enclosing_kind_witness :
    ((((exState (exInit exTypeAB []) (some 0) .cPhase1).forkLoop.forkWith .cBlockOn).forkWith
        .cBlockOn).forkWith .cBlockOn).inOnInLoopBody = true :=
  (on_block_remembers_enclosing_kind (exState (exInit exTypeAB []) (some 0) .cPhase1).forkLoop
    _ _ exOnBlock rfl rfl
    (NestedInBlocks.fork exOnBlock _
      (NestedInBlocks.fork exPlainBlock _ (NestedInBlocks.refl _) (Or.inl rfl) rfl)
      (Or.inr rfl) rfl)).1 rfl

/-! ### The phase rule of the rewrite -/

theorem updateFieldsMember_super_field (env : Env) (st : InitNormalize) (sym : Symbol)
    (field : DefExpr) (hLocal : env.toLocalFieldSym st.type sym = none)
    (hSuper : env.toSuperFieldSym st.type sym = some field) :
    st.updateFieldsMember env (.symExpr sym) =
      if env.hasInitDone st.mFn.body then .ok (st.getMember sym.name)
      else .error (.usrFatal (parentFieldMsg field.sym.name)) := by
  rw [InitNormalize.updateFieldsMember]
  simp only [hLocal, hSuper]

/-- C14 fails on the code: in Phase2, with no completion marker in the method body,
`isFieldAccessible` accepts the bare reference to the inherited field `x`, and
`updateFieldsMember` on the same reference ends in the `USR_FATAL` "Cannot access
parent field 'x' during phase 1": the rewrite tests `hasInitDone` only, the check
tests `hasInitDone` or Phase2. -/
theorem updateFieldsMember_rejects_parent_field_in_phase2 :
    exPhase2State.mPhase = .cPhase2 ∧
    (exEnv [exParentX]).hasInitDone exPhase2State.mFn.body = false ∧
    exPhase2State.isFieldAccessible (exEnv [exParentX]) (.symExpr exParentX.sym) = .ok true ∧
    exPhase2State.updateFieldsMember (exEnv [exParentX]) (.symExpr exParentX.sym)
      = .error (.usrFatal "Cannot access parent field 'x' during phase 1") :=
  ⟨rfl, rfl, rfl, rfl⟩

/-! ### Fields without type and default -/

theorem initializeFieldStep_omitted (env : Env) (st : InitNormalize) (log : Emitted)
    (field : DefExpr) (hT : field.exprType = none) (hI : field.init = none)
    (hOuter : st.isOuterField field = false) :
    st.initializeFieldStep env log field
      = .ok (st, { log with diags := log.diags ++ [omitFieldMsg field.sym.name] }) := by
  unfold InitNormalize.initializeFieldStep
  simp only [hOuter, Bool.false_eq_true, if_false, hT, hI]

theorem fieldInitFromField_omitted (env : Env) (st : InitNormalize) (log : Emitted)
    (field : DefExpr) (hT : field.exprType = none) (hI : field.init = none) :
    st.fieldInitFromField env log field
      = .ok (st, { log with diags := log.diags ++ [omitFieldMsg field.sym.name] }) := by
  unfold InitNormalize.fieldInitFromField
  simp only [hT, hI]

/-- C15 as stated fails: the `outer` pseudo-field of the nested record
`[a : int, outer]` has neither a declared type nor a default expression, yet when
`initializeFieldsBefore` fills it no diagnostic is recorded and a statement is
emitted for it (at the head of the method body). -/
theorem outer_field_gets_no_diagnostic :
    exFieldOuter.exprType.isNone = true ∧ exFieldOuter.init.isNone = true ∧
    ((exState (exInit exTypeAOuter [.callExpr exInitDone]) (some 1) .cPhase1).initializeFieldsBefore
        (exEnv []) Emitted.empty).map
        (fun r => (r.1.mCurrField, r.2.diags, fieldAssignments r.2.atHead, r.2.before))
      = .ok (none, [], [some "outer"], []) :=
  ⟨rfl, rfl, rfl⟩

/-- C15, amended: for a field with neither a declared type nor a default expression
that is not the `outer` pseudo-field, the step of `initializeFieldsBefore` records
the continuable diagnostic "can't omit initialization of field ..." and emits no
statement, and the loop goes on with the next field; `fieldInitFromField` does the
same for every such field, and the loop of `fieldInitFromInitStmt` goes on; when
`initializeFieldsBefore` returns, it has recorded one diagnostic for each such field,
in declaration order.  In the record `[a : int, c, d, b : int]` the fields `c` and `d`
each get their diagnostic and `a` and `b` are assigned. -/
theorem omitted_field_gets_continuable_diagnostic (env : Env) (st : InitNormalize)
    (log : Emitted) (field : DefExpr)
    (hT : field.exprType = none) (hI : field.init = none) :
    (st.isOuterField field = false →
      st.initializeFieldStep env log field
        = .ok (st, { log with diags := log.diags ++ [omitFieldMsg field.sym.name] })) ∧
    st.fieldInitFromField env log field
      = .ok (st, { log with diags := log.diags ++ [omitFieldMsg field.sym.name] }) ∧
    (st.isOuterField field = false → ∀ pos rest,
      InitNormalize.initializeFieldsFrom env st log pos (field :: rest)
        = InitNormalize.initializeFieldsFrom env { st with mCurrField := some pos }
            { log with diags := log.diags ++ [omitFieldMsg field.sym.name] } (pos + 1) rest) ∧
    (∀ target pos rest, target ≠ pos →
      InitNormalize.skipToField env target st log pos (field :: rest)
        = InitNormalize.skipToField env target { st with mCurrField := some pos }
            { log with diags := log.diags ++ [omitFieldMsg field.sym.name] } (pos + 1) rest) ∧
    (∀ (s s1 : InitNormalize) (l l1 : Emitted),
      s.initializeFieldsBefore env l = .ok (s1, l1) →
      s1.mCurrField = none ∧
      l1.diags = l.diags ++
        (s.remainingFields.filter s.omittedField).map (fun d => omitFieldMsg d.sym.name)) ∧
    ((exState (exInit exTypeACDB []) (some 0) .cPhase1).initializeFieldsBefore (exEnv [])
        Emitted.empty).map (fun r => (r.1.mCurrField, r.2.diags, fieldAssignments r.2.before))
      = .ok (none,
          ["can't omit initialization of field \"c\", no type or default value provided",
           "can't omit initialization of field \"d\", no type or default value provided"],
          [some "a", some "b"]) := by
  refine ⟨?_, fieldInitFromField_omitted env st log field hT hI, ?_, ?_, ?_, rfl⟩
  · intro hOuter
    exact initializeFieldStep_omitted env st log field hT hI hOuter
  · intro hOuter pos rest
    rw [InitNormalize.initializeFieldsFrom,
      initializeFieldStep_omitted env { st with mCurrField := some pos } log field hT hI hOuter]
  · intro target pos rest hne
    rw [InitNormalize.skipToField,
      fieldInitFromField_omitted env { st with mCurrField := some pos } log field hT hI]
    simp only [hne, if_false]
  · intro s s1 l l1 h
    obtain ⟨_, hc, hr⟩ := initializeFieldsBefore_spec env s l s1 l1 h
    exact ⟨hc, hr.2.2.1⟩

/-- Witness of C15 (amended): the field `c` without type and default. -/
theorem omitted_field_gets_continuable_diagnostic_witness :
    (exState (exInit exTypeACDB []) (some 1) .cPhase1).fieldInitFromField (exEnv [])
        Emitted.empty (exFieldBare 13 "c")
      = .ok (exState (exInit exTypeACDB []) (some 1) .cPhase1,
          { Emitted.empty with diags := Emitted.empty.diags ++ [omitFieldMsg "c"] }) :=
  (omitted_field_gets_continuable_diagnostic (exEnv [])
    (exState (exInit exTypeACDB []) (some 1) .cPhase1) Emitted.empty (exFieldBare 13 "c")
    rfl rfl).2.1

/-! ### Idempotence of the rewrite -/

theorem handleInsertedMethodCall_unresolved (st : InitNormalize) (us : String)
    (actuals : List Expr) (sq : Bool) :
    st.handleInsertedMethodCall (.named (.unresolvedSymExpr us) actuals sq) =
      if firstActualIsMethodToken actuals = false ∧
          st.type.methods.any (fun fnName => us == fnName) = true then
        .named (st.dotMethod us) actuals sq
      else .named (.unresolvedSymExpr us) actuals sq := by
  unfold InitNormalize.handleInsertedMethodCall
  dsimp only
  by_cases h2 : st.type.methods.any (fun fnName => us == fnName) = true
  · cases actuals with
    | nil => simp [firstActualIsMethodToken, InitNormalize.dotMethod, h2]
    | cons a rest =>
        cases a with
        | symExpr firstArg =>
            by_cases h1 : firstArg = gMethodToken
            · simp [firstActualIsMethodToken, h1]
            · simp [firstActualIsMethodToken, InitNormalize.dotMethod, h1, h2]
        | _ => simp [firstActualIsMethodToken, InitNormalize.dotMethod, h2]
  · cases actuals with
    | nil => simp [firstActualIsMethodToken, h2]
    | cons a rest =>
        cases a with
        | symExpr firstArg =>
            by_cases h1 : firstArg = gMethodToken
            · simp [firstActualIsMethodToken, h1]
            · simp [firstActualIsMethodToken, h1, h2]
        | _ => simp [firstActualIsMethodToken, h2]

theorem handleInsertedMethodCall_other (st : InitNormalize) (call : CallExpr)
    (h : ∀ us actuals sq, call ≠ .named (.unresolvedSymExpr us) actuals sq) :
    st.handleInsertedMethodCall call = call := by
  unfold InitNormalize.handleInsertedMethodCall
  split
  · rename_i us actuals sq
    exact absurd rfl (h us actuals sq)
  · rfl

theorem updateFieldsMember_not_a_field (env : Env) (st : InitNormalize) (s : Symbol)
    (h : NotAField env st s) : st.updateFieldsMember env (.symExpr s) = .ok (.symExpr s) := by
  rw [InitNormalize.updateFieldsMember]
  simp only [h.1, h.2]

theorem updateFieldsMember_symExpr_result (env : Env) (st : InitNormalize) (a a1 : Expr)
    (s : Symbol) (h : st.updateFieldsMember env a = .ok a1) (h1 : a1 = .symExpr s) :
    a = .symExpr s := by
  subst h1
  cases a with
  | symExpr sym =>
      rw [InitNormalize.updateFieldsMember] at h
      repeat' split at h
      all_goals cases h
      rfl
  | callExpr c =>
      rw [InitNormalize.updateFieldsMember] at h
      repeat' split at h
      all_goals cases h
  | namedExpr n x =>
      rw [InitNormalize.updateFieldsMember] at h
      cases h
  | unresolvedSymExpr u =>
      rw [InitNormalize.updateFieldsMember] at h
      cases h
  | defExpr _ _ _ => simp [InitNormalize.updateFieldsMember] at h
  | condStmt _ _ _ => simp [InitNormalize.updateFieldsMember] at h
  | blockStmt _ => simp [InitNormalize.updateFieldsMember] at h
  | forallStmt _ => simp [InitNormalize.updateFieldsMember] at h
  | otherExpr _ => simp [InitNormalize.updateFieldsMember] at h

theorem updateFieldsMemberActuals_cons (env : Env) (st : InitNormalize) (a : Expr)
    (rest l1 : List Expr)
    (h : InitNormalize.updateFieldsMemberActuals env st (a :: rest) = .ok l1) :
    ∃ a1 r1, st.updateFieldsMember env a = .ok a1 ∧
      InitNormalize.updateFieldsMemberActuals env st rest = .ok r1 ∧ l1 = a1 :: r1 := by
  rw [InitNormalize.updateFieldsMemberActuals] at h
  cases ha : st.updateFieldsMember env a with
  | error f => simp [ha] at h
  | ok a1 =>
      cases hr : InitNormalize.updateFieldsMemberActuals env st rest with
      | error f => simp [ha, hr] at h
      | ok r1 =>
          simp only [ha, hr] at h
          cases h
          exact ⟨a1, r1, rfl, rfl, rfl⟩

theorem updateFieldsMemberActuals_head (env : Env) (st : InitNormalize) (l l1 : List Expr)
    (h : InitNormalize.updateFieldsMemberActuals env st l = .ok l1) :
    (∀ s, l1.head? = some (.symExpr s) → l.head? = some (.symExpr s)) ∧
    (NotAField env st gMethodToken → firstActualIsMethodToken l = true →
      firstActualIsMethodToken l1 = true) := by
  cases l with
  | nil =>
      rw [InitNormalize.updateFieldsMemberActuals] at h
      cases h
      exact ⟨fun s hs => hs, fun _ hf => hf⟩
  | cons a rest =>
      obtain ⟨a1, r1, ha, _, rfl⟩ := updateFieldsMemberActuals_cons env st a rest l1 h
      constructor
      · intro s hs
        simp only [List.head?_cons, Option.some.injEq] at hs
        rw [updateFieldsMember_symExpr_result env st a a1 s ha hs]
        rfl
      · intro hgmt hf
        cases a with
        | symExpr sym =>
            simp only [firstActualIsMethodToken, decide_eq_true_eq] at hf
            subst hf
            rw [updateFieldsMember_not_a_field env st gMethodToken hgmt] at ha
            cases ha
            rfl
        | _ => simp [firstActualIsMethodToken] at hf

theorem isFieldAccess_true_iff (callExpr : CallExpr) :
    isFieldAccess callExpr = true ↔
      (callExpr.isNamed "." = true ∧
        ∃ lhs, callExpr.get1 = some (.symExpr lhs) ∧ lhs.kind = .ArgSymbol ∧
          lhs.hasFlag .FLAG_ARG_THIS = true) := by
  unfold isFieldAccess
  by_cases hn : callExpr.isNamed "." = true
  · simp only [hn, if_true, true_and]
    cases hg : callExpr.get1 with
    | none => simp
    | some e =>
        cases e with
        | symExpr lhs =>
            by_cases hk : lhs.kind = .ArgSymbol
            · simp [hk]
            · simp [hk]
        | _ => simp
  · simp [hn]

theorem isFieldAccess_false_of (c c1 : CallExpr) (h : isFieldAccess c = false)
    (hNamed : c1.isNamed "." = true → c.isNamed "." = true)
    (hHead : ∀ s, c1.get1 = some (.symExpr s) → c.get1 = some (.symExpr s)) :
    isFieldAccess c1 = false := by
  cases h1 : isFieldAccess c1 with
  | false => rfl
  | true =>
      obtain ⟨hn, lhs, hg, hk, hf⟩ := (isFieldAccess_true_iff c1).mp h1
      have : isFieldAccess c = true :=
        (isFieldAccess_true_iff c).mpr ⟨hNamed hn, lhs, hHead lhs hg, hk, hf⟩
      rw [h] at this
      cases this

theorem rewritten_call_is_fixed (env : Env) (st : InitNormalize) (c : CallExpr)
    (as1 : List Expr) (hgmt : NotAField env st gMethodToken)
    (hAcc : isFieldAccess c = false)
    (hUpd : InitNormalize.updateFieldsMemberActuals env st c.actuals = .ok as1)
    (hFix : InitNormalize.updateFieldsMemberActuals env st as1 = .ok as1) :
    st.updateFieldsMember env (.callExpr ((st.handleInsertedMethodCall c).withActuals as1))
      = .ok (.callExpr ((st.handleInsertedMethodCall c).withActuals as1)) := by
  obtain ⟨hHead, hTok⟩ := updateFieldsMemberActuals_head env st c.actuals as1 hUpd
  have key : ∀ c1 : CallExpr, c1.actuals = as1 →
      (c1.isNamed "." = true → c.isNamed "." = true) →
      st.handleInsertedMethodCall c1 = c1 →
      st.updateFieldsMember env (.callExpr c1) = .ok (.callExpr c1) := by
    intro c1 hacts hnamed hfixed
    have hAcc1 : isFieldAccess c1 = false :=
      isFieldAccess_false_of c c1 hAcc hnamed (by
        intro s hs
        simp only [CallExpr.get1, hacts] at hs
        exact hHead s hs)
    rw [InitNormalize.updateFieldsMember]
    simp only [hAcc1, if_true, updateFieldsMemberCall_eq, hacts, hFix, hfixed]
    congr 2
    cases c1 with
    | prim p a => simp only [CallExpr.actuals] at hacts; simp [CallExpr.withActuals, hacts]
    | named b a s => simp only [CallExpr.actuals] at hacts; simp [CallExpr.withActuals, hacts]
  cases c with
  | prim p as =>
      have hh : st.handleInsertedMethodCall (.prim p as) = .prim p as := rfl
      rw [hh]
      exact key _ rfl (fun h => by simp [CallExpr.withActuals, CallExpr.isNamed] at h) rfl
  | named b as sq =>
      cases b with
      | unresolvedSymExpr us =>
          rw [handleInsertedMethodCall_unresolved]
          by_cases hrep : firstActualIsMethodToken as = false ∧
              st.type.methods.any (fun fnName => us == fnName) = true
          · simp only [hrep, and_self, if_true, CallExpr.withActuals]
            exact key _ rfl (fun h => by simp [CallExpr.isNamed, InitNormalize.dotMethod] at h)
              rfl
          · simp only [hrep, if_false, CallExpr.withActuals]
            refine key _ rfl (fun h => by simpa [CallExpr.isNamed] using h) ?_
            rw [handleInsertedMethodCall_unresolved]
            have : ¬ (firstActualIsMethodToken as1 = false ∧
                st.type.methods.any (fun fnName => us == fnName) = true) := by
              rintro ⟨h1, h2⟩
              apply hrep
              refine ⟨?_, h2⟩
              cases hf : firstActualIsMethodToken as with
              | false => rfl
              | true =>
                  have := hTok hgmt hf
                  rw [h1] at this
                  cases this
            simp only [this, if_false]
      | symExpr s =>
          have hh : ∀ l, st.handleInsertedMethodCall (.named (.symExpr s) l sq)
              = .named (.symExpr s) l sq := fun l => rfl
          rw [hh]
          exact key _ rfl (fun h => by simpa [CallExpr.isNamed, CallExpr.withActuals] using h)
            (hh _)
      | namedExpr n x =>
          exact key _ rfl (fun h => by simp [CallExpr.isNamed, CallExpr.withActuals,
            InitNormalize.handleInsertedMethodCall] at h) rfl
      | callExpr x =>
          exact key _ rfl (fun h => by simp [CallExpr.isNamed, CallExpr.withActuals,
            InitNormalize.handleInsertedMethodCall] at h) rfl
      | defExpr _ _ _ =>
          exact key _ rfl (fun h => by simp [CallExpr.isNamed, CallExpr.withActuals,
            InitNormalize.handleInsertedMethodCall] at h) rfl
      | condStmt _ _ _ =>
          exact key _ rfl (fun h => by simp [CallExpr.isNamed, CallExpr.withActuals,
            InitNormalize.handleInsertedMethodCall] at h) rfl
      | blockStmt _ =>
          exact key _ rfl (fun h => by simp [CallExpr.isNamed, CallExpr.withActuals,
            InitNormalize.handleInsertedMethodCall] at h) rfl
      | forallStmt _ =>
          exact key _ rfl (fun h => by simp [CallExpr.isNamed, CallExpr.withActuals,
            InitNormalize.handleInsertedMethodCall] at h) rfl
      | otherExpr _ =>
          exact key _ rfl (fun h => by simp [CallExpr.isNamed, CallExpr.withActuals,
            InitNormalize.handleInsertedMethodCall] at h) rfl

theorem updateFieldsMember_getMember (env : Env) (st : InitNormalize) (name : String)
    (h : PassSymbolsAreNotFields env st) :
    st.updateFieldsMember env (st.getMember name) = .ok (st.getMember name) := by
  unfold InitNormalize.getMember
  rw [InitNormalize.updateFieldsMember]
  have hacc : isFieldAccess (.prim .PRIM_GET_MEMBER
      [.symExpr st.mFn._this, .symExpr (new_CStringSymbol name)]) = false := rfl
  simp only [hacc, if_true, InitNormalize.updateFieldsMemberCall,
    InitNormalize.updateFieldsMemberActuals, updateFieldsMember_not_a_field env st _ h.1,
    updateFieldsMember_not_a_field env st _ (h.2.2 name)]
  rfl

mutual
theorem updateFieldsMember_fixed (env : Env) (st : InitNormalize)
    (h : PassSymbolsAreNotFields env st) :
    ∀ e e1 : Expr, st.updateFieldsMember env e = .ok e1 → st.updateFieldsMember env e1 = .ok e1
  | .symExpr sym, e1 => by
      intro hu
      cases hloc : env.toLocalFieldSym st.type sym with
      | some field =>
          rw [updateFieldsMember_local_field env st sym field hloc] at hu
          split at hu
          · cases hu
            exact updateFieldsMember_getMember env st _ h
          · cases hu
      | none =>
          cases hsup : env.toSuperFieldSym st.type sym with
          | some field =>
              rw [updateFieldsMember_super_field env st sym field hloc hsup] at hu
              split at hu
              · cases hu
                exact updateFieldsMember_getMember env st _ h
              · cases hu
          | none =>
              rw [updateFieldsMember_not_a_field env st sym ⟨hloc, hsup⟩] at hu
              cases hu
              exact updateFieldsMember_not_a_field env st sym ⟨hloc, hsup⟩
  | .callExpr c, e1 => by
      intro hu
      rw [InitNormalize.updateFieldsMember] at hu
      cases hAcc : isFieldAccess c with
      | false =>
          simp only [hAcc, if_true] at hu
          cases hc : InitNormalize.updateFieldsMemberCall env st c with
          | error f => simp [hc] at hu
          | ok as1 =>
              simp only [hc] at hu
              cases hu
              rw [updateFieldsMemberCall_eq] at hc
              exact rewritten_call_is_fixed env st c as1 h.2.1 hAcc hc
                (updateFieldsMemberCall_fixed env st h c as1 hc)
      | true =>
          simp only [hAcc, Bool.true_eq_false, if_false] at hu
          cases hu
          rw [InitNormalize.updateFieldsMember]
          simp only [hAcc, Bool.true_eq_false, if_false]
  | .namedExpr n x, e1 => by
      intro hu
      rw [InitNormalize.updateFieldsMember] at hu
      cases hu
      rw [InitNormalize.updateFieldsMember]
  | .unresolvedSymExpr u, e1 => by
      intro hu
      rw [InitNormalize.updateFieldsMember] at hu
      cases hu
      rw [InitNormalize.updateFieldsMember]
  | .defExpr _ _ _, e1 => by simp [InitNormalize.updateFieldsMember]
  | .condStmt _ _ _, e1 => by simp [InitNormalize.updateFieldsMember]
  | .blockStmt _, e1 => by simp [InitNormalize.updateFieldsMember]
  | .forallStmt _, e1 => by simp [InitNormalize.updateFieldsMember]
  | .otherExpr _, e1 => by simp [InitNormalize.updateFieldsMember]
theorem updateFieldsMemberCall_fixed (env : Env) (st : InitNormalize)
    (h : PassSymbolsAreNotFields env st) :
    ∀ (c : CallExpr) (as1 : List Expr),
      InitNormalize.updateFieldsMemberActuals env st c.actuals = .ok as1 →
      InitNormalize.updateFieldsMemberActuals env st as1 = .ok as1
  | .prim _ actuals, as1 => updateFieldsMemberActuals_fixed env st h actuals as1
  | .named _ actuals _, as1 => updateFieldsMemberActuals_fixed env st h actuals as1
theorem updateFieldsMemberActuals_fixed (env : Env) (st : InitNormalize)
    (h : PassSymbolsAreNotFields env st) :
    ∀ l l1 : List Expr, InitNormalize.updateFieldsMemberActuals env st l = .ok l1 →
      InitNormalize.updateFieldsMemberActuals env st l1 = .ok l1
  | [], l1 => by
      intro hu
      rw [InitNormalize.updateFieldsMemberActuals] at hu
      cases hu
      rw [InitNormalize.updateFieldsMemberActuals]
  | a :: rest, l1 => by
      intro hu
      obtain ⟨a1, r1, ha, hr, rfl⟩ := updateFieldsMemberActuals_cons env st a rest l1 hu
      rw [InitNormalize.updateFieldsMemberActuals, updateFieldsMember_fixed env st h a a1 ha,
        updateFieldsMemberActuals_fixed env st h rest r1 hr]
end

/-- C12: when the symbols that the pass itself puts into expressions (the receiver,
the method token, the C-string symbols of field names) are not resolved to fields,
`updateFieldsMember` is idempotent: on the result of a run that completed, a second
run completes and returns the same expression.  In particular a call in explicit
field-access form is returned unchanged, and the member read and the
receiver-dot-method call that the rewrite produces are returned unchanged. -/
theorem updateFieldsMember_idempotent (env : Env) (st : InitNormalize)
    (hSyms : PassSymbolsAreNotFields env st) :
    (∀ e e1, st.updateFieldsMember env e = .ok e1 → st.updateFieldsMember env e1 = .ok e1) ∧
    (∀ call, isFieldAccess call = true →
      st.updateFieldsMember env (.callExpr call) = .ok (.callExpr call)) ∧
    (∀ name, st.updateFieldsMember env (st.getMember name) = .ok (st.getMember name)) ∧
    (∀ name actuals sq,
      InitNormalize.updateFieldsMemberActuals env st actuals = .ok actuals →
      st.updateFieldsMember env (.callExpr (.named (st.dotMethod name) actuals sq))
        = .ok (.callExpr (.named (st.dotMethod name) actuals sq))) := by
  refine ⟨updateFieldsMember_fixed env st hSyms, ?_,
    fun name => updateFieldsMember_getMember env st name hSyms, ?_⟩
  · intro call hAcc
    rw [InitNormalize.updateFieldsMember]
    simp only [hAcc, Bool.true_eq_false, if_false]
  · intro name actuals sq hFix
    have hAcc : isFieldAccess (.named (st.dotMethod name) actuals sq) = false := by
      simp [isFieldAccess, CallExpr.isNamed, InitNormalize.dotMethod]
    have := rewritten_call_is_fixed env st (.named (st.dotMethod name) actuals sq) actuals
      hSyms.2.1 hAcc hFix hFix
    simpa [InitNormalize.handleInsertedMethodCall, InitNormalize.dotMethod,
      CallExpr.withActuals] using this

theorem exEnv_pass_symbols (fields : List DefExpr) (body : List Expr) (cur : Option Nat)
    (phase : InitPhase)
    (hFields : ∀ d ∈ fields, d.sym.id ≠ 0 ∧ d.sym.id ≠ 1) :
    PassSymbolsAreNotFields (exEnv [])
      (exState (exInit (exRecordWithFoo fields) body) cur phase) := by
  have key : ∀ s : Symbol, (s.id = 0 ∨ s.id = 1) →
      NotAField (exEnv []) (exState (exInit (exRecordWithFoo fields) body) cur phase) s := by
    intro s hs
    refine ⟨?_, rfl⟩
    simp only [exEnv, InitNormalize.type, exState, exInit, exRecordWithFoo]
    have : List.findIdx (fun d : DefExpr => d.sym == s) fields = fields.length := by
      rw [List.findIdx_eq_length]
      intro d hd
      have := hFields d hd
      simp only [beq_eq_false_iff_ne, ne_eq]
      intro heq
      rw [heq] at this
      rcases hs with h0 | h1
      · exact this.1 h0
      · exact this.2 h1
    simp [this]
  exact ⟨key _ (Or.inr rfl), key _ (Or.inl rfl), fun name => key _ (Or.inl rfl)⟩

/-- Witness of C12: in the record `[a, b]` with the method `foo`, after `a` is
initialized, `foo(a)` is rewritten to `this.foo(this.a)` and a second run leaves
that unchanged. -/
theorem updateFieldsMember_idempotent_witness :
    exStateFoo.updateFieldsMember (exEnv []) exCallFooOfA = .ok exCallFooOfARewritten ∧
    exStateFoo.updateFieldsMember (exEnv []) exCallFooOfARewritten
      = .ok exCallFooOfARewritten :=
  ⟨rfl,
   (updateFieldsMember_idempotent (exEnv []) exStateFoo
      (exEnv_pass_symbols [exFieldA, exFieldB] [] (some 1) .cPhase1 (by decide))).1
      exCallFooOfA exCallFooOfARewritten rfl⟩

/-! ### Explicit initialization of a field -/

theorem fieldInitFromStmt_eq (env : Env) (st : InitNormalize) (log : Emitted)
    (stmt : CallExpr) (field : DefExpr) :
    st.fieldInitFromStmt env log stmt field =
      match stmt.actuals with
      | lhs :: initExpr :: rest =>
          match st.strategyForRhs env field initExpr with
          | .error f => .error f
          | .ok stmts =>
              .ok (st, { log with before := log.before ++ stmts,
                                  removed := log.removed ++ [.callExpr (stmt.withActuals (lhs :: rest))] })
      | _ => .error .nullDeref := by
  unfold InitNormalize.fieldInitFromStmt InitNormalize.strategyForRhs
  rfl

theorem strategyForRhs_emits (env : Env) (st : InitNormalize) (field : DefExpr)
    (initExpr : Expr) (stmts : List Expr)
    (h : st.strategyForRhs env field initExpr = .ok stmts) :
    EmitsOneFieldSet st field stmts := by
  unfold InitNormalize.strategyForRhs at h
  repeat' split at h
  all_goals first
    | exact genericFieldInitTypeWithInit_emits env st field _ stmts h
    | exact genericFieldInitTypeInference_emits env st field _ stmts h
    | exact fieldInitTypeWithInit_emits env st field _ stmts h
    | exact fieldInitTypeInference_emits env st field _ stmts h

theorem fieldInitFromField_spec (env : Env) (st : InitNormalize) (log : Emitted)
    (field : DefExpr) (st1 : InitNormalize) (log1 : Emitted)
    (h : st.fieldInitFromField env log field = .ok (st1, log1)) :
    st1 = st ∧ ImplicitFill [field] log log1 := by
  refine ⟨fieldInitFromField_state env st log field st1 log1 h, ?_⟩
  by_cases hSome : field.hasTypeOrDefault = true
  · have hstmts : ∃ stmts, EmitsOneFieldSet st field stmts ∧
        log1 = { log with before := log.before ++ stmts } := by
      unfold InitNormalize.fieldInitFromField at h
      unfold DefExpr.hasTypeOrDefault at hSome
      cases hT : field.exprType <;> cases hI : field.init <;> simp only [hT, hI] at h hSome
      · simp at hSome
      all_goals
        repeat' split at h
        all_goals
          (obtain ⟨stmts, hr, _, h2⟩ := emitBefore_ok _ _ _ _ _ h
           first
             | exact ⟨stmts, genericFieldInitTypeWoutInit_emits env st field stmts hr, h2⟩
             | exact ⟨stmts, genericFieldInitTypeWithInit_emits env st field _ stmts hr, h2⟩
             | exact ⟨stmts, genericFieldInitTypeInference_emits env st field _ stmts hr, h2⟩
             | exact ⟨stmts, fieldInitTypeWoutInit_emits env st field stmts hr, h2⟩
             | exact ⟨stmts, fieldInitTypeWithInit_emits env st field _ stmts hr, h2⟩
             | exact ⟨stmts, fieldInitTypeInference_emits env st field _ stmts hr, h2⟩)
    obtain ⟨stmts, hE, rfl⟩ := hstmts
    refine ⟨stmts, rfl, ?_, rfl, rfl, ?_⟩
    · rw [emitsOneFieldSet_fieldAssignments st field stmts hE]
      simp [hSome]
    · simp [hSome]
  · have hSome : field.hasTypeOrDefault = false := by simpa using hSome
    have hT : field.exprType = none := by
      cases hT : field.exprType <;> simp [DefExpr.hasTypeOrDefault, hT] at hSome ⊢
    have hI : field.init = none := by
      cases hI : field.init <;> simp [DefExpr.hasTypeOrDefault, hI] at hSome ⊢
    rw [fieldInitFromField_omitted env st log field hT hI] at h
    cases h
    exact ⟨[], by simp, by simp [hSome, fieldAssignments], rfl, rfl, by simp [hSome]⟩

theorem implicitFill_nil (log : Emitted) : ImplicitFill [] log log :=
  ⟨[], by simp, by simp [fieldAssignments], rfl, rfl, by simp⟩

theorem implicitFill_cons (d : DefExpr) (rest : List DefExpr) (log log1 log2 : Emitted)
    (h1 : ImplicitFill [d] log log1) (h2 : ImplicitFill rest log1 log2) :
    ImplicitFill (d :: rest) log log2 := by
  obtain ⟨s1, a1, a2, a3, a4, a5⟩ := h1
  obtain ⟨s2, b1, b2, b3, b4, b5⟩ := h2
  refine ⟨s1 ++ s2, ?_, ?_, ?_, ?_, ?_⟩
  · rw [b1, a1, List.append_assoc]
  · rw [fieldAssignments_append, a2, b2]
    by_cases hd : d.hasTypeOrDefault = true <;> simp [List.filter_cons, hd]
  · rw [b3, a3]
  · rw [b4, a4]
  · rw [b5, a5]
    by_cases hd : d.hasTypeOrDefault = true <;> simp [List.filter_cons, hd]

theorem skipToField_spec (env : Env) (field : Nat) (nodes : List DefExpr) :
    ∀ (st : InitNormalize) (log : Emitted) (pos : Nat) (st1 : InitNormalize) (log1 : Emitted),
      InitNormalize.skipToField env field st log pos nodes = .ok (st1, log1) →
      pos ≤ field ∧ field < pos + nodes.length ∧
      st1 = { st with mCurrField := some field } ∧
      ImplicitFill (nodes.take (field - pos)) log log1 := by
  induction nodes with
  | nil =>
      intro st log pos st1 log1 h
      unfold InitNormalize.skipToField at h
      cases h
  | cons d rest ih =>
      intro st log pos st1 log1 h
      unfold InitNormalize.skipToField at h
      by_cases hf : field = pos
      · simp only [hf, if_true] at h
        cases h
        subst hf
        refine ⟨Nat.le_refl _, by simp, rfl, ?_⟩
        simpa using implicitFill_nil log
      · simp only [hf, if_false] at h
        cases hstep : InitNormalize.fieldInitFromField env { st with mCurrField := some pos } log d with
        | error f => simp [hstep] at h
        | ok r =>
            obtain ⟨st2, log2⟩ := r
            simp only [hstep] at h
            obtain ⟨h2, hfill1⟩ := fieldInitFromField_spec env _ log d st2 log2 hstep
            subst h2
            obtain ⟨hle, hlt, hst, hfill2⟩ := ih _ log2 (pos + 1) st1 log1 h
            refine ⟨by omega, by simp; omega, hst, ?_⟩
            have htake : field - pos = (field - (pos + 1)) + 1 := by omega
            rw [htake, List.take_succ_cons]
            exact implicitFill_cons d _ log log2 log1 hfill1 hfill2

theorem initSkippedFields_spec (env : Env) (st : InitNormalize) (log : Emitted) (field c : Nat)
    (sa : InitNormalize) (la : Emitted) (hCur : st.mCurrField = some c)
    (h : st.initSkippedFields env log field = .ok (sa, la)) :
    c ≤ field ∧ sa = { st with mCurrField := some field } ∧
    ImplicitFill ((st.type.fields.drop c).take (field - c)) log la := by
  unfold InitNormalize.initSkippedFields at h
  rw [hCur] at h
  by_cases hfc : field = c
  · subst hfc
    simp only [ne_eq, not_true_eq_false, if_false] at h
    cases h
    refine ⟨Nat.le_refl _, ?_, ?_⟩
    · cases st
      simp only at hCur
      subst hCur
      rfl
    · simpa using implicitFill_nil log
  · have hne : (some field ≠ some c) := by simpa using hfc
    rw [if_pos hne] at h
    cases hre : st.isFieldReinitialized field with
    | error f =>
        rw [hre] at h
        cases h
    | ok b =>
        cases b with
        | true =>
            rw [hre] at h
            cases h
        | false =>
            rw [hre] at h
            obtain ⟨hle, _, hst, hfill⟩ := skipToField_spec env field _ st log c sa la h
            exact ⟨hle, hst, hfill⟩

theorem fieldInitFromInitStmt_ok (env : Env) (st : InitNormalize) (log : Emitted) (field c : Nat)
    (stmt : CallExpr) (st1 : InitNormalize) (log1 : Emitted)
    (hCur : st.mCurrField = some c)
    (hOk : st.fieldInitFromInitStmt env log field stmt = .ok (st1, log1)) :
    c ≤ field ∧ field < st.type.fields.length ∧
    st1 = { st with mCurrField := st.type.nextField field } ∧
    ∃ d lhs rhs rest implicit fieldStmts,
      st.type.fields.get? field = some d ∧ stmt.actuals = lhs :: rhs :: rest ∧
      log1.before = log.before ++ implicit ++ fieldStmts ∧
      fieldAssignments implicit
        = (((st.type.fields.drop c).take (field - c)).filter DefExpr.hasTypeOrDefault).map
            (fun d => some d.sym.name) ∧
      InitNormalize.strategyForRhs env { st with mCurrField := some field } d rhs
        = .ok fieldStmts ∧
      EmitsOneFieldSet st d fieldStmts ∧
      log1.removed = log.removed ++ [.callExpr (stmt.withActuals (lhs :: rest))] ∧
      log1.atHead = log.atHead ∧
      log1.diags = log.diags ++
        (((st.type.fields.drop c).take (field - c)).filter
          (fun d => !d.hasTypeOrDefault)).map (fun d => omitFieldMsg d.sym.name) := by
  unfold InitNormalize.fieldInitFromInitStmt at hOk
  cases hskip : st.initSkippedFields env log field with
  | error f => simp [hskip] at hOk
  | ok r =>
      obtain ⟨sa, la⟩ := r
      simp only [hskip] at hOk
      obtain ⟨hle, hsa, implicit, hb, hfa, hh, hr, hd⟩ :=
        initSkippedFields_spec env st log field c sa la hCur hskip
      subst hsa
      split at hOk
      · cases hOk
      · cases hget : st.type.fields.get? field with
        | none =>
            have : InitNormalize.type { st with mCurrField := some field } = st.type := rfl
            simp only [this, hget] at hOk
            cases hOk
        | some d =>
            have : InitNormalize.type { st with mCurrField := some field } = st.type := rfl
            simp only [this, hget] at hOk
            rw [fieldInitFromStmt_eq] at hOk
            have hlt : field < st.type.fields.length := by
              by_contra hge
              rw [List.get?_eq_none.mpr (by omega)] at hget
              cases hget
            cases hacts : stmt.actuals with
            | nil => simp [hacts] at hOk
            | cons lhs tl =>
                cases tl with
                | nil => simp [hacts] at hOk
                | cons rhs rest =>
                    simp only [hacts] at hOk
                    cases hstrat : InitNormalize.strategyForRhs env
                        { st with mCurrField := some field } d rhs with
                    | error f => simp [hstrat] at hOk
                    | ok fieldStmts =>
                        simp only [hstrat] at hOk
                        cases hOk
                        refine ⟨hle, hlt, rfl, d, lhs, rhs, rest, implicit, fieldStmts, rfl, rfl,
                          ?_, hfa, hstrat,
                          (strategyForRhs_emits env _ d rhs fieldStmts hstrat :
                            EmitsOneFieldSet { st with mCurrField := some field } d fieldStmts),
                          ?_, hh, hd⟩
                        · simp [hb]
                        · simp [hr]

/-- C16 as stated fails: in the record `[c, a : int]`, where `c` has neither a type
nor a default, `this.a = 5;` with `mCurrField` at `c` returns with the assignment of
`a` as the only field-assignment emitted: no initialization is emitted for `c`, which
only gets the continuable diagnostic.  And in the record `[b : int, a : int]` the
statement `this.b = a + 1;` emits nothing at all: the run ends in a `USR_FATAL`. -/
theorem explicit_init_skips_field_without_default :
    ((exState (exInit exTypeCA []) (some 0) .cPhase1).fieldInitFromInitStmt (exEnv [])
        Emitted.empty 1 (exAssign "a" (.symExpr (exLit 5)))).map
        (fun r => (r.1.mCurrField, fieldAssignments r.2.before, r.2.diags))
      = .ok (none, [some "a"], [omitFieldMsg "c"]) ∧
    (exState (exInit exTypeBA []) (some 0) .cPhase1).fieldInitFromInitStmt (exEnv [])
        Emitted.empty 0
        (exAssign "b" (.callExpr (.named (.unresolvedSymExpr "+")
          [.symExpr exFieldA.sym, .symExpr (exLit 1)] false)))
      = .error (.usrFatal "'a' used before defined (first used here)") :=
  ⟨rfl, rfl⟩

/-- C16, amended: when `fieldInitFromInitStmt(F, stmt)` returns from a state with
`mCurrField` at position `c`, then `F` is a field at or after `c`; the statements put
in front of `stmt` are the implicit initializations, in declaration order, of the
fields from `c` up to but excluding `F` that have a declared type or a default
expression (a field with neither gets the continuable diagnostic only), followed by
the initialization of `F` from the right-hand side of `stmt`, which ends with the
single field-assignment of `F`; `stmt` is removed; `mCurrField` is the field declared
immediately after `F` (`NULL` when `F` is last); the phase and the rest of the state
are unchanged.  For `this.a = 5;` followed by the completion marker in the record
`[a : int, b = 7]`, this gives the assignment of `a` from `5` and then the assignment
of `b` from its default expression, and the phase ends at Phase2. -/
theorem explicit_init_fills_skipped_fields_first (env : Env) (st : InitNormalize)
    (log : Emitted) (field c : Nat) (stmt : CallExpr) (st1 : InitNormalize) (log1 : Emitted)
    (hCur : st.mCurrField = some c)
    (hOk : st.fieldInitFromInitStmt env log field stmt = .ok (st1, log1)) :
    (c ≤ field ∧ field < st.type.fields.length ∧
      st1 = { st with mCurrField := st.type.nextField field } ∧ st1.mPhase = st.mPhase ∧
      ∃ d lhs rhs rest implicit fieldStmts,
        st.type.fields.get? field = some d ∧ stmt.actuals = lhs :: rhs :: rest ∧
        log1.before = log.before ++ implicit ++ fieldStmts ∧
        fieldAssignments implicit
          = (((st.type.fields.drop c).take (field - c)).filter DefExpr.hasTypeOrDefault).map
              (fun d => some d.sym.name) ∧
        InitNormalize.strategyForRhs env { st with mCurrField := some field } d rhs
          = .ok fieldStmts ∧
        EmitsOneFieldSet st d fieldStmts ∧
        log1.removed = log.removed ++ [.callExpr (stmt.withActuals (lhs :: rest))] ∧
        log1.atHead = log.atHead ∧
        log1.diags = log.diags ++
          (((st.type.fields.drop c).take (field - c)).filter
            (fun d => !d.hasTypeOrDefault)).map (fun d => omitFieldMsg d.sym.name)) ∧
    (((exState (exInit exTypeADefaultB [.callExpr exInitDone]) (some 0) .cPhase1).fieldInitFromInitStmt
        (exEnv []) Emitted.empty 0 (exAssign "a" (.symExpr (exLit 5)))).bind
        (fun r => r.1.completePhase1 (exEnv []) r.2 exInitDone)).map
        (fun r => (r.1.mPhase, r.1.mCurrField, r.2.before, r.2.removed))
      = .ok (.cPhase2, none, exScenario2Emitted,
          [.callExpr (.named (.unresolvedSymExpr "=") [exThisDot "a"] false)]) := by
  obtain ⟨h1, h2, h3, h4⟩ := fieldInitFromInitStmt_ok env st log field c stmt st1 log1 hCur hOk
  exact ⟨⟨h1, h2, h3, by rw [h3], h4⟩, rfl⟩

/-- Witness of C16 (amended): `this.a = 5;` in the record `[c, a : int]` with
`mCurrField` at `c`. -/
theorem explicit_init_fills_skipped_fields_first_witness :
    ∃ st1 log1,
      (exState (exInit exTypeCA []) (some 0) .cPhase1).fieldInitFromInitStmt (exEnv [])
        Emitted.empty 1 (exAssign "a" (.symExpr (exLit 5))) = .ok (st1, log1) ∧
      st1.mCurrField = none ∧ st1.mPhase = .cPhase1 :=
  ⟨_, _, rfl,
    congrArg InitNormalize.mCurrField (explicit_init_fills_skipped_fields_first (exEnv [])
      (exState (exInit exTypeCA []) (some 0) .cPhase1) Emitted.empty 1 0
      (exAssign "a" (.symExpr (exLit 5))) _ _ rfl rfl).1.2.2.1,
    (explicit_init_fills_skipped_fields_first (exEnv [])
      (exState (exInit exTypeCA []) (some 0) .cPhase1) Emitted.empty 1 0
      (exAssign "a" (.symExpr (exLit 5))) _ _ rfl rfl).1.2.2.2.1⟩

theorem fieldUsedBeforeInitialized_callExpr (env : Env) (st : InitNormalize) (c : CallExpr) :
    st.fieldUsedBeforeInitialized env (.callExpr c)
      = InitNormalize.fieldUsedBeforeInitializedCall env st c := rfl

theorem fieldUsedBeforeInitialized_defExpr (env : Env) (st : InitNormalize) (sym : Symbol)
    (t : Option Expr) (e : Expr) :
    st.fieldUsedBeforeInitialized env (.defExpr sym t (some e))
      = st.fieldUsedBeforeInitialized env e := rfl

theorem fieldUsedBeforeInitializedCall_prim (env : Env) (st : InitNormalize) (p : PrimitiveTag)
    (actuals : List Expr) :
    InitNormalize.fieldUsedBeforeInitializedCall env st (.prim p actuals)
      = match env.toLocalFieldCall st.type (.prim p actuals) with
        | some field => !st.isFieldInitialized field
        | none => InitNormalize.fieldUsedBeforeInitializedActuals env st actuals := rfl

theorem fieldUsedBeforeInitializedCall_named (env : Env) (st : InitNormalize)
    (b : Expr) (actuals : List Expr) (sq : Bool) :
    InitNormalize.fieldUsedBeforeInitializedCall env st (.named b actuals sq)
      = if isAssignment (.named b actuals sq) then
          match actuals with
          | [] => false
          | lhs :: rest =>
              let retval : Bool :=
                match lhs with
                | .callExpr lhsCall =>
                    if isFieldAccess lhsCall then lhsCall.square
                    else InitNormalize.fieldUsedBeforeInitialized env st lhs
                | _ => false
              match rest with
              | [] => retval
              | rhs :: _ => retval || InitNormalize.fieldUsedBeforeInitialized env st rhs
        else
          match env.toLocalFieldCall st.type (.named b actuals sq) with
          | some field => !st.isFieldInitialized field
          | none =>
              if InitNormalize.fieldUsedBeforeInitialized env st b then true
              else InitNormalize.fieldUsedBeforeInitializedActuals env st actuals := by
  cases actuals with
  | nil => rfl
  | cons lhs rest => cases rest <;> cases lhs <;> rfl

theorem fieldUsedBeforeInitializedCall_named_not_assignment (env : Env) (st : InitNormalize)
    (b : Expr) (actuals : List Expr) (sq : Bool)
    (h : isAssignment (.named b actuals sq) = false) :
    InitNormalize.fieldUsedBeforeInitializedCall env st (.named b actuals sq)
      = match env.toLocalFieldCall st.type (.named b actuals sq) with
        | some field => !st.isFieldInitialized field
        | none =>
            if st.fieldUsedBeforeInitialized env b then true
            else InitNormalize.fieldUsedBeforeInitializedActuals env st actuals := by
  rw [fieldUsedBeforeInitializedCall_named, h]
  rfl

theorem fieldUsedBeforeInitializedCall_assignment_rhs (env : Env) (st : InitNormalize)
    (b lhs rhs : Expr) (rest : List Expr) (sq : Bool)
    (h : isAssignment (.named b (lhs :: rhs :: rest) sq) = true)
    (hr : st.fieldUsedBeforeInitialized env rhs = true) :
    InitNormalize.fieldUsedBeforeInitializedCall env st (.named b (lhs :: rhs :: rest) sq)
      = true := by
  rw [fieldUsedBeforeInitializedCall_named, h]
  simp only [if_true, hr, Bool.or_true]

theorem fieldUsedBeforeInitializedActuals_cons (env : Env) (st : InitNormalize) (x : Expr)
    (rest : List Expr) :
    InitNormalize.fieldUsedBeforeInitializedActuals env st (x :: rest)
      = if st.fieldUsedBeforeInitialized env x then true
        else InitNormalize.fieldUsedBeforeInitializedActuals env st rest := rfl

theorem fieldUsedBeforeInitializedActuals_of_mem (env : Env) (st : InitNormalize) (e : Expr)
    (he : st.fieldUsedBeforeInitialized env e = true) :
    ∀ actuals : List Expr, e ∈ actuals →
      InitNormalize.fieldUsedBeforeInitializedActuals env st actuals = true := by
  intro actuals
  induction actuals with
  | nil => intro h; cases h
  | cons x rest ih =>
      intro hmem
      rw [fieldUsedBeforeInitializedActuals_cons]
      by_cases hx : st.fieldUsedBeforeInitialized env x = true
      · simp [hx]
      · rcases List.mem_cons.mp hmem with rfl | hr
        · exact absurd he hx
        · simp [hx, ih hr]

theorem isAssignment_prim (p : PrimitiveTag) (actuals : List Expr) :
    isAssignment (.prim p actuals) = false := by
  simp [isAssignment, isSimpleAssignment, isCompoundAssignment, CallExpr.isNamed]

theorem fieldUsedBeforeInitialized_of_flaggedRead (env : Env) (st : InitNormalize) (a : Nat)
    (hA : st.isFieldInitialized a = false) (e : Expr) (h : FlaggedRead env st.type a e) :
    st.fieldUsedBeforeInitialized env e = true := by
  induction h with
  | here call hAsg hLoc =>
      rw [fieldUsedBeforeInitialized_callExpr]
      cases call with
      | prim p actuals =>
          rw [fieldUsedBeforeInitializedCall_prim]
          simp only [hLoc, hA, Bool.not_false]
      | named b actuals sq =>
          rw [fieldUsedBeforeInitializedCall_named_not_assignment env st b actuals sq hAsg]
          simp only [hLoc, hA, Bool.not_false]
  | base b actuals sq hAsg hLoc _ ih =>
      rw [fieldUsedBeforeInitialized_callExpr,
        fieldUsedBeforeInitializedCall_named_not_assignment env st b actuals sq hAsg]
      simp only [hLoc, ih, if_true]
  | actual call e hAsg hLoc hMem _ ih =>
      rw [fieldUsedBeforeInitialized_callExpr]
      have hacts := fieldUsedBeforeInitializedActuals_of_mem env st e ih _ hMem
      cases call with
      | prim p actuals =>
          rw [fieldUsedBeforeInitializedCall_prim]
          simp only [hLoc]
          exact hacts
      | named b actuals sq =>
          rw [fieldUsedBeforeInitializedCall_named_not_assignment env st b actuals sq hAsg]
          simp only [hLoc]
          by_cases hb : st.fieldUsedBeforeInitialized env b = true
          · simp only [hb, if_true]
          · simp only [hb, if_false]
            exact hacts
  | rhs call lhs rhs rest hAsg hActs _ ih =>
      rw [fieldUsedBeforeInitialized_callExpr]
      cases call with
      | prim p actuals => rw [isAssignment_prim] at hAsg; cases hAsg
      | named b actuals sq =>
          simp only [CallExpr.actuals] at hActs
          subst hActs
          exact fieldUsedBeforeInitializedCall_assignment_rhs env st b lhs rhs rest sq hAsg ih
  | init sym t e _ ih =>
      rw [fieldUsedBeforeInitialized_defExpr]
      exact ih

theorem checkAndUpdate_ok_update (env : Env) (st : InitNormalize) (e e1 : Expr)
    (h : st.checkAndUpdate env e = .ok e1) : ∃ e2, st.updateFieldsMember env e = .ok e2 :=
  ⟨e1, (checkAndUpdate_ok env st e e1 h).2⟩

/-- What a successful initialization of a field from `rhs` has rewritten: `rhs`, or
the `init` call built from the arguments of the `new` expression `rhs`. -/
theorem strategyForRhs_ok_update (env : Env) (st : InitNormalize) (field : DefExpr)
    (rhs : Expr) (stmts : List Expr) (h : st.strategyForRhs env field rhs = .ok stmts) :
    (∃ e1, st.updateFieldsMember env rhs = .ok e1) ∨
    (isNewExpr rhs = true ∧ ∃ p base actuals square tail tmp e1,
      rhs = .callExpr (.prim p (.callExpr (.named base actuals square) :: tail)) ∧
      st.updateFieldsMember env (.callExpr (.named (.unresolvedSymExpr "init")
        (.symExpr gMethodToken :: .symExpr tmp :: actuals) square)) = .ok e1) := by
  unfold InitNormalize.strategyForRhs at h
  have hG1 : ∀ stmts, st.genericFieldInitTypeWithInit env field rhs = .ok stmts →
      ∃ e1, st.updateFieldsMember env rhs = .ok e1 := by
    intro stmts h
    unfold InitNormalize.genericFieldInitTypeWithInit at h
    repeat' split at h
    all_goals first
      | cases h
      | (obtain ⟨x, hx, _⟩ := (except_bind_ok _ _ _).mp h
         exact checkAndUpdate_ok_update env st _ _ hx)
  have hG2 : ∀ stmts, st.genericFieldInitTypeInference env field rhs = .ok stmts →
      ∃ e1, st.updateFieldsMember env rhs = .ok e1 := by
    intro stmts h
    unfold InitNormalize.genericFieldInitTypeInference at h
    dsimp only at h
    repeat' split at h
    all_goals first
      | (cases h; done)
      | (obtain ⟨x, hx, _⟩ := (except_bind_ok _ _ _).mp h
         exact checkAndUpdate_ok_update env st _ _ hx)
      | exact ⟨_, rfl⟩
  have hF2 : ∀ stmts, st.fieldInitTypeInference env field rhs = .ok stmts →
      ∃ e1, st.updateFieldsMember env rhs = .ok e1 := by
    intro stmts h
    unfold InitNormalize.fieldInitTypeInference at h
    dsimp only at h
    repeat' split at h
    all_goals first
      | cases h
      | (obtain ⟨x, hx, _⟩ := (except_bind_ok _ _ _).mp h
         exact checkAndUpdate_ok_update env st _ _ hx)
  have hF1 : ∀ stmts, st.fieldInitTypeWithInit env field rhs = .ok stmts →
      (∃ e1, st.updateFieldsMember env rhs = .ok e1) ∨
      (isNewExpr rhs = true ∧ ∃ p base actuals square tail tmp e1,
        rhs = .callExpr (.prim p (.callExpr (.named base actuals square) :: tail)) ∧
        st.updateFieldsMember env (.callExpr (.named (.unresolvedSymExpr "init")
          (.symExpr gMethodToken :: .symExpr tmp :: actuals) square)) = .ok e1) := by
    intro stmts h
    unfold InitNormalize.fieldInitTypeWithInit at h
    dsimp only at h
    repeat' split at h
    all_goals first
      | cases h
      | (obtain ⟨_, _, h2⟩ := (except_bind_ok _ _ _).mp h
         obtain ⟨_, _, h3⟩ := (except_bind_ok _ _ _).mp h2
         obtain ⟨_, _, h4⟩ := (except_bind_ok _ _ _).mp h3
         obtain ⟨x, hx, _⟩ := (except_bind_ok _ _ _).mp h4
         exact Or.inl ⟨x, hx⟩)
      | (obtain ⟨x, hx, _⟩ := (except_bind_ok _ _ _).mp h
         exact Or.inl (checkAndUpdate_ok_update env st _ _ hx))
      | (obtain ⟨x, hx, _⟩ := (except_bind_ok _ _ _).mp h
         exact Or.inr ⟨by assumption, _, _, _, _, _, _, x, rfl, (checkAndUpdate_ok env st _ _ hx).2⟩)
  repeat' split at h
  · exact Or.inl (hG1 _ h)
  · exact Or.inl (hG2 _ h)
  · exact Or.inl (hG2 _ h)
  · exact Or.inl (hG2 _ h)
  · exact hF1 _ h
  · exact Or.inl (hF2 _ h)

theorem strategyForRhs_error_of_read (env : Env) (st : InitNormalize) (field : DefExpr)
    (rhs : Expr) (sym : Symbol) (a : Nat)
    (hLocal : env.toLocalFieldSym st.type sym = some a)
    (hField : a < st.type.fields.length) (hNot : ¬ st.fieldIsBefore a)
    (hRead : ReadInRhs sym rhs) :
    ∃ f, st.strategyForRhs env field rhs = .error f := by
  cases hs : st.strategyForRhs env field rhs with
  | error f => exact ⟨f, rfl⟩
  | ok stmts =>
      exfalso
      rcases strategyForRhs_ok_update env st field rhs stmts hs with ⟨e1, h1⟩ | ⟨hNew, h2⟩
      · obtain ⟨f, hf⟩ :=
          updateFieldsMember_error_of_rewrittenRef env st sym a hLocal hField hNot rhs hRead.1
        rw [hf] at h1
        cases h1
      · obtain ⟨p, base, actuals, square, tail, tmp, e1, hrhs, h1⟩ := h2
        obtain ⟨e, hmem, hre⟩ := hRead.2 hNew p base actuals square tail hrhs
        have href : RewrittenRef sym (.callExpr (.named (.unresolvedSymExpr "init")
            (.symExpr gMethodToken :: .symExpr tmp :: actuals) square)) :=
          RewrittenRef.actual _ e (by simp [isFieldAccess, CallExpr.isNamed])
            (by simp [CallExpr.actuals, hmem]) hre
        obtain ⟨f, hf⟩ :=
          updateFieldsMember_error_of_rewrittenRef env st sym a hLocal hField hNot _ href
        rw [hf] at h1
        cases h1

theorem initSkippedFields_state (env : Env) (st : InitNormalize) (log : Emitted) (field : Nat)
    (sa : InitNormalize) (la : Emitted)
    (h : st.initSkippedFields env log field = .ok (sa, la)) :
    sa = { st with mCurrField := some field } := by
  cases hc : st.mCurrField with
  | some c => exact (initSkippedFields_spec env st log field c sa la hc h).2.1
  | none =>
      exfalso
      unfold InitNormalize.initSkippedFields at h
      rw [hc] at h
      simp only [ne_eq, not_false_eq_true, if_true, reduceCtorEq] at h
      repeat' split at h
      all_goals cases h

theorem not_fieldIsBefore_of_le (st : InitNormalize) (field a : Nat) (h : field ≤ a) :
    ¬ InitNormalize.fieldIsBefore { st with mCurrField := some field } a := by
  simp only [InitNormalize.fieldIsBefore]
  omega

/-- C17 as stated fails: in the record `[b : int, a : int]` with nothing initialized,
`this.b = f(x = a);` reads the later field `a` inside a named actual, and the call
returns with the field-assignment of `b` emitted; and for the explicit access in
`this.b = this.a + 1;` the fatal diagnostic is "Field used before it is initialized",
not "used before defined". -/
theorem named_actual_read_is_not_rejected :
    ((exState (exInit exTypeBA []) (some 0) .cPhase1).fieldInitFromInitStmt (exEnv [])
        Emitted.empty 0 (exAssign "b" exNamedActualOfA)).map
        (fun r => (r.1.mCurrField, fieldAssignments r.2.before))
      = .ok (some 1, [some "b"]) ∧
    Expr.hasBareRef exFieldA.sym exNamedActualOfA = true ∧
    (exEnv []).toLocalFieldSym exTypeBA exFieldA.sym = some 1 ∧
    (exState (exInit exTypeBA []) (some 0) .cPhase1).fieldInitFromInitStmt (exEnv [])
        Emitted.empty 0 (exAssign "b" exThisDotPlusOne)
      = .error (.usrFatal "Field used before it is initialized") :=
  ⟨rfl, by decide, by decide, rfl⟩

/-- C17, amended: let `stmt` be an explicit initialization of the field at position
`F` with right-hand side `rhs`, and let `a` be a field of the type at or after `F`
(so `a` is not yet initialized when the right-hand side is examined).  When `rhs`
holds a bare reference to `a` that is reached through actuals of calls only (not
through a named actual or a base expression), `fieldInitFromInitStmt` ends in a
failure and so emits no field-assignment for `F`.  When `stmt` is an assignment and
`rhs` reads `a` through an explicit access that `toLocalField` resolves, the call ends
in a failure, and once the skipped fields are filled that failure is the fatal
diagnostic "Field used before it is initialized".  For `this.b = a + 1;` in the
record `[b : int, a : int]` the failure is the fatal diagnostic "'a' used before
defined (first used here)". -/
theorem explicit_init_rejects_uninitialized_read (env : Env) (st : InitNormalize)
    (log : Emitted) (F a : Nat) (stmt : CallExpr) (lhs rhs : Expr) (rest : List Expr)
    (hActs : stmt.actuals = lhs :: rhs :: rest)
    (hAfter : F ≤ a) (hField : a < st.type.fields.length) :
    (∀ sym, env.toLocalFieldSym st.type sym = some a → ReadInRhs sym rhs →
      ∃ f, st.fieldInitFromInitStmt env log F stmt = .error f) ∧
    (isAssignment stmt = true → FlaggedRead env st.type a rhs →
      (∃ f, st.fieldInitFromInitStmt env log F stmt = .error f) ∧
      ∀ sa la, st.initSkippedFields env log F = .ok (sa, la) →
        st.fieldInitFromInitStmt env log F stmt
          = .error (.usrFatal "Field used before it is initialized")) ∧
    (exState (exInit exTypeBA []) (some 0) .cPhase1).fieldInitFromInitStmt (exEnv [])
        Emitted.empty 0 (exAssign "b" exBarePlusOne)
      = .error (.usrFatal "'a' used before defined (first used here)") := by
  refine ⟨?_, ?_, rfl⟩
  · intro sym hLocal hRead
    unfold InitNormalize.fieldInitFromInitStmt
    cases hskip : st.initSkippedFields env log F with
    | error f => exact ⟨f, rfl⟩
    | ok r =>
        obtain ⟨sa, la⟩ := r
        have hsa := initSkippedFields_state env st log F sa la hskip
        subst hsa
        simp only
        split
        · exact ⟨_, rfl⟩
        · split
          · exact ⟨_, rfl⟩
          · rename_i d _
            rw [fieldInitFromStmt_eq]
            simp only [hActs]
            obtain ⟨f, hf⟩ := strategyForRhs_error_of_read env
              { st with mCurrField := some F } d rhs sym a hLocal hField
              (not_fieldIsBefore_of_le st F a hAfter) hRead
            rw [hf]
            exact ⟨f, rfl⟩
  · intro hAsg hRead
    have key : ∀ sa la, st.initSkippedFields env log F = .ok (sa, la) →
        st.fieldInitFromInitStmt env log F stmt
          = .error (.usrFatal "Field used before it is initialized") := by
      intro sa la hskip
      have hsa := initSkippedFields_state env st log F sa la hskip
      subst hsa
      have hInit : InitNormalize.isFieldInitialized { st with mCurrField := some F } a
          = false := by
        cases hi : InitNormalize.isFieldInitialized { st with mCurrField := some F } a
        · rfl
        · exact absurd ((isFieldInitialized_iff_before
            { st with mCurrField := some F } a hField).mp hi)
            (not_fieldIsBefore_of_le st F a hAfter)
      have hUsed := fieldUsedBeforeInitialized_of_flaggedRead env
        { st with mCurrField := some F } a hInit (.callExpr stmt)
        (FlaggedRead.rhs stmt lhs rhs rest hAsg hActs hRead)
      rw [fieldUsedBeforeInitialized_callExpr] at hUsed
      unfold InitNormalize.fieldInitFromInitStmt
      rw [hskip]
      simp only [hUsed, if_true]
    refine ⟨?_, key⟩
    cases hskip : st.initSkippedFields env log F with
    | error f =>
        unfold InitNormalize.fieldInitFromInitStmt
        rw [hskip]
        exact ⟨f, rfl⟩
    | ok r => exact ⟨_, key r.1 r.2 hskip⟩

/-- Witness of C17 (amended): `this.b = a + 1;` and `this.b = this.a + 1;` in the
record `[b : int, a : int]` with nothing initialized. -/
theorem explicit_init_rejects_uninitialized_read_witness :
    (∃ f, (exState (exInit exTypeBA []) (some 0) .cPhase1).fieldInitFromInitStmt (exEnv [])
        Emitted.empty 0 (exAssign "b" exBarePlusOne) = .error f) ∧
    (∃ f, (exState (exInit exTypeBA []) (some 0) .cPhase1).fieldInitFromInitStmt (exEnv [])
        Emitted.empty 0 (exAssign "b" exThisDotPlusOne) = .error f) :=
  ⟨(explicit_init_rejects_uninitialized_read (exEnv [])
      (exState (exInit exTypeBA []) (some 0) .cPhase1) Emitted.empty 0 1
      (exAssign "b" exBarePlusOne) (exThisDot "b") exBarePlusOne [] rfl (by decide)
      (by decide)).1 exFieldA.sym (by decide)
      ⟨RewrittenRef.actual _ (.symExpr exFieldA.sym) (by decide) (by simp [CallExpr.actuals])
          RewrittenRef.here,
        fun h => absurd h (by decide)⟩,
   ((explicit_init_rejects_uninitialized_read (exEnv [])
      (exState (exInit exTypeBA []) (some 0) .cPhase1) Emitted.empty 0 1
      (exAssign "b" exThisDotPlusOne) (exThisDot "b") exThisDotPlusOne [] rfl (by decide)
      (by decide)).2.1 (by decide)
      (FlaggedRead.actual _ (exThisDot "a") (by decide) (by decide)
        (by simp [CallExpr.actuals])
        (FlaggedRead.here _ (by decide) (by decide)))).1⟩

/-! ### `merge` -/

/-- C21: `merge(child)` sets `mCurrField` and `mPhase` of the parent to those of the
child and leaves `mFn`, `mBlockType` and `mPrevBlockType` unchanged; so merging a
fork right after it was made gives back the parent, for the conditional, loop and
forall forks and for every block fork that is constructed. -/
theorem merge_frame (st child : InitNormalize) :
    (st.merge child).mCurrField = child.mCurrField ∧
    (st.merge child).mPhase = child.mPhase ∧
    (st.merge child).mFn = st.mFn ∧
    (st.merge child).mBlockType = st.mBlockType ∧
    (st.merge child).mPrevBlockType = st.mPrevBlockType ∧
    st.merge st.forkCond = st ∧ st.merge st.forkLoop = st ∧ st.merge st.forkForall = st ∧
    (∀ block fork, InitNormalize.forkBlock block st = .ok fork → st.merge fork = st) ∧
    (∀ fork, IsFork st fork → st.merge fork = st) := by
  have key : ∀ kind fork, IsForkOfKind st kind fork → st.merge fork = st := by
    intro kind fork h
    obtain ⟨_, hp, hc, _, _⟩ := h
    cases st
    simp only [InitNormalize.merge] at *
    rw [hp, hc]
  have hblock : ∀ block fork, InitNormalize.forkBlock block st = .ok fork →
      st.merge fork = st := by
    intro block fork h
    obtain ⟨hp, hc⟩ : fork.mPhase = st.mPhase ∧ fork.mCurrField = st.mCurrField := by
      cases block with
      | mk info body =>
          unfold InitNormalize.forkBlock at h
          repeat' split at h
          all_goals first
            | (cases h; done)
            | (cases h; exact ⟨rfl, rfl⟩)
    cases st
    simp only [InitNormalize.merge] at *
    rw [hp, hc]
  refine ⟨rfl, rfl, rfl, rfl, rfl, ?_, ?_, ?_, hblock, ?_⟩
  · exact key _ _ (forkWith_isForkOfKind st .cBlockCond)
  · exact key _ _ (forkWith_isForkOfKind st .cBlockLoop)
  · exact key _ _ (forkWith_isForkOfKind st .cBlockForall)
  · intro fork h
    rcases h with h | h | h | ⟨block, h⟩
    · subst h; exact key _ _ (forkWith_isForkOfKind st .cBlockCond)
    · subst h; exact key _ _ (forkWith_isForkOfKind st .cBlockLoop)
    · subst h; exact key _ _ (forkWith_isForkOfKind st .cBlockForall)
    · exact hblock block fork h

/-- Witness of C21: a fork into an on-block of a state at field `b` in Phase1 is
merged back. -/
theorem merge_frame_witness :
    (exState (exInit exTypeAB []) (some 1) .cPhase1).merge
        ((exState (exInit exTypeAB []) (some 1) .cPhase1).forkWith .cBlockOn)
      = exState (exInit exTypeAB []) (some 1) .cPhase1 :=
  (merge_frame (exState (exInit exTypeAB []) (some 1) .cPhase1)
    (exState (exInit exTypeAB []) (some 1) .cPhase1)).2.2.2.2.2.2.2.2.1 exOnBlock _ rfl

/-! ### The constructor from a method -/

theorem firstField_ok (env : Env) (fn fn1 : FnSymbol) (cur : Option Nat)
    (h : firstField env fn = .ok (fn1, cur)) :
    cur = fn.thisType.firstRealField ∧ fn1.body = fn.body ∧ fn1._this = fn._this ∧
    fn1.thisType.fields.length = fn.thisType.fields.length ∧
    fn1.thisType.isClass = fn.thisType.isClass ∧
    fn1.thisType.fields.drop 1 = fn.thisType.fields.drop 1 := by
  unfold firstField at h
  unfold AggregateType.firstRealField
  by_cases hC : fn.thisType.isClass = true
  · simp only [hC, if_true] at h ⊢
    cases hf : fn.thisType.fields with
    | nil => simp [hf] at h
    | cons d rest =>
        simp only [hf] at h
        repeat' split at h
        all_goals first
          | (cases h; done)
          | (cases h
             simp [AggregateType.nextField, hf, delayGenericExpansion, hC])
  · have hC : fn.thisType.isClass = false := by simpa using hC
    simp only [hC, Bool.false_eq_true, if_false] at h ⊢
    cases hf : fn.thisType.fields with
    | nil =>
        simp only [hf] at h
        cases h
        simp [hf, hC]
    | cons d rest =>
        simp only [hf] at h
        cases h
        simp [hf, hC]

theorem firstField_total (env : Env) (fn : FnSymbol) (hWf : fn.classHasSuperField env) :
    ∃ fn1 cur, firstField env fn = .ok (fn1, cur) := by
  unfold firstField
  by_cases hC : fn.thisType.isClass = true
  · obtain ⟨hne, hgen⟩ := hWf hC
    simp only [hC, if_true]
    cases hf : fn.thisType.fields with
    | nil => exact absurd hf hne
    | cons d rest =>
        simp only
        by_cases hG : fn.thisType.isGeneric = true
        · simp only [hG, if_true]
          have hs := hgen hG d (by simp [hf])
          cases hsg : env.superIsGeneric d.sym.type with
          | none => exact absurd hsg hs
          | some b => cases b <;> exact ⟨_, _, rfl⟩
        · simp only [hG, if_false]
          exact ⟨_, _, rfl⟩
  · have hC : fn.thisType.isClass = false := by simpa using hC
    simp only [hC, Bool.false_eq_true, if_false]
    cases fn.thisType.fields with
    | nil => exact ⟨_, _, rfl⟩
    | cons d rest => exact ⟨_, _, rfl⟩

/-- C22: the constructor from a method, for a type whose field list is as the
compiler builds it (a class has the `super` pseudo-field at the head of its field
list, of an aggregate type when the class is generic), yields a state whose phase is
`startPhase` of the method body, whose `mBlockType` and `mPrevBlockType` are
`cBlockNormal`, and whose `mCurrField` is the first real field of the type: the first
declared field, for a class the field after the `super` pseudo-field, and `NULL` when
there is none.  Whenever the constructor returns, the state is this one. -/
theorem begin_state (env : Env) (fn : FnSymbol) :
    (fn.classHasSuperField env → ∃ st0, InitNormalize.begin env fn = .ok st0) ∧
    (∀ st0, InitNormalize.begin env fn = .ok st0 →
      st0.mPhase = startPhase env fn.body ∧ st0.mFn.body = fn.body ∧
      st0.mBlockType = .cBlockNormal ∧ st0.mPrevBlockType = .cBlockNormal ∧
      st0.mCurrField = fn.thisType.firstRealField ∧
      (fn.thisType.isClass = false →
        st0.mCurrField = if 0 < fn.thisType.fields.length then some 0 else none) ∧
      (fn.thisType.isClass = true →
        st0.mCurrField = if 1 < fn.thisType.fields.length then some 1 else none)) := by
  constructor
  · intro hWf
    obtain ⟨fn1, cur, h⟩ := firstField_total env fn hWf
    unfold InitNormalize.begin
    rw [h]
    exact ⟨_, rfl⟩
  · intro st0 h
    unfold InitNormalize.begin at h
    cases hf : firstField env fn with
    | error f => simp [hf] at h
    | ok r =>
        obtain ⟨fn1, cur⟩ := r
        simp only [hf] at h
        cases h
        obtain ⟨hcur, hbody, _⟩ := firstField_ok env fn fn1 cur hf
        refine ⟨by simp [startPhaseFn, hbody], hbody, rfl, rfl, hcur, ?_, ?_⟩
        · intro hC
          simp only [hcur, AggregateType.firstRealField, hC, Bool.false_eq_true, if_false]
        · intro hC
          simp only [hcur, AggregateType.firstRealField, hC, if_true]

/-- Witness of C22: in the class `[super, a, b]`, whose initializer starts with
`super.init()`, the state starts in Phase1 at the field `a`; in the class `[super]` it
starts at `NULL`. -/
theorem begin_state_witness :
    (∃ st0, InitNormalize.begin (exEnv [])
        (exInit (exClass [exFieldSuper, exFieldA, exFieldB]) [.callExpr exSuperInit]) = .ok st0 ∧
      st0.mPhase = .cPhase1 ∧ st0.mCurrField = some 1) ∧
    (∃ st0, InitNormalize.begin (exEnv []) (exInit (exClass [exFieldSuper]) []) = .ok st0 ∧
      st0.mCurrField = none) :=
  ⟨⟨_, rfl,
      ((begin_state (exEnv [])
        (exInit (exClass [exFieldSuper, exFieldA, exFieldB]) [.callExpr exSuperInit])).2
        _ rfl).1.trans rfl,
      ((begin_state (exEnv [])
        (exInit (exClass [exFieldSuper, exFieldA, exFieldB]) [.callExpr exSuperInit])).2
        _ rfl).2.2.2.2.1.trans rfl⟩,
   ⟨_, rfl, rfl⟩⟩

/-! ### The frame of `completePhase1` -/

theorem extendedTo_refl (log : Emitted) : log.ExtendedTo log :=
  ⟨[], [], [], by simp, by simp, by simp, rfl⟩

theorem extendedTo_trans (a b c : Emitted) (h1 : a.ExtendedTo b) (h2 : b.ExtendedTo c) :
    a.ExtendedTo c := by
  obtain ⟨h1h, h1b, h1d, e1, e2, e3, e4⟩ := h1
  obtain ⟨h2h, h2b, h2d, f1, f2, f3, f4⟩ := h2
  exact ⟨h2h ++ h1h, h1b ++ h2b, h1d ++ h2d, by rw [f1, e1, List.append_assoc],
    by rw [f2, e2, List.append_assoc], by rw [f3, e3, List.append_assoc], by rw [f4, e4]⟩

theorem initializeFieldStep_extends (env : Env) (st : InitNormalize) (log : Emitted)
    (field : DefExpr) (st1 : InitNormalize) (log1 : Emitted)
    (h : st.initializeFieldStep env log field = .ok (st1, log1)) : log.ExtendedTo log1 := by
  unfold InitNormalize.initializeFieldStep at h
  by_cases hOuter : st.isOuterField field = true
  · simp only [hOuter, if_true] at h
    unfold InitNormalize.makeOuterArg at h
    split at h
    · cases h
    · cases h
      exact ⟨[_], [], [], rfl, by simp, by simp, rfl⟩
  · have hO : st.isOuterField field = false := by simpa using hOuter
    simp only [hO, Bool.false_eq_true, if_false] at h
    repeat' split at h
    all_goals first
      | (cases h; done)
      | (cases h
         exact ⟨[], [], [_], by simp, by simp, rfl, rfl⟩)
      | (obtain ⟨stmts, _, _, h2⟩ := emitBefore_ok _ _ _ _ _ h
         subst h2
         exact ⟨[], stmts, [], by simp, rfl, by simp, rfl⟩)

theorem initializeFieldsFrom_extends (env : Env) (nodes : List DefExpr) :
    ∀ (st : InitNormalize) (log : Emitted) (pos : Nat) (st1 : InitNormalize) (log1 : Emitted),
      InitNormalize.initializeFieldsFrom env st log pos nodes = .ok (st1, log1) →
      log.ExtendedTo log1 := by
  induction nodes with
  | nil =>
      intro st log pos st1 log1 h
      unfold InitNormalize.initializeFieldsFrom at h
      cases h
      exact extendedTo_refl log
  | cons d rest ih =>
      intro st log pos st1 log1 h
      unfold InitNormalize.initializeFieldsFrom at h
      split at h
      · cases h
      · rename_i st2 log2 hstep
        exact extendedTo_trans _ _ _ (initializeFieldStep_extends env _ log d st2 log2 hstep)
          (ih st2 log2 (pos + 1) st1 log1 h)

theorem initializeFieldsBefore_extends (env : Env) (st : InitNormalize) (log : Emitted)
    (st1 : InitNormalize) (log1 : Emitted)
    (h : st.initializeFieldsBefore env log = .ok (st1, log1)) : log.ExtendedTo log1 := by
  unfold InitNormalize.initializeFieldsBefore at h
  split at h
  · cases h
    exact extendedTo_refl log
  · exact initializeFieldsFrom_extends env _ st log _ st1 log1 h

/-- C23: on a this-init marker `completePhase1` returns with the log as it was (no
statement inserted, none removed, no diagnostic) and with the method as it was,
whatever fields remain; on a super-init or completion marker that is not a this-init
marker it is `initializeFieldsBefore` with the marker as insertion point followed by
the move to Phase2, so when it returns every remaining field has been flushed, and
what is added to the tree is in front of the marker (at the head of the method body
for the `outer` pseudo-field, in front of the insertion point for the others), with
nothing removed. -/
theorem completePhase1_frame (env : Env) (st : InitNormalize) (log : Emitted)
    (stmt : CallExpr) :
    (env.isThisInit stmt = true →
      ∃ st1, st.completePhase1 env log stmt = .ok (st1, log) ∧ st1.mFn = st.mFn ∧
        st1.mCurrField = none ∧ st1.mPhase = .cPhase2) ∧
    (env.isThisInit stmt = false → (env.isSuperInit stmt = true ∨ env.isInitDone stmt = true) →
      (st.completePhase1 env log stmt =
        match st.initializeFieldsBefore env log with
        | .error f => .error f
        | .ok (st1, log1) => .ok ({ st1 with mPhase := .cPhase2 }, log1)) ∧
      ∀ st1 log1, st.completePhase1 env log stmt = .ok (st1, log1) →
        st.fillResult st.remainingFields log log1 ∧ log.ExtendedTo log1 ∧
        st1.mCurrField = none ∧ st1.mPhase = .cPhase2) := by
  constructor
  · intro hT
    refine ⟨{ st with mCurrField := none, mPhase := .cPhase2 }, ?_, rfl, rfl, rfl⟩
    unfold InitNormalize.completePhase1
    simp only [hT, if_true]
  · intro hT hM
    have hflush := completePhase1_flush env st log stmt hT hM
    refine ⟨hflush, ?_⟩
    intro st1 log1 h
    obtain ⟨hp, hc, _, _, hfill⟩ := completePhase1_ok env st log stmt st1 log1 h
    refine ⟨hfill hT, ?_, hc, hp⟩
    rw [hflush] at h
    cases hb : st.initializeFieldsBefore env log with
    | error f => simp [hb] at h
    | ok r =>
        obtain ⟨s2, l2⟩ := r
        simp only [hb] at h
        have hext := initializeFieldsBefore_extends env st log s2 l2 hb
        cases h
        exact hext

/-- Witness of C23: in the record `[a : int, b : int]` with both fields remaining,
`this.init()` leaves the log empty, and `this.initDone()` puts the assignments of `a`
and `b` in front of the marker. -/
theorem completePhase1_frame_witness :
    (∃ st1, (exState (exInit exTypeAB []) (some 0) .cPhase0).completePhase1 (exEnv [])
        Emitted.empty exThisInit = .ok (st1, Emitted.empty)) ∧
    (∀ st1 log1, (exState (exInit exTypeAB []) (some 0) .cPhase1).completePhase1 (exEnv [])
        Emitted.empty exInitDone = .ok (st1, log1) →
      fieldAssignments log1.before = [some "a", some "b"]) :=
  ⟨((completePhase1_frame (exEnv []) (exState (exInit exTypeAB []) (some 0) .cPhase0)
      Emitted.empty exThisInit).1 rfl).imp (fun _ h => h.1),
   fun st1 log1 h =>
    (((completePhase1_frame (exEnv []) (exState (exInit exTypeAB []) (some 0) .cPhase1)
      Emitted.empty exInitDone).2 rfl (Or.inr rfl)).2 st1 log1 h).1.1.trans rfl⟩

/-! ### `handleInsertedMethodCall` -/

theorem any_beq_iff_mem (us : String) (methods : List String) :
    methods.any (fun fnName => us == fnName) = true ↔ us ∈ methods := by
  simp [List.any_eq_true]

theorem handleInsertedMethodCall_eq (st : InitNormalize) (call : CallExpr) :
    (∀ us, st.isInsertedMethodCall call us →
      st.handleInsertedMethodCall call = .named (st.dotMethod us) call.actuals call.square) ∧
    ((¬ ∃ us, st.isInsertedMethodCall call us) → st.handleInsertedMethodCall call = call) := by
  constructor
  · intro us h
    obtain ⟨⟨actuals, sq, hcall⟩, hfirst, hmem⟩ := h
    subst hcall
    rw [handleInsertedMethodCall_unresolved]
    simp only [CallExpr.actuals] at hfirst
    rw [if_pos ⟨hfirst, (any_beq_iff_mem us _).mpr hmem⟩]
    rfl
  · intro hno
    by_cases hshape : ∃ us actuals sq, call = .named (.unresolvedSymExpr us) actuals sq
    · obtain ⟨us, actuals, sq, hcall⟩ := hshape
      subst hcall
      rw [handleInsertedMethodCall_unresolved]
      rw [if_neg]
      rintro ⟨h1, h2⟩
      exact hno ⟨us, ⟨actuals, sq, rfl⟩, h1, (any_beq_iff_mem us _).mp h2⟩
    · exact handleInsertedMethodCall_other st call
        (fun us actuals sq h => hshape ⟨us, actuals, sq, h⟩)

/-- C28: `handleInsertedMethodCall` replaces the base expression of a call by
`this.name` if and only if the base expression is the unresolved name `name`, the
first actual of the call is not `gMethodToken`, and `name` is the name of a method in
the method list of the type itself; the method lists of other types are not looked
at, so a name that is not in the list of the type never matches; the actuals (and
the `square` flag) of the call are never changed; every other call is returned as it
is. -/
theorem handleInsertedMethodCall_iff (st : InitNormalize) (call : CallExpr) :
    (∀ us, st.isInsertedMethodCall call us →
      st.handleInsertedMethodCall call = .named (st.dotMethod us) call.actuals call.square) ∧
    ((∃ us, st.isInsertedMethodCall call us) ↔ st.handleInsertedMethodCall call ≠ call) ∧
    ((∃ us, st.isInsertedMethodCall call us) ↔
      ∃ us, call.baseExpr = some (.unresolvedSymExpr us) ∧
        (st.handleInsertedMethodCall call).baseExpr = some (st.dotMethod us)) ∧
    (∀ us actuals square, call = .named (.unresolvedSymExpr us) actuals square →
      us ∉ st.type.methods → st.handleInsertedMethodCall call = call) ∧
    (st.handleInsertedMethodCall call).actuals = call.actuals ∧
    (st.handleInsertedMethodCall call).square = call.square := by
  obtain ⟨hyes, hno⟩ := handleInsertedMethodCall_eq st call
  have hne : (∃ us, st.isInsertedMethodCall call us) → st.handleInsertedMethodCall call ≠ call := by
    rintro ⟨us, h⟩
    rw [hyes us h]
    obtain ⟨⟨actuals, sq, hcall⟩, _, _⟩ := h
    subst hcall
    simp [InitNormalize.dotMethod, CallExpr.actuals, CallExpr.square]
  refine ⟨hyes, ⟨hne, ?_⟩, ⟨?_, ?_⟩, ?_, ?_, ?_⟩
  · intro h
    by_contra hnot
    exact h (hno hnot)
  · rintro ⟨us, h⟩
    refine ⟨us, ?_, ?_⟩
    · obtain ⟨⟨actuals, sq, hcall⟩, _, _⟩ := h
      subst hcall
      rfl
    · rw [hyes us h]
      rfl
  · rintro ⟨us, hb, hr⟩
    by_contra hnot
    rw [hno hnot, hb] at hr
    simp [InitNormalize.dotMethod] at hr
  · intro us actuals square hcall hnotin
    apply hno
    rintro ⟨us1, ⟨a1, s1, hc1⟩, _, hmem⟩
    rw [hcall] at hc1
    cases hc1
    exact hnotin hmem
  · by_cases h : ∃ us, st.isInsertedMethodCall call us
    · obtain ⟨us, h⟩ := h
      rw [hyes us h]
      rfl
    · rw [hno h]
  · by_cases h : ∃ us, st.isInsertedMethodCall call us
    · obtain ⟨us, h⟩ := h
      rw [hyes us h]
      rfl
    · rw [hno h]

/-- Witness of C28: in the record with the method `foo`, the call `foo(a)` becomes
`this.foo(a)`, and the call `bar(a)` of a function that is not a method of the type is
left as it is. -/
theorem handleInsertedMethodCall_iff_witness :
    exStateFoo.handleInsertedMethodCall
        (.named (.unresolvedSymExpr "foo") [.symExpr exFieldA.sym] false)
      = .named (exStateFoo.dotMethod "foo") [.symExpr exFieldA.sym] false ∧
    exStateFoo.handleInsertedMethodCall
        (.named (.unresolvedSymExpr "bar") [.symExpr exFieldA.sym] false)
      = .named (.unresolvedSymExpr "bar") [.symExpr exFieldA.sym] false :=
  ⟨(handleInsertedMethodCall_iff exStateFoo
      (.named (.unresolvedSymExpr "foo") [.symExpr exFieldA.sym] false)).1 "foo"
      ⟨⟨_, _, rfl⟩, by decide, by decide⟩,
   (handleInsertedMethodCall_iff exStateFoo
      (.named (.unresolvedSymExpr "bar") [.symExpr exFieldA.sym] false)).2.2.2.1
      "bar" _ _ rfl (by decide)⟩

/-! ### The statements of the emission strategies -/

theorem fieldInitTypeWoutInit_triple (env : Env) (st : InitNormalize) (field : DefExpr)
    (stmts : List Expr) (h : st.fieldInitTypeWoutInit env field = .ok stmts) :
    st.IsTempTriple env field stmts := by
  unfold InitNormalize.fieldInitTypeWoutInit at h
  dsimp only at h
  repeat' split at h
  all_goals first
    | (cases h; done)
    | (cases h
       exact ⟨_, _, _, rfl, Or.inl ⟨_, rfl⟩, Or.inl rfl⟩)
    | (cases h
       exact ⟨_, _, _, rfl, Or.inr (Or.inr (Or.inr (Or.inl ⟨[], rfl⟩))), Or.inl rfl⟩)
    | (obtain ⟨x, _, h2⟩ := (except_bind_ok _ _ _).mp h
       cases h2
       exact ⟨_, _, _, rfl, Or.inl ⟨_, rfl⟩, Or.inl rfl⟩)

theorem genericFieldInitTypeWoutInit_triple (env : Env) (st : InitNormalize) (field : DefExpr)
    (stmts : List Expr) (h : st.genericFieldInitTypeWoutInit env field = .ok stmts) :
    st.IsTempTriple env field stmts := by
  unfold InitNormalize.genericFieldInitTypeWoutInit at h
  dsimp only at h
  repeat' split at h
  all_goals first
    | (cases h; done)
    | (cases h
       exact ⟨_, _, _, rfl, Or.inl ⟨_, rfl⟩, Or.inr rfl⟩)
    | (cases h
       exact ⟨_, _, _, rfl, Or.inr (Or.inr (Or.inr (Or.inl ⟨[], rfl⟩))), Or.inr rfl⟩)
    | (obtain ⟨x, _, h2⟩ := (except_bind_ok _ _ _).mp h
       cases h2
       exact ⟨_, _, _, rfl, Or.inl ⟨_, rfl⟩, Or.inr rfl⟩)

theorem fieldInitTypeInference_triple (env : Env) (st : InitNormalize) (field : DefExpr)
    (initExpr : Expr) (stmts : List Expr)
    (h : st.fieldInitTypeInference env field initExpr = .ok stmts) :
    st.IsTempTriple env field stmts := by
  unfold InitNormalize.fieldInitTypeInference at h
  dsimp only at h
  repeat' split at h
  all_goals first
    | cases h
    | (obtain ⟨x, _, h2⟩ := (except_bind_ok _ _ _).mp h
       cases h2
       first
         | exact ⟨_, _, _, rfl, Or.inl ⟨_, rfl⟩, Or.inl rfl⟩
         | exact ⟨_, _, _, rfl, Or.inr (Or.inl ⟨_, rfl⟩), Or.inl rfl⟩)

theorem genericFieldInitTypeWithInit_single (env : Env) (st : InitNormalize) (field : DefExpr)
    (initExpr : Expr) (stmts : List Expr)
    (h : st.genericFieldInitTypeWithInit env field initExpr = .ok stmts) :
    ∃ e1 exprType, field.exprType = some exprType ∧ st.checkAndUpdate env initExpr = .ok e1 ∧
      stmts = [st.fieldSet .PRIM_INIT_FIELD field (.callExpr (createCast e1 exprType))] := by
  unfold InitNormalize.genericFieldInitTypeWithInit at h
  repeat' split at h
  all_goals first
    | cases h
    | (obtain ⟨x, hx, h2⟩ := (except_bind_ok _ _ _).mp h
       cases h2
       exact ⟨x, _, by assumption, hx, rfl⟩)

theorem genericFieldInitTypeInference_shape (env : Env) (st : InitNormalize) (field : DefExpr)
    (initExpr : Expr) (stmts : List Expr)
    (h : st.genericFieldInitTypeInference env field initExpr = .ok stmts) :
    st.IsTempTriple env field stmts ∨
    (∃ u, initExpr = .unresolvedSymExpr u ∧
      stmts = [st.fieldSet .PRIM_INIT_FIELD field (.unresolvedSymExpr u)]) := by
  unfold InitNormalize.genericFieldInitTypeInference at h
  dsimp only at h
  repeat' split at h
  all_goals first
    | (cases h; done)
    | (cases h
       exact Or.inr ⟨_, rfl, rfl⟩)
    | (obtain ⟨x, _, h2⟩ := (except_bind_ok _ _ _).mp h
       cases h2
       first
         | exact Or.inl ⟨_, _, _, rfl, Or.inl ⟨_, rfl⟩, Or.inr rfl⟩
         | exact Or.inl ⟨_, _, _, rfl, Or.inr (Or.inl ⟨_, rfl⟩), Or.inr rfl⟩)

theorem fieldInitTypeWithInit_shape (env : Env) (st : InitNormalize) (field : DefExpr)
    (initExpr : Expr) (stmts : List Expr)
    (h : st.fieldInitTypeWithInit env field initExpr = .ok stmts) :
    st.IsTempTriple env field stmts ∨
    (∃ e1, stmts = [st.fieldSet .PRIM_INIT_MAYBE_SYNC_SINGLE_FIELD field e1]) ∨
    st.IsTempQuad field stmts := by
  unfold InitNormalize.fieldInitTypeWithInit at h
  dsimp only at h
  repeat' split at h
  all_goals first
    | cases h
    | (obtain ⟨_, _, h2⟩ := (except_bind_ok _ _ _).mp h
       obtain ⟨_, _, h3⟩ := (except_bind_ok _ _ _).mp h2
       obtain ⟨_, _, h4⟩ := (except_bind_ok _ _ _).mp h3
       obtain ⟨_, _, h5⟩ := (except_bind_ok _ _ _).mp h4
       cases h5
       exact Or.inr (Or.inr ⟨_, _, _, rfl⟩))
    | (obtain ⟨x, hx, h2⟩ := (except_bind_ok _ _ _).mp h
       cases h2
       first
         | exact Or.inl ⟨_, _, _, rfl, Or.inr (Or.inr (Or.inl ⟨_, rfl⟩)), Or.inl rfl⟩
         | exact Or.inl ⟨_, _, _, rfl, Or.inr (Or.inr (Or.inr (Or.inl ⟨[_], rfl⟩))), Or.inl rfl⟩
         | exact Or.inl ⟨_, _, _, rfl, Or.inr (Or.inr (Or.inr (Or.inr ⟨_, _, hx⟩))), Or.inl rfl⟩
         | exact Or.inr (Or.inl ⟨_, rfl⟩))

/-- C24 as stated fails: for the param field `p : int = 5`,
`genericFieldInitTypeWithInit` inserts one statement, the `PRIM_INIT_FIELD` whose value
is the cast of `5` to `int`, with no temporary; and for the field `t : T = 5` of a
type that is not a primitive scalar, `fieldInitTypeWithInit` inserts four statements. -/
theorem generic_with_init_emits_one_statement :
    (exState (exInit exTypePT []) (some 0) .cPhase1).genericFieldInitTypeWithInit (exEnv [])
        exParamP (.symExpr (exLit 5))
      = .ok [.callExpr (.prim .PRIM_INIT_FIELD
          [.symExpr exThis, .symExpr (new_CStringSymbol "p"),
           .callExpr (createCast (.symExpr (exLit 5)) exIntExpr)])] ∧
    (exState (exInit exTypePT []) (some 1) .cPhase1).fieldInitTypeWithInit (exEnv [])
        exFieldTyped (.symExpr (exLit 5))
      = .ok [tmpDefn (newTemp "tmp" exTypeT),
          .callExpr (.prim .PRIM_MOVE [.symExpr (newTemp "tmp" exTypeT),
            .callExpr (.prim .PRIM_INIT [.symExpr exTypeT.symbol])]),
          .callExpr (.named (.unresolvedSymExpr "=")
            [.symExpr (newTemp "tmp" exTypeT), .symExpr (exLit 5)] false),
          .callExpr (.prim .PRIM_SET_MEMBER
            [.symExpr exThis, .symExpr (new_CStringSymbol "t"),
             .symExpr (newTemp "tmp" exTypeT)])] :=
  ⟨rfl, rfl⟩

/-- C24, amended: whenever a strategy returns, what it has inserted before the
insertion point is, in this order, a temporary binding, an initialization of that
temporary and one field-assignment that stores the temporary, in every branch of
`genericFieldInitTypeWoutInit`, `fieldInitTypeWoutInit` and `fieldInitTypeInference`
and in the other strategies except: `genericFieldInitTypeWithInit` inserts only the
`PRIM_INIT_FIELD` whose value is the cast of the rewritten initializer to the declared
type; `genericFieldInitTypeInference` on an unresolved name inserts only the
`PRIM_INIT_FIELD` that carries the name; `fieldInitTypeWithInit` inserts only the
maybe-sync-single operation in its deferred branch, and in its last branch four
statements: the binding, the move of the default of the declared type, the assignment
of the initializer, and the `PRIM_SET_MEMBER` that stores the temporary. -/
theorem strategies_emit_shapes (env : Env) (st : InitNormalize) (field : DefExpr)
    (initExpr : Expr) (stmts : List Expr) :
    (st.genericFieldInitTypeWoutInit env field = .ok stmts → st.IsTempTriple env field stmts) ∧
    (st.fieldInitTypeWoutInit env field = .ok stmts → st.IsTempTriple env field stmts) ∧
    (st.fieldInitTypeInference env field initExpr = .ok stmts →
      st.IsTempTriple env field stmts) ∧
    (st.genericFieldInitTypeWithInit env field initExpr = .ok stmts →
      ∃ e1 exprType, field.exprType = some exprType ∧
        st.checkAndUpdate env initExpr = .ok e1 ∧
        stmts = [st.fieldSet .PRIM_INIT_FIELD field (.callExpr (createCast e1 exprType))]) ∧
    (st.genericFieldInitTypeInference env field initExpr = .ok stmts →
      st.IsTempTriple env field stmts ∨
      (∃ u, initExpr = .unresolvedSymExpr u ∧
        stmts = [st.fieldSet .PRIM_INIT_FIELD field (.unresolvedSymExpr u)])) ∧
    (st.fieldInitTypeWithInit env field initExpr = .ok stmts →
      st.IsTempTriple env field stmts ∨
      (∃ e1, stmts = [st.fieldSet .PRIM_INIT_MAYBE_SYNC_SINGLE_FIELD field e1]) ∨
      st.IsTempQuad field stmts) :=
  ⟨genericFieldInitTypeWoutInit_triple env st field stmts,
   fieldInitTypeWoutInit_triple env st field stmts,
   fieldInitTypeInference_triple env st field initExpr stmts,
   genericFieldInitTypeWithInit_single env st field initExpr stmts,
   genericFieldInitTypeInference_shape env st field initExpr stmts,
   fieldInitTypeWithInit_shape env st field initExpr stmts⟩

/-- Witness of C24 (amended): the three statements of `fieldInitTypeWoutInit` for the
field `a : int`. -/
theorem strategies_emit_shapes_witness :
    (exState (exInit exTypeAB []) (some 0) .cPhase1).IsTempTriple (exEnv []) exFieldA
      [tmpDefn (newTemp "tmp" exInt),
       .callExpr (.prim .PRIM_MOVE [.symExpr (newTemp "tmp" exInt),
         .callExpr (.named (.unresolvedSymExpr "_defaultOf") [.symExpr exInt.symbol] false)]),
       .callExpr (.prim .PRIM_SET_MEMBER
         [.symExpr exThis, .symExpr (new_CStringSymbol "a"), .symExpr (newTemp "tmp" exInt)])] :=
  (strategies_emit_shapes (exEnv []) (exState (exInit exTypeAB []) (some 0) .cPhase1) exFieldA
    (.symExpr (exLit 5)) _).2.1 rfl

/-! ### Generic fields with a declared type -/

theorem except_bind_eq_map {α β : Type} (x : Except Failure α) (f : α → β) :
    (x >>= fun a => Except.ok (f a)) = x.map f := by
  cases x <;> rfl

theorem generic_typed_dispatch (env : Env) (st : InitNormalize) (log : Emitted)
    (field : DefExpr) (T : Expr) (hT : field.exprType = some T)
    (hGen : field.sym.hasFlag .FLAG_PARAM = true ∨ field.sym.hasFlag .FLAG_TYPE_VARIABLE = true)
    (hOuter : st.isOuterField field = false) :
    st.initializeFieldStep env log field = st.fieldInitFromField env log field ∧
    (field.init = none → st.fieldInitFromField env log field
      = emitBefore st log (st.genericFieldInitTypeWoutInit env field)) ∧
    (∀ d, field.init = some d → st.fieldInitFromField env log field
      = emitBefore st log (st.genericFieldInitTypeWithInit env field d)) := by
  have hg : (field.sym.hasFlag .FLAG_PARAM || field.sym.hasFlag .FLAG_TYPE_VARIABLE) = true := by
    rcases hGen with h | h <;> simp [h]
  refine ⟨?_, ?_, ?_⟩
  · unfold InitNormalize.initializeFieldStep InitNormalize.fieldInitFromField
    simp only [hOuter, Bool.false_eq_true, if_false, hT, hg, if_true]
  · intro hI
    unfold InitNormalize.fieldInitFromField
    simp only [hT, hg, if_true, hI]
  · intro d hI
    unfold InitNormalize.fieldInitFromField
    simp only [hT, hg, if_true, hI]

/-- For a generic field with a declared type `T` that is not the `outer`
pseudo-field, both paths of implicit fill run the same strategy.  When the field is a
param, a field without default gets the binding of a param temporary, the
initialization of the temporary with a default value of the type (`_defaultOf` of the
type for a primitive scalar or a non-generic class, the call `init(_mt, tmp)` for a
non-generic record with initializers, otherwise `PRIM_INIT` of the rewritten declared
type), and the `PRIM_INIT_FIELD` that stores it; a field with the default `d` gets the
single `PRIM_INIT_FIELD` whose value is the cast of the rewritten `d` to `T`.  When
the field is not a param, the `INT_ASSERT` at the head of the strategy fails. -/
theorem generic_typed_field_fill (env : Env) (st : InitNormalize) (log : Emitted)
    (field : DefExpr) (T : Expr) (hT : field.exprType = some T)
    (hGen : field.sym.hasFlag .FLAG_PARAM = true ∨ field.sym.hasFlag .FLAG_TYPE_VARIABLE = true)
    (hOuter : st.isOuterField field = false) :
    st.initializeFieldStep env log field = st.fieldInitFromField env log field ∧
    (field.sym.hasFlag .FLAG_PARAM = false →
      st.fieldInitFromField env log field = .error .intAssert) ∧
    (field.sym.hasFlag .FLAG_PARAM = true → field.init = none →
      st.fieldInitFromField env log field
        = emitBefore st log (st.genericFieldInitTypeWoutInit env field) ∧
      ((env.isPrimitiveScalar field.sym.type || env.isNonGenericClass field.sym.type) = true →
        st.genericFieldInitTypeWoutInit env field
          = .ok [tmpDefn (paramTemp field),
              .callExpr (.prim .PRIM_MOVE [.symExpr (paramTemp field),
                .callExpr (.named (.unresolvedSymExpr "_defaultOf")
                  [.symExpr field.sym.type.symbol] false)]),
              st.fieldSet .PRIM_INIT_FIELD field (.symExpr (paramTemp field))]) ∧
      ((env.isPrimitiveScalar field.sym.type || env.isNonGenericClass field.sym.type) = false →
        env.isNonGenericRecordWithInitializers field.sym.type = true →
        st.genericFieldInitTypeWoutInit env field
          = .ok [tmpDefn (paramTemp field),
              .callExpr (.named (.unresolvedSymExpr "init")
                [.symExpr gMethodToken, .symExpr (paramTemp field)] false),
              st.fieldSet .PRIM_INIT_FIELD field (.symExpr (paramTemp field))]) ∧
      ((env.isPrimitiveScalar field.sym.type || env.isNonGenericClass field.sym.type) = false →
        env.isNonGenericRecordWithInitializers field.sym.type = false →
        st.genericFieldInitTypeWoutInit env field
          = (st.checkAndUpdate env (.callExpr (.prim .PRIM_INIT [T]))).map (fun e =>
              [tmpDefn (paramTemp field),
                .callExpr (.prim .PRIM_MOVE [.symExpr (paramTemp field), e]),
                st.fieldSet .PRIM_INIT_FIELD field (.symExpr (paramTemp field))]))) ∧
    (field.sym.hasFlag .FLAG_PARAM = true → ∀ d, field.init = some d →
      st.fieldInitFromField env log field
        = emitBefore st log (st.genericFieldInitTypeWithInit env field d) ∧
      st.genericFieldInitTypeWithInit env field d
        = (st.checkAndUpdate env d).map (fun d1 =>
            [st.fieldSet .PRIM_INIT_FIELD field (.callExpr (createCast d1 T))])) := by
  obtain ⟨hEq, hWout, hWith⟩ := generic_typed_dispatch env st log field T hT hGen hOuter
  refine ⟨hEq, ?_, ?_, ?_⟩
  · intro hP
    cases hI : field.init with
    | none =>
        rw [hWout hI]
        unfold InitNormalize.genericFieldInitTypeWoutInit
        simp only [hP, if_true]
        rfl
    | some d =>
        rw [hWith d hI]
        unfold InitNormalize.genericFieldInitTypeWithInit
        simp only [hP, if_true]
        rfl
  · intro hP hI
    refine ⟨hWout hI, ?_, ?_, ?_⟩
    · intro h1
      unfold InitNormalize.genericFieldInitTypeWoutInit
      simp only [hP, Bool.true_eq_false, if_false, h1, if_true]
      rfl
    · intro h1 h2
      unfold InitNormalize.genericFieldInitTypeWoutInit
      simp only [hP, Bool.true_eq_false, if_false, h1, Bool.false_eq_true, h2, if_true]
      rfl
    · intro h1 h2
      unfold InitNormalize.genericFieldInitTypeWoutInit
      simp only [hP, Bool.true_eq_false, if_false, h1, Bool.false_eq_true, h2, hT]
      exact except_bind_eq_map _ _
  · intro hP d hI
    refine ⟨hWith d hI, ?_⟩
    unfold InitNormalize.genericFieldInitTypeWithInit
    simp only [hP, Bool.true_eq_false, if_false, hT]
    exact except_bind_eq_map _ _

/-- The param field `p : int = 5` gets the single `PRIM_INIT_FIELD` with the cast of
`5` to `int`. -/
theorem generic_typed_field_fill_witness :
    (exState (exInit exTypeGeneric []) (some 2) .cPhase1).genericFieldInitTypeWithInit
        (exEnv []) exParamP (.symExpr (exLit 5))
      = .ok [.callExpr (.prim .PRIM_INIT_FIELD
          [.symExpr exThis, .symExpr (new_CStringSymbol "p"),
           .callExpr (createCast (.symExpr (exLit 5)) exIntExpr)])] :=
  (((generic_typed_field_fill (exEnv []) (exState (exInit exTypeGeneric []) (some 2) .cPhase1)
    Emitted.empty exParamP exIntExpr rfl (Or.inl (by decide)) rfl).2.2.2 (by decide)
    (.symExpr (exLit 5)) rfl).2).trans rfl

/-! ### `new` expressions as initializers of generic fields -/

/-- C26: when the initializer is a `new` expression, `genericFieldInitTypeInference`
ends, before anything is checked or inserted, in the `USR_FATAL` "Cannot initialize
type field ... with 'new' expression" for a type-variable field and "Cannot initialize
param field ..." for a param field that is not a type variable; for a field that is
neither, the `new` expression is not rejected: it goes through the accessibility check
and the rewrite, and the statements inserted are the binding of a temporary, its
`PRIM_INIT_VAR` from the rewritten `new` expression, and the `PRIM_INIT_FIELD` that
stores the temporary. -/
theorem new_initializer_of_generic_field (env : Env) (st : InitNormalize) (field : DefExpr)
    (initCall : CallExpr) (hNew : initCall.isPrimitive .PRIM_NEW = true) :
    (field.sym.hasFlag .FLAG_TYPE_VARIABLE = true →
      st.genericFieldInitTypeInference env field (.callExpr initCall)
        = .error (.usrFatal
            ("Cannot initialize type field '" ++ field.sym.name ++ "' with 'new' expression"))) ∧
    (field.sym.hasFlag .FLAG_TYPE_VARIABLE = false → field.sym.hasFlag .FLAG_PARAM = true →
      st.genericFieldInitTypeInference env field (.callExpr initCall)
        = .error (.usrFatal
            ("Cannot initialize param field '" ++ field.sym.name ++ "' with 'new' expression"))) ∧
    (field.sym.hasFlag .FLAG_TYPE_VARIABLE = false → field.sym.hasFlag .FLAG_PARAM = false →
      st.genericFieldInitTypeInference env field (.callExpr initCall)
        = (st.checkAndUpdate env (.callExpr initCall)).map (fun e =>
            [tmpDefn (newTemp "tmp" dtUnknown),
              .callExpr (.prim .PRIM_INIT_VAR [.symExpr (newTemp "tmp" dtUnknown), e]),
              st.fieldSet .PRIM_INIT_FIELD field (.symExpr (newTemp "tmp" dtUnknown))])) := by
  refine ⟨?_, ?_, ?_⟩
  · intro hTV
    unfold InitNormalize.genericFieldInitTypeInference
    simp [hTV, hNew, newTypeFieldMsg]
  · intro hTV hP
    unfold InitNormalize.genericFieldInitTypeInference
    simp [hTV, hP, hNew, newParamFieldMsg]
  · intro hTV hP
    unfold InitNormalize.genericFieldInitTypeInference
    simp only [hTV, hP, Bool.or_self, Bool.false_and, Bool.false_eq_true, if_false]
    exact except_bind_eq_map _ _

/-- Witness of C26: `new R(5)` as initializer of the type-variable field `tv`, of the
param field `pv`, and of the ordinary field `r`. -/
theorem new_initializer_of_generic_field_witness :
    (exState (exInit exTypeAB []) (some 0) .cPhase1).genericFieldInitTypeInference (exEnv [])
        exTypeVarField (.callExpr exNewR)
      = .error (.usrFatal "Cannot initialize type field 'tv' with 'new' expression") ∧
    (exState (exInit exTypeAB []) (some 0) .cPhase1).genericFieldInitTypeInference (exEnv [])
        exParamField (.callExpr exNewR)
      = .error (.usrFatal "Cannot initialize param field 'pv' with 'new' expression") ∧
    (exState (exInit exTypeAB []) (some 0) .cPhase1).genericFieldInitTypeInference (exEnv [])
        exFieldNew (.callExpr exNewR)
      = .ok [tmpDefn (newTemp "tmp" dtUnknown),
          .callExpr (.prim .PRIM_INIT_VAR [.symExpr (newTemp "tmp" dtUnknown), .callExpr exNewR]),
          .callExpr (.prim .PRIM_INIT_FIELD
            [.symExpr exThis, .symExpr (new_CStringSymbol "r"),
             .symExpr (newTemp "tmp" dtUnknown)])] :=
  ⟨((new_initializer_of_generic_field (exEnv []) (exState (exInit exTypeAB []) (some 0) .cPhase1)
      exTypeVarField exNewR rfl).1 (by decide)).trans rfl,
   ((new_initializer_of_generic_field (exEnv []) (exState (exInit exTypeAB []) (some 0) .cPhase1)
      exParamField exNewR rfl).2.1 (by decide) (by decide)).trans rfl,
   ((new_initializer_of_generic_field (exEnv []) (exState (exInit exTypeAB []) (some 0) .cPhase1)
      exFieldNew exNewR rfl).2.2 (by decide) (by decide)).trans rfl⟩

/-! ### Ordinary fields with a default expression and no declared type -/

theorem fill_paths_agree (env : Env) (st : InitNormalize) (log : Emitted) (field : DefExpr)
    (h : st.fillPathsDiffer field = false) :
    st.initializeFieldStep env log field = st.fieldInitFromField env log field := by
  unfold InitNormalize.fillPathsDiffer at h
  simp only [Bool.or_eq_false_iff] at h
  obtain ⟨hO, hRest⟩ := h
  unfold InitNormalize.initializeFieldStep InitNormalize.fieldInitFromField
  simp only [hO, Bool.false_eq_true, if_false]
  cases hT : field.exprType <;> cases hI : field.init
  · rfl
  · by_cases hg : (field.sym.hasFlag .FLAG_PARAM || field.sym.hasFlag .FLAG_TYPE_VARIABLE) = true
    · simp only [hg, if_true]
    · have hg2 : (field.sym.hasFlag .FLAG_PARAM || field.sym.hasFlag .FLAG_TYPE_VARIABLE)
          = false := by simpa using hg
      simp only [Bool.or_eq_false_iff] at hg2
      have hU : field.sym.type = dtUnknown := by
        simpa [hT, hI, hg2.1, hg2.2] using hRest
      simp [hg2.1, hg2.2, hU]
  · by_cases hg : (field.sym.hasFlag .FLAG_PARAM || field.sym.hasFlag .FLAG_TYPE_VARIABLE) = true
    · simp only [hg, if_true]
    · simp only [hg, if_false]
  · by_cases hg : (field.sym.hasFlag .FLAG_PARAM || field.sym.hasFlag .FLAG_TYPE_VARIABLE) = true
    · simp only [hg, if_true]
    · simp only [hg, if_false]
      by_cases hK : field.sym.type = dtUnknown
      · simp [hK]
      · simp [hK]

/-- C29 fails on the code.  In the nested record `[outer, a : int]` the step of
`initializeFieldsBefore` for the `outer` pseudo-field adds the formal `outer` and puts
its assignment at the head of the body, without a diagnostic, while
`fieldInitFromField` for the same field and state emits nothing and records "can't
omit initialization of field \"outer\""; so the explicit initialization `this.a = 5;`
as first statement records that diagnostic.  In the record `[k = 5, a : int]`, where
the type of `k` is known and `k` has no declared-type expression, the step of
`initializeFieldsBefore` runs `fieldInitTypeWithInit` (the temporary is assigned with
`=`) and `fieldInitFromField` runs `fieldInitTypeInference` (the temporary is set with
`PRIM_MOVE`).  On every other field the two agree. -/
theorem fill_paths_diverge :
    (((exState (exInit exTypeOuterA []) (some 0) .cPhase1).initializeFieldStep (exEnv [])
        Emitted.empty exFieldOuter).map (fun r => (r.2.atHead, r.2.before, r.2.diags))
      = .ok ([.callExpr (.prim .PRIM_SET_MEMBER
            [.symExpr exThis, .symExpr (new_CStringSymbol "outer"),
             .symExpr { id := 0, name := "outer", kind := .ArgSymbol, type := exOuterSym.type,
                        immediate := false, cstring := none, flags := [.FLAG_GENERIC] }])],
          [], [])) ∧
    (((exState (exInit exTypeOuterA []) (some 0) .cPhase1).fieldInitFromField (exEnv [])
        Emitted.empty exFieldOuter).map (fun r => (r.2.atHead, r.2.before, r.2.diags))
      = .ok ([], [], [omitFieldMsg "outer"])) ∧
    (((exState (exInit exTypeOuterA []) (some 0) .cPhase1).fieldInitFromInitStmt (exEnv [])
        Emitted.empty 1 (exAssign "a" (.symExpr (exLit 5)))).map
        (fun r => (r.2.atHead, fieldAssignments r.2.before, r.2.diags))
      = .ok ([], [some "a"], [omitFieldMsg "outer"])) ∧
    (((exState (exInit exTypeKA []) (some 0) .cPhase1).initializeFieldStep (exEnv [])
        Emitted.empty exFieldKnown).map (fun r => r.2.before)
      = .ok [tmpDefn (newTemp "tmp" exInt),
          .callExpr (.named (.unresolvedSymExpr "=")
            [.symExpr (newTemp "tmp" exInt), .symExpr (exLit 5)] false),
          .callExpr (.prim .PRIM_SET_MEMBER
            [.symExpr exThis, .symExpr (new_CStringSymbol "k"),
             .symExpr (newTemp "tmp" exInt)])]) ∧
    (((exState (exInit exTypeKA []) (some 0) .cPhase1).fieldInitFromField (exEnv [])
        Emitted.empty exFieldKnown).map (fun r => r.2.before)
      = .ok [tmpDefn (newTemp "tmp" exInt),
          .callExpr (.prim .PRIM_MOVE [.symExpr (newTemp "tmp" exInt), .symExpr (exLit 5)]),
          .callExpr (.prim .PRIM_SET_MEMBER
            [.symExpr exThis, .symExpr (new_CStringSymbol "k"),
             .symExpr (newTemp "tmp" exInt)])]) ∧
    (∀ (env : Env) (st : InitNormalize) (log : Emitted) (field : DefExpr),
      st.fillPathsDiffer field = false →
      st.initializeFieldStep env log field = st.fieldInitFromField env log field) :=
  ⟨rfl, rfl, rfl, rfl, rfl, fill_paths_agree⟩

/-! ### The deferred branch of `fieldInitTypeWithInit` -/

theorem mightBeSyncSingleExpr_iff (field : DefExpr) :
    mightBeSyncSingleExpr field = true ↔
      ((∃ typeSym, field.exprType = some (.symExpr typeSym) ∧
          typeSym.hasFlag .FLAG_TYPE_VARIABLE = true) ∨
       (∃ typeCall, field.exprType = some (.callExpr typeCall) ∧
          typeCall.isAnyPrimitive = false)) := by
  unfold mightBeSyncSingleExpr
  cases hT : field.exprType with
  | none => simp
  | some e => cases e <;> simp

theorem isMaybeSyncOp_assignment (s : Expr) (h : isFieldAssignment s = false) :
    isMaybeSyncOp s = false := by
  cases hs : isMaybeSyncOp s
  · rfl
  · exfalso
    unfold isMaybeSyncOp at hs
    split at hs
    · simp [isFieldAssignment] at h
    · cases hs

theorem fieldInitTypeWithInit_gate (env : Env) (st : InitNormalize) (field : DefExpr)
    (initExpr : Expr) (hGate : st.maybeSyncGate env field = true) :
    st.fieldInitTypeWithInit env field initExpr
      = (st.checkAndUpdate env initExpr).map (fun e =>
          [st.fieldSet .PRIM_INIT_MAYBE_SYNC_SINGLE_FIELD field e]) := by
  unfold InitNormalize.maybeSyncGate at hGate
  simp only [Bool.and_eq_true, Bool.not_eq_true', Bool.or_eq_false_iff] at hGate
  obtain ⟨⟨⟨h1, h2⟩, h3⟩, ⟨h4, h5⟩, h6⟩ := hGate
  unfold InitNormalize.fieldInitTypeWithInit
  simp only [h1, h2, h3, h4, h5, h6, Bool.or_self, Bool.and_self, Bool.false_eq_true, if_false,
    if_true]
  exact except_bind_eq_map _ _

theorem fieldInitTypeWithInit_no_gate (env : Env) (st : InitNormalize) (field : DefExpr)
    (initExpr : Expr) (stmts : List Expr) (hGate : st.maybeSyncGate env field = false)
    (h : st.fieldInitTypeWithInit env field initExpr = .ok stmts) :
    ∀ s ∈ stmts, isMaybeSyncOp s = false := by
  unfold InitNormalize.fieldInitTypeWithInit at h
  dsimp only at h
  repeat' split at h
  all_goals first
    | cases h
    | (obtain ⟨_, _, h2⟩ := (except_bind_ok _ _ _).mp h
       obtain ⟨_, _, h3⟩ := (except_bind_ok _ _ _).mp h2
       obtain ⟨_, _, h4⟩ := (except_bind_ok _ _ _).mp h3
       obtain ⟨_, _, h5⟩ := (except_bind_ok _ _ _).mp h4
       cases h5
       intro s hs
       simp only [List.mem_cons, List.mem_singleton, List.not_mem_nil, or_false] at hs
       rcases hs with rfl | rfl | rfl | rfl <;> rfl)
    | (obtain ⟨x, hx, h2⟩ := (except_bind_ok _ _ _).mp h
       cases h2
       have hx2 := isMaybeSyncOp_assignment _
         (updateFieldsMember_named_not_assignment env st _ _ _ _ (checkAndUpdate_ok env st _ _ hx).2)
       intro s hs
       simp only [List.mem_cons, List.mem_singleton, List.not_mem_nil, or_false] at hs
       rcases hs with rfl | rfl | rfl
       · rfl
       · exact hx2
       · rfl)
    | (obtain ⟨x, hx, h2⟩ := (except_bind_ok _ _ _).mp h
       cases h2
       intro s hs
       simp only [List.mem_cons, List.mem_singleton, List.not_mem_nil, or_false] at hs
       rcases hs with rfl | rfl | rfl <;> rfl)
    | (exfalso
       simp_all [InitNormalize.maybeSyncGate])

/-- C30: `fieldInitTypeWithInit` emits the maybe-sync-single operation (one operation
that carries `this`, the name of the field and the rewritten initializer, with no
temporary) exactly when the type of the field is neither a primitive scalar, a
non-generic class nor a non-generic record with initializers, the method is
compiler-generated, the declaration has no default expression, and the declared-type
expression is a bare symbol with `FLAG_TYPE_VARIABLE` or a call that is not a
primitive; then the initializer is checked and rewritten and the operation is the only
statement inserted.  In every other case no statement inserted is such an operation;
in particular not for a field with no declared-type expression or with a
primitive-call type expression. -/
theorem maybe_sync_marker_iff (env : Env) (st : InitNormalize) (field : DefExpr)
    (initExpr : Expr) :
    (st.maybeSyncGate env field = true ↔
      (env.isPrimitiveScalar field.sym.type = false ∧
       env.isNonGenericClass field.sym.type = false ∧
       env.isNonGenericRecordWithInitializers field.sym.type = false ∧
       st.mFn.hasFlag .FLAG_COMPILER_GENERATED = true ∧ field.init = none ∧
       ((∃ typeSym, field.exprType = some (.symExpr typeSym) ∧
           typeSym.hasFlag .FLAG_TYPE_VARIABLE = true) ∨
        (∃ typeCall, field.exprType = some (.callExpr typeCall) ∧
           typeCall.isAnyPrimitive = false)))) ∧
    (st.maybeSyncGate env field = true →
      st.fieldInitTypeWithInit env field initExpr
        = (st.checkAndUpdate env initExpr).map (fun e =>
            [st.fieldSet .PRIM_INIT_MAYBE_SYNC_SINGLE_FIELD field e])) ∧
    (∀ e1, st.fieldInitTypeWithInit env field initExpr
          = .ok [st.fieldSet .PRIM_INIT_MAYBE_SYNC_SINGLE_FIELD field e1] ↔
        (st.maybeSyncGate env field = true ∧ st.checkAndUpdate env initExpr = .ok e1)) ∧
    (st.maybeSyncGate env field = false → ∀ stmts,
      st.fieldInitTypeWithInit env field initExpr = .ok stmts →
      ∀ s ∈ stmts, isMaybeSyncOp s = false) ∧
    (field.exprType = none → st.maybeSyncGate env field = false) ∧
    (∀ typeCall, field.exprType = some (.callExpr typeCall) →
      typeCall.isAnyPrimitive = true → st.maybeSyncGate env field = false) := by
  have hgate := fieldInitTypeWithInit_gate env st field initExpr
  have hno := fieldInitTypeWithInit_no_gate env st field initExpr
  refine ⟨?_, hgate, ?_, fun h stmts hs => hno stmts h hs, ?_, ?_⟩
  · rw [← mightBeSyncSingleExpr_iff]
    unfold InitNormalize.maybeSyncGate
    cases hI : field.init <;>
      simp [Bool.and_eq_true, Bool.or_eq_false_iff, and_assoc]
  · intro e1
    constructor
    · intro h
      cases hg : st.maybeSyncGate env field with
      | false =>
          have := hno _ hg h _ (List.mem_singleton.mpr rfl)
          cases this
      | true =>
          refine ⟨rfl, ?_⟩
          rw [hgate hg] at h
          cases hc : st.checkAndUpdate env initExpr with
          | error f => rw [hc] at h; cases h
          | ok e =>
              rw [hc] at h
              simp only [Except.map, InitNormalize.fieldSet] at h
              injection h with h
              injection h with h
              injection h with h
              injection h with _ h
              injection h with _ h
              injection h with _ h
              injection h with h
              rw [h]
    · rintro ⟨hg, hc⟩
      rw [hgate hg, hc]
      rfl
  · intro hT
    unfold InitNormalize.maybeSyncGate mightBeSyncSingleExpr
    simp [hT]
  · intro typeCall hT hP
    unfold InitNormalize.maybeSyncGate mightBeSyncSingleExpr
    simp [hT, hP]

/-- Witness of C30: in a compiler-generated initializer, the field `s : t` whose
declared type is a type variable gets the single maybe-sync-single operation; in a
user-written initializer it does not. -/
theorem maybe_sync_marker_iff_witness :
    (exState (exGeneratedInit (exRecord [exFieldOfTypeVar]) []) (some 0) .cPhase1).fieldInitTypeWithInit
        (exEnv []) exFieldOfTypeVar (.symExpr (exLit 5))
      = .ok [.callExpr (.prim .PRIM_INIT_MAYBE_SYNC_SINGLE_FIELD
          [.symExpr exThis, .symExpr (new_CStringSymbol "s"), .symExpr (exLit 5)])] ∧
    (∀ stmts, (exState (exInit (exRecord [exFieldOfTypeVar]) []) (some 0) .cPhase1).fieldInitTypeWithInit
        (exEnv []) exFieldOfTypeVar (.symExpr (exLit 5)) = .ok stmts →
      ∀ s ∈ stmts, isMaybeSyncOp s = false) :=
  ⟨((maybe_sync_marker_iff (exEnv [])
      (exState (exGeneratedInit (exRecord [exFieldOfTypeVar]) []) (some 0) .cPhase1)
      exFieldOfTypeVar (.symExpr (exLit 5))).2.1 rfl).trans rfl,
   (maybe_sync_marker_iff (exEnv [])
      (exState (exInit (exRecord [exFieldOfTypeVar]) []) (some 0) .cPhase1)
      exFieldOfTypeVar (.symExpr (exLit 5))).2.2.2.1 rfl⟩

/-! ### A field that is already initialized is not entered again -/

theorem isFieldReinitialized_of_field (st : InitNormalize) (field : Nat)
    (hField : field < st.type.fields.length) :
    st.isFieldReinitialized field = .ok (decide (st.fieldIsBefore field)) := by
  have h := isFieldReinitializedFrom_eq st.mCurrField field st.type.fields 0 (Nat.zero_le _)
    (by simpa using hField)
  unfold InitNormalize.isFieldReinitialized
  rw [h]
  congr 1
  by_cases hb : st.fieldIsBefore field
  · rw [decide_eq_true hb]
    unfold InitNormalize.fieldIsBefore at hb
    cases hc : st.mCurrField with
    | none => rfl
    | some c =>
        rw [hc] at hb
        simpa using hb
  · rw [decide_eq_false hb]
    unfold InitNormalize.fieldIsBefore at hb
    cases hc : st.mCurrField with
    | none =>
        rw [hc] at hb
        exact absurd trivial hb
    | some c =>
        rw [hc] at hb
        simpa using hb

/-- C33: for a field `F` of the type that lies strictly before `mCurrField` (every
field of the type when `mCurrField` is `NULL`), `fieldInitFromInitStmt(F, stmt)` stops
at the `INT_ASSERT(isFieldReinitialized(field) == false)` at its head: nothing is
emitted for `F` or for any other field and no state with a moved `mCurrField` is
produced. -/
theorem done_field_is_not_reentered (env : Env) (st : InitNormalize) (log : Emitted)
    (field : Nat) (stmt : CallExpr)
    (hField : field < st.type.fields.length) (hBefore : st.fieldIsBefore field) :
    st.isFieldReinitialized field = .ok true ∧
    st.initSkippedFields env log field = .error .intAssert ∧
    st.fieldInitFromInitStmt env log field stmt = .error .intAssert := by
  have hre : st.isFieldReinitialized field = .ok true := by
    rw [isFieldReinitialized_of_field st field hField, decide_eq_true hBefore]
  have hne : some field ≠ st.mCurrField := by
    intro h
    unfold InitNormalize.fieldIsBefore at hBefore
    rw [← h] at hBefore
    exact Nat.lt_irrefl _ hBefore
  have hskip : st.initSkippedFields env log field = .error .intAssert := by
    unfold InitNormalize.initSkippedFields
    rw [if_pos hne, hre]
  refine ⟨hre, hskip, ?_⟩
  unfold InitNormalize.fieldInitFromInitStmt
  rw [hskip]

/-- Witness of C33: in the record `[a, b]` with `mCurrField` at `b`, an explicit
initialization of `a` stops at the assertion. -/
theorem done_field_is_not_reentered_witness :
    (exState (exInit exTypeAB []) (some 1) .cPhase1).fieldInitFromInitStmt (exEnv [])
        Emitted.empty 0 (exAssign "a" (.symExpr (exLit 5))) = .error .intAssert :=
  (done_field_is_not_reentered (exEnv []) (exState (exInit exTypeAB []) (some 1) .cPhase1)
    Emitted.empty 0 (exAssign "a" (.symExpr (exLit 5))) (by decide) (by decide)).2.2

/-! ### `isFieldAccessible` never returns `false` -/

mutual
theorem isFieldAccessible_outcome (env : Env) (st : InitNormalize) :
    ∀ e : Expr, IsAccessOutcome (st.isFieldAccessible env e)
  | .symExpr sym => by
      rw [InitNormalize.isFieldAccessible]
      unfold IsAccessOutcome
      split
      · simp
      · split
        · split <;> simp
        · split
          · split <;> simp
          · simp
  | .callExpr c => by
      rw [InitNormalize.isFieldAccessible]
      split
      · unfold IsAccessOutcome
        split <;> simp
      · split
        · unfold IsAccessOutcome
          split <;> simp
        · exact isFieldAccessibleCall_outcome env st c
  | .namedExpr _ _ => by simp [InitNormalize.isFieldAccessible, IsAccessOutcome]
  | .unresolvedSymExpr _ => by simp [InitNormalize.isFieldAccessible, IsAccessOutcome]
  | .defExpr _ _ _ => by simp [InitNormalize.isFieldAccessible, IsAccessOutcome]
  | .condStmt _ _ _ => by simp [InitNormalize.isFieldAccessible, IsAccessOutcome]
  | .blockStmt _ => by simp [InitNormalize.isFieldAccessible, IsAccessOutcome]
  | .forallStmt _ => by simp [InitNormalize.isFieldAccessible, IsAccessOutcome]
  | .otherExpr _ => by simp [InitNormalize.isFieldAccessible, IsAccessOutcome]
theorem isFieldAccessibleCall_outcome (env : Env) (st : InitNormalize) :
    ∀ c : CallExpr, IsAccessOutcome (InitNormalize.isFieldAccessibleCall env st c)
  | .prim _ actuals => by
      rw [InitNormalize.isFieldAccessibleCall]
      exact isFieldAccessibleActuals_outcome env st actuals
  | .named _ actuals _ => by
      rw [InitNormalize.isFieldAccessibleCall]
      exact isFieldAccessibleActuals_outcome env st actuals
theorem isFieldAccessibleActuals_outcome (env : Env) (st : InitNormalize) :
    ∀ l : List Expr, IsAccessOutcome (InitNormalize.isFieldAccessibleActuals env st l)
  | [] => by simp [InitNormalize.isFieldAccessibleActuals, IsAccessOutcome]
  | a :: rest => by
      rw [InitNormalize.isFieldAccessibleActuals]
      have ha := isFieldAccessible_outcome env st a
      have hr := isFieldAccessibleActuals_outcome env st rest
      rcases ha with h | h | ⟨msg, h⟩
      · rw [h]
        exact hr
      · rw [h]
        exact Or.inr (Or.inl rfl)
      · rw [h]
        exact Or.inr (Or.inr ⟨msg, rfl⟩)
end

/-- C34: `isFieldAccessible` never returns `false`: for every state and expression it
returns `true`, ends in a `USR_FATAL`, or fails the `INT_ASSERT(false)` for a node of a
kind it does not know; the same holds for its loop over the actuals of a call.  So
the guard `if (isFieldAccessible(e) == false) INT_ASSERT(false)` of the emission
strategies never fires: it passes exactly when `isFieldAccessible` returns, and fails
only with the failure of `isFieldAccessible` itself. -/
theorem isFieldAccessible_never_false (env : Env) (st : InitNormalize) (e : Expr) :
    st.isFieldAccessible env e ≠ .ok false ∧
    (st.isFieldAccessible env e = .ok true ∨ st.isFieldAccessible env e = .error .intAssert ∨
      ∃ msg, st.isFieldAccessible env e = .error (.usrFatal msg)) ∧
    (∀ actuals, InitNormalize.isFieldAccessibleActuals env st actuals ≠ .ok false) ∧
    st.assertAccessible env e = (st.isFieldAccessible env e).map (fun _ => ()) ∧
    (∀ f, st.assertAccessible env e = .error f → st.isFieldAccessible env e = .error f) := by
  have hout := isFieldAccessible_outcome env st e
  have hne : st.isFieldAccessible env e ≠ .ok false := by
    rcases hout with h | h | ⟨msg, h⟩ <;> rw [h] <;> simp
  have hassert : st.assertAccessible env e = (st.isFieldAccessible env e).map (fun _ => ()) := by
    unfold InitNormalize.assertAccessible
    rcases hout with h | h | ⟨msg, h⟩ <;> rw [h] <;> rfl
  refine ⟨hne, hout, ?_, hassert, ?_⟩
  · intro actuals
    rcases isFieldAccessibleActuals_outcome env st actuals with h | h | ⟨msg, h⟩ <;>
      rw [h] <;> simp
  · intro f hf
    rw [hassert] at hf
    rcases hout with h | h | ⟨msg, h⟩
    · rw [h] at hf
      cases hf
    · rw [h] at hf ⊢
      simpa [Except.map] using hf
    · rw [h] at hf ⊢
      simpa [Except.map] using hf

/-! ### Block kinds along forks and merges -/

theorem forkBlock_kind (block : BlockStmt) (s t : InitNormalize)
    (h : InitNormalize.forkBlock block s = .ok t) :
    ∃ k, t = s.forkWith k ∧ (k = s.mBlockType ∨ k ≠ .cBlockNormal) := by
  cases block with
  | mk info body =>
      unfold InitNormalize.forkBlock at h
      repeat' split at h
      all_goals first
        | (cases h; done)
        | (cases h
           exact ⟨_, rfl, Or.inl rfl⟩)
        | (cases h
           exact ⟨_, rfl, Or.inr (by decide)⟩)

theorem isFork_kind (s t : InitNormalize) (h : IsFork s t) :
    ∃ k, t = s.forkWith k ∧ (k = s.mBlockType ∨ k ≠ .cBlockNormal) := by
  rcases h with h | h | h | ⟨block, h⟩
  · exact ⟨.cBlockCond, h, Or.inr (by decide)⟩
  · exact ⟨.cBlockLoop, h, Or.inr (by decide)⟩
  · exact ⟨.cBlockForall, h, Or.inr (by decide)⟩
  · exact forkBlock_kind block s t h

theorem forkWith_consistent (s : InitNormalize) (k : BlockType)
    (hk : k = s.mBlockType ∨ k ≠ .cBlockNormal) (hs : s.blockKindsConsistent) :
    (s.forkWith k).blockKindsConsistent := by
  unfold InitNormalize.blockKindsConsistent InitNormalize.forkWith
  by_cases hkb : k = s.mBlockType
  · subst hkb
    simpa [InitNormalize.blockKindsConsistent] using hs
  · simp only [ne_eq, hkb, not_false_eq_true, if_true]
    rcases hk with hk | hk
    · exact absurd hk hkb
    · exact Or.inr ⟨hk, fun h => hkb h.symm⟩

theorem forkReach_consistent (root st : InitNormalize) (hRoot : root.blockKindsConsistent)
    (h : ForkReach root st) : st.blockKindsConsistent := by
  induction h with
  | root => exact hRoot
  | fork _ hf ih =>
      obtain ⟨k, ht, hk⟩ := isFork_kind _ _ hf
      rw [ht]
      exact forkWith_consistent _ k hk ih
  | merge _ _ ih _ => exact ih

theorem forkReach_not_normal (root st : InitNormalize)
    (hRoot : root.mBlockType ≠ .cBlockNormal) (h : ForkReach root st) :
    st.mBlockType ≠ .cBlockNormal := by
  induction h with
  | root => exact hRoot
  | fork _ hf ih =>
      obtain ⟨k, ht, hk⟩ := isFork_kind _ _ hf
      rw [ht]
      rcases hk with hk | hk
      · simpa [InitNormalize.forkWith, hk] using ih
      · simpa [InitNormalize.forkWith] using hk
  | merge _ _ ih _ => exact ih

/-- C35: every state reached from the state that the constructor from a method
yields, through any sequence of forks and merges, has either `mBlockType` and
`mPrevBlockType` both `cBlockNormal`, or `mBlockType` other than `cBlockNormal` and
`mPrevBlockType` different from `mBlockType`.  So a state inside an on-block never has
`mPrevBlockType = cBlockOn`, and every state reached by forks and merges from a state
whose block kind is not `cBlockNormal` has a block kind other than `cBlockNormal`. -/
theorem block_kinds_consistent (env : Env) (fn : FnSymbol) (st0 st : InitNormalize)
    (hBegin : InitNormalize.begin env fn = .ok st0) (hReach : ForkReach st0 st) :
    st.blockKindsConsistent ∧
    (st.inOn = true → st.mPrevBlockType ≠ .cBlockOn) ∧
    (st.mBlockType ≠ .cBlockNormal → ∀ t, ForkReach st t → t.mBlockType ≠ .cBlockNormal) := by
  have h0 : st0.blockKindsConsistent := by
    unfold InitNormalize.begin at hBegin
    split at hBegin
    · cases hBegin
    · cases hBegin
      exact Or.inl ⟨rfl, rfl⟩
  have hst := forkReach_consistent st0 st h0 hReach
  refine ⟨hst, ?_, fun hn t ht => forkReach_not_normal st t hn ht⟩
  intro hOn
  have hb : st.mBlockType = .cBlockOn := by
    simpa [InitNormalize.inOn] using hOn
  rcases hst with ⟨h1, _⟩ | ⟨_, h2⟩
  · rw [hb] at h1
    cases h1
  · rw [hb] at h2
    exact h2

/-- Witness of C35: from the start state of an initializer of `[a, b]`, the fork into
a loop and then into an on-block has block kind `cBlockOn` and previous block kind
`cBlockLoop`. -/
theorem block_kinds_consistent_witness :
    ((exState (exInit exTypeAB []) (some 0) .cPhase2).forkLoop.forkWith .cBlockOn).blockKindsConsistent ∧
    ((exState (exInit exTypeAB []) (some 0) .cPhase2).forkLoop.forkWith .cBlockOn).mPrevBlockType
      = .cBlockLoop :=
  ⟨(block_kinds_consistent (exEnv []) (exInit exTypeAB [])
      (exState (exInit exTypeAB []) (some 0) .cPhase2)
      ((exState (exInit exTypeAB []) (some 0) .cPhase2).forkLoop.forkWith .cBlockOn) rfl
      (ForkReach.fork (ForkReach.fork ForkReach.root (Or.inr (Or.inl rfl)))
        (Or.inr (Or.inr (Or.inr ⟨exOnBlock, rfl⟩))))).1,
   rfl⟩

/-! ### The two queries on initialized fields -/

theorem isFieldReinitializedFrom_not_in_list (currField : Option Nat) (field : Nat)
    (nodes : List DefExpr) :
    ∀ pos, pos + nodes.length ≤ field →
      isFieldReinitializedFrom currField field pos nodes
        = (match currField with
           | none => .error .intAssert
           | some c => if pos ≤ c ∧ c < pos + nodes.length then .ok false
                       else .error .intAssert) := by
  induction nodes with
  | nil =>
      intro pos _
      unfold isFieldReinitializedFrom
      cases currField with
      | none => rfl
      | some c =>
          simp only [List.length_nil, Nat.add_zero]
          rw [if_neg (by omega)]
  | cons d rest ih =>
      intro pos h
      simp only [List.length_cons] at h
      unfold isFieldReinitializedFrom
      have hf : field ≠ pos := by omega
      cases currField with
      | none =>
          simp only [reduceCtorEq, if_false, hf]
          rw [ih (pos + 1) (by omega)]
      | some c =>
          by_cases hc : pos = c
          · subst hc
            simp only [if_true, List.length_cons]
            rw [if_pos (by omega)]
          · have hc2 : ¬ (some pos = some c) := by simpa using hc
            simp only [hc2, if_false, hf, List.length_cons]
            rw [ih (pos + 1) (by omega)]
            simp only
            by_cases hr : pos + 1 ≤ c ∧ c < pos + 1 + rest.length
            · rw [if_pos hr, if_pos (by omega)]
            · rw [if_neg hr, if_neg (by omega)]

theorem isFieldInitialized_not_in_list (st : InitNormalize) (field : Nat)
    (h : st.type.fields.length ≤ field) : st.isFieldInitialized field = true := by
  unfold InitNormalize.isFieldInitialized
  cases st.mCurrField with
  | none => rfl
  | some c =>
      simp only [isFieldInitializedFrom_eq_true, List.length_drop]
      omega

/-- C36: for a field `F` of the field list of the type, in every state,
`isFieldReinitialized(F)` returns the value of `isFieldInitialized(F)`.  For a field
that is not in the list they differ: `isFieldInitialized` returns `true`, while
`isFieldReinitialized` never returns `true`: it returns `false` when `mCurrField` is a
member of the list and fails its assertion otherwise. -/
theorem reinitialized_agrees_with_initialized (st : InitNormalize) (field : Nat) :
    (field < st.type.fields.length →
      st.isFieldReinitialized field = .ok (st.isFieldInitialized field)) ∧
    (st.type.fields.length ≤ field →
      st.isFieldInitialized field = true ∧
      st.isFieldReinitialized field ≠ .ok true ∧
      (∀ c, st.mCurrField = some c → c < st.type.fields.length →
        st.isFieldReinitialized field = .ok false) ∧
      (st.mCurrField = none → st.isFieldReinitialized field = .error .intAssert)) := by
  constructor
  · intro hField
    rw [isFieldReinitialized_of_field st field hField]
    congr 1
    by_cases hb : st.fieldIsBefore field
    · rw [decide_eq_true hb, (isFieldInitialized_iff_before st field hField).mpr hb]
    · rw [decide_eq_false hb]
      cases hi : st.isFieldInitialized field
      · rfl
      · exact absurd ((isFieldInitialized_iff_before st field hField).mp hi) hb
  · intro hNot
    have hre := isFieldReinitializedFrom_not_in_list st.mCurrField field st.type.fields 0
      (by simpa using hNot)
    refine ⟨isFieldInitialized_not_in_list st field hNot, ?_, ?_, ?_⟩
    · unfold InitNormalize.isFieldReinitialized
      rw [hre]
      cases st.mCurrField with
      | none => simp
      | some c =>
          simp only
          split <;> simp
    · intro c hc hlt
      unfold InitNormalize.isFieldReinitialized
      rw [hre, hc]
      simp only
      rw [if_pos (by omega)]
    · intro hc
      unfold InitNormalize.isFieldReinitialized
      rw [hre, hc]

/-- Witness of C36: in the record `[a, b]` with `mCurrField` at `b`, both queries
return `true` for `a` and `false` for `b`. -/
theorem reinitialized_agrees_with_initialized_witness :
    (exState (exInit exTypeAB []) (some 1) .cPhase1).isFieldReinitialized 0 = .ok true ∧
    (exState (exInit exTypeAB []) (some 1) .cPhase1).isFieldReinitialized 1 = .ok false :=
  ⟨((reinitialized_agrees_with_initialized (exState (exInit exTypeAB []) (some 1) .cPhase1)
      0).1 (by decide)).trans rfl,
   ((reinitialized_agrees_with_initialized (exState (exInit exTypeAB []) (some 1) .cPhase1)
      1).1 (by decide)).trans rfl⟩

/-! ### `startPhase` of a concatenation -/

/-- C37: `startPhase` of the block with statements `s1 ++ s2` is `startPhase` of
`s1` when that is not Phase2 and `startPhase` of `s2` otherwise.  So the statements
after a prefix that is not classified as Phase2 do not affect the result, and
statements put in front that each classify as Phase2 (field declarations among them)
do not change it. -/
theorem startPhase_append (env : Env) (info : Option CallExpr) (s1 s2 : List Expr) :
    startPhase env (.mk info (s1 ++ s2))
      = (if startPhase env (.mk info s1) ≠ .cPhase2 then startPhase env (.mk info s1)
         else startPhase env (.mk info s2)) ∧
    (startPhase env (.mk info s1) ≠ .cPhase2 →
      ∀ s3, startPhase env (.mk info (s1 ++ s3)) = startPhase env (.mk info (s1 ++ s2))) ∧
    ((∀ s ∈ s1, stmtClassification env s = .cPhase2) →
      startPhase env (.mk info (s1 ++ s2)) = startPhase env (.mk info s2)) ∧
    (∀ sym t i, startPhase env (.mk info (.defExpr sym t i :: s2))
      = startPhase env (.mk info s2)) := by
  have happ : ∀ a b, startPhase env (.mk info (a ++ b))
      = (if startPhase env (.mk info a) ≠ .cPhase2 then startPhase env (.mk info a)
         else startPhase env (.mk info b)) := by
    intro a b
    simp only [startPhase_eq_from, BlockStmt.body]
    exact startPhaseFrom_append env a b
  refine ⟨happ s1 s2, ?_, ?_, ?_⟩
  · intro hne s3
    rw [happ s1 s3, happ s1 s2, if_pos hne, if_pos hne]
  · intro hall
    have h1 : startPhase env (.mk info s1) = .cPhase2 := by
      simp only [startPhase_eq_from, BlockStmt.body]
      clear happ
      induction s1 with
      | nil => simp [startPhaseFrom]
      | cons s rest ih =>
          rw [startPhaseFrom_cons, hall s (List.mem_cons_self _ _)]
          simpa using ih (fun x hx => hall x (List.mem_cons_of_mem _ hx))
    rw [happ s1 s2, h1]
    simp
  · intro sym t i
    simp only [startPhase_eq_from, BlockStmt.body]
    rw [startPhaseFrom]

/-- Witness of C37: a block that starts with `super.init()` is in Phase1 whatever
follows, here `this.init()`. -/
theorem startPhase_append_witness :
    startPhase (exEnv []) (.mk none ([.callExpr exSuperInit] ++ [.callExpr exThisInit]))
      = .cPhase1 :=
  ((startPhase_append (exEnv []) none [.callExpr exSuperInit] [.callExpr exThisInit]).1).trans
    rfl

/-! ### The initialized fields only grow -/

theorem isFieldInitialized_eq (st : InitNormalize) (field : Nat) :
    st.isFieldInitialized field = true ↔
      (match st.mCurrField with
       | none => True
       | some c => ¬ (c ≤ field ∧ field < st.type.fields.length)) := by
  unfold InitNormalize.isFieldInitialized
  cases st.mCurrField with
  | none => simp
  | some c =>
      simp only [isFieldInitializedFrom_eq_true, List.length_drop]
      constructor
      · intro h hc
        apply h
        omega
      · intro h hc
        apply h
        omega

theorem isFieldInitialized_mono (st st1 : InitNormalize) (field : Nat)
    (hLen : st1.type.fields.length = st.type.fields.length)
    (hCur : st1.mCurrField = none ∨
      ∃ c c1, st.mCurrField = some c ∧ st1.mCurrField = some c1 ∧ c ≤ c1)
    (h : st.isFieldInitialized field = true) : st1.isFieldInitialized field = true := by
  rw [isFieldInitialized_eq] at h ⊢
  rcases hCur with h1 | ⟨c, c1, hc, hc1, hle⟩
  · rw [h1]
    trivial
  · rw [hc] at h
    rw [hc1, hLen]
    simp only at h ⊢
    omega

theorem initSkippedFields_cur (env : Env) (st : InitNormalize) (log : Emitted) (field : Nat)
    (sa : InitNormalize) (la : Emitted)
    (h : st.initSkippedFields env log field = .ok (sa, la)) : ∃ c, st.mCurrField = some c := by
  cases hc : st.mCurrField with
  | some c => exact ⟨c, rfl⟩
  | none =>
      exfalso
      unfold InitNormalize.initSkippedFields at h
      rw [hc] at h
      simp only [ne_eq, not_false_eq_true, if_true, reduceCtorEq] at h
      repeat' split at h
      all_goals cases h

theorem fieldInitFromInitStmt_cur (env : Env) (st : InitNormalize) (log : Emitted)
    (field : Nat) (stmt : CallExpr) (st1 : InitNormalize) (log1 : Emitted)
    (h : st.fieldInitFromInitStmt env log field stmt = .ok (st1, log1)) :
    ∃ c, st.mCurrField = some c ∧ c ≤ field ∧
      st1 = { st with mCurrField := st.type.nextField field } := by
  have hc : ∃ c, st.mCurrField = some c := by
    cases hs : st.initSkippedFields env log field with
    | error f =>
        unfold InitNormalize.fieldInitFromInitStmt at h
        rw [hs] at h
        cases h
    | ok r => exact initSkippedFields_cur env st log field r.1 r.2 hs
  obtain ⟨c, hc⟩ := hc
  obtain ⟨hle, _, hst, _⟩ := fieldInitFromInitStmt_ok env st log field c stmt st1 log1 hc h
  exact ⟨c, hc, hle, hst⟩

/-- C38: the set of initialized fields only grows: if `isFieldInitialized(F)` holds
in a state, it holds in the state after `initializeFieldsBefore`,
`initializeFieldsAtTail`, `fieldInitFromInitStmt` and `completePhase1` whenever they
return, and after `checkPhase`; a fork answers `isFieldInitialized` as its parent
does. -/
theorem initialized_fields_grow (env : Env) (st : InitNormalize) (log : Emitted) (field : Nat)
    (hInit : st.isFieldInitialized field = true) :
    (∀ st1 log1, st.initializeFieldsBefore env log = .ok (st1, log1) →
      st1.isFieldInitialized field = true) ∧
    (∀ block st1 log1, st.initializeFieldsAtTail env log block = .ok (st1, log1) →
      st1.isFieldInitialized field = true) ∧
    (∀ F stmt st1 log1, st.fieldInitFromInitStmt env log F stmt = .ok (st1, log1) →
      st1.isFieldInitialized field = true) ∧
    (∀ stmt st1 log1, st.completePhase1 env log stmt = .ok (st1, log1) →
      st1.isFieldInitialized field = true) ∧
    (∀ block, (st.checkPhase env block).isFieldInitialized field = true) ∧
    (∀ child, IsFork st child → ∀ F, child.isFieldInitialized F = st.isFieldInitialized F) := by
  have hnone : ∀ st1 : InitNormalize, st1.mCurrField = none →
      st1.isFieldInitialized field = true := by
    intro st1 h1
    rw [isFieldInitialized_eq, h1]
    trivial
  have hbefore : ∀ st1 log1, st.initializeFieldsBefore env log = .ok (st1, log1) →
      st1.isFieldInitialized field = true := by
    intro st1 log1 h
    exact hnone st1 (initializeFieldsBefore_spec env st log st1 log1 h).2.1
  refine ⟨hbefore, ?_, ?_, ?_, ?_, ?_⟩
  · intro block st1 log1 h
    unfold InitNormalize.initializeFieldsAtTail at h
    split at h
    · cases h
      exact hInit
    · exact hbefore st1 log1 h
  · intro F stmt st1 log1 h
    obtain ⟨c, hc, hle, hst⟩ := fieldInitFromInitStmt_cur env st log F stmt st1 log1 h
    subst hst
    refine isFieldInitialized_mono st _ field rfl ?_ hInit
    by_cases hn : F + 1 < st.type.fields.length
    · exact Or.inr ⟨c, F + 1, hc, by simp [AggregateType.nextField, hn], by omega⟩
    · exact Or.inl (by simp [AggregateType.nextField, hn])
  · intro stmt st1 log1 h
    exact hnone st1 (completePhase1_ok env st log stmt st1 log1 h).2.1
  · intro block
    have h : st.checkPhase env block = st ∨
        st.checkPhase env block = { st with mPhase := .cPhase1 } := by
      unfold InitNormalize.checkPhase
      by_cases h0 : st.mPhase = .cPhase0 <;> by_cases h1 : startPhase env block = .cPhase1 <;>
        simp [h0, h1]
    rcases h with h | h
    · rw [h]
      exact hInit
    · rw [h]
      exact hInit
  · intro child hf F
    obtain ⟨k, hk, _⟩ := isFork_kind st child hf
    rw [hk]
    rfl

/-- Witness of C38: in the record `[a, b]` with `mCurrField` at `b`, the field `a` is
initialized and stays so after the explicit initialization of `b`. -/
theorem initialized_fields_grow_witness :
    ∃ st1 log1, (exState (exInit exTypeAB []) (some 1) .cPhase1).fieldInitFromInitStmt (exEnv [])
        Emitted.empty 1 (exAssign "b" (.symExpr (exLit 5))) = .ok (st1, log1) ∧
      st1.isFieldInitialized 0 = true :=
  ⟨_, _, rfl,
    (initialized_fields_grow (exEnv []) (exState (exInit exTypeAB []) (some 1) .cPhase1)
      Emitted.empty 0 rfl).2.2.1 1 (exAssign "b" (.symExpr (exLit 5))) _ _ rfl⟩

/-! ### The `outer` pseudo-field -/

theorem initializeFieldStep_outer (env : Env) (st : InitNormalize) (log : Emitted)
    (field : DefExpr) (hOuter : st.isOuterField field = true) :
    st.initializeFieldStep env log field
      = .ok (st.withOuterFormal field, log.withOuterSet st field) := by
  have hsym : st.type.outer = some field.sym := by
    simpa [InitNormalize.isOuterField] using hOuter
  unfold InitNormalize.initializeFieldStep
  simp only [hOuter, if_true]
  unfold InitNormalize.makeOuterArg
  rw [hsym]
  rfl

/-- C32: when the step of `initializeFieldsBefore` reaches the `outer` pseudo-field,
the method gets the new formal `outer` of the outer type, put after `this`, and
exactly one statement is emitted: `PRIM_SET_MEMBER(this, "outer", outer)`, at the head
of the method body; nothing is put in front of the insertion point, nothing is
removed and no diagnostic is recorded; the rest of the state is unchanged, and the
loop goes on with the field after `outer`. -/
theorem outer_field_step (env : Env) (st : InitNormalize) (log : Emitted) (field : DefExpr)
    (hOuter : st.isOuterField field = true) :
    st.initializeFieldStep env log field
      = .ok (st.withOuterFormal field, log.withOuterSet st field) ∧
    (st.withOuterFormal field).mFn._outer = some (outerFormal field.sym.type) ∧
    (outerFormal field.sym.type).name = "outer" ∧
    (outerFormal field.sym.type).type = field.sym.type ∧
    (st.withOuterFormal field).mFn.formals
      = insertFormalAfter st.mFn._this (outerFormal field.sym.type) st.mFn.formals ∧
    (log.withOuterSet st field).atHead
      = .callExpr (.prim .PRIM_SET_MEMBER
          [.symExpr st.mFn._this, .symExpr (new_CStringSymbol "outer"),
           .symExpr (outerFormal field.sym.type)]) :: log.atHead ∧
    fieldAssignments (log.withOuterSet st field).atHead
      = some "outer" :: fieldAssignments log.atHead ∧
    (log.withOuterSet st field).before = log.before ∧
    (log.withOuterSet st field).removed = log.removed ∧
    (log.withOuterSet st field).diags = log.diags ∧
    (st.withOuterFormal field).mCurrField = st.mCurrField ∧
    (st.withOuterFormal field).mPhase = st.mPhase ∧
    (st.withOuterFormal field).type = st.type ∧
    (∀ pos rest, InitNormalize.initializeFieldsFrom env st log pos (field :: rest)
      = InitNormalize.initializeFieldsFrom env
          (InitNormalize.withOuterFormal { st with mCurrField := some pos } field)
          (log.withOuterSet st field) (pos + 1) rest) := by
  refine ⟨initializeFieldStep_outer env st log field hOuter, rfl, rfl, rfl, rfl, rfl, rfl, rfl,
    rfl, rfl, rfl, rfl, rfl, ?_⟩
  intro pos rest
  rw [InitNormalize.initializeFieldsFrom,
    initializeFieldStep_outer env { st with mCurrField := some pos } log field hOuter]
  rfl

/-- Witness of C32: in the nested record `[a : int, outer]` with `mCurrField` at
`outer`, the step adds the formal `outer` and puts the assignment of `outer` at the
head of the body. -/
theorem outer_field_step_witness :
    ((exState (exInit exTypeAOuter []) (some 1) .cPhase1).initializeFieldStep (exEnv [])
        Emitted.empty exFieldOuter).map (fun r => (r.1.mFn.formals, r.2.atHead, r.2.before))
      = .ok ([gMethodToken, exThis, outerFormal exOuterSym.type],
          [.callExpr (.prim .PRIM_SET_MEMBER
            [.symExpr exThis, .symExpr (new_CStringSymbol "outer"),
             .symExpr (outerFormal exOuterSym.type)])], []) :=
  (congrArg (Except.map (fun r => (r.1.mFn.formals, r.2.atHead, r.2.before)))
    (outer_field_step (exEnv []) (exState (exInit exTypeAOuter []) (some 1) .cPhase1)
      Emitted.empty exFieldOuter rfl).1).trans rfl

/-! ### Fields of a record type with initializers -/

theorem updateFieldsMemberActuals_forall2 (env : Env) (st : InitNormalize) :
    ∀ (l l1 : List Expr), InitNormalize.updateFieldsMemberActuals env st l = .ok l1 →
      List.Forall₂ (fun a a1 => st.updateFieldsMember env a = .ok a1) l l1
  | [], l1, h => by
      rw [InitNormalize.updateFieldsMemberActuals] at h
      cases h
      exact List.Forall₂.nil
  | a :: rest, l1, h => by
      obtain ⟨a1, r1, ha, hr, rfl⟩ := updateFieldsMemberActuals_cons env st a rest l1 h
      exact List.Forall₂.cons ha (updateFieldsMemberActuals_forall2 env st rest r1 hr)

theorem updateFieldsMember_initCall (env : Env) (st : InitNormalize) (tmp : Symbol)
    (args : List Expr) (sq : Bool) (x : Expr)
    (hMt : NotAField env st gMethodToken) (hTmp : NotAField env st tmp)
    (h : st.updateFieldsMember env (initCallOn tmp args sq) = .ok x) :
    ∃ args1, InitNormalize.updateFieldsMemberActuals env st args = .ok args1 ∧
      x = initCallOn tmp args1 sq := by
  unfold initCallOn at h
  rw [InitNormalize.updateFieldsMember] at h
  have hAcc : isFieldAccess (.named (.unresolvedSymExpr "init")
      (.symExpr gMethodToken :: .symExpr tmp :: args) sq) = false := by
    simp [isFieldAccess, CallExpr.isNamed]
  simp only [hAcc, if_true, updateFieldsMemberCall_eq, CallExpr.actuals] at h
  cases hu : InitNormalize.updateFieldsMemberActuals env st
      (.symExpr gMethodToken :: .symExpr tmp :: args) with
  | error f => simp [hu] at h
  | ok l1 =>
      simp only [hu] at h
      obtain ⟨a1, r1, ha, hr, rfl⟩ := updateFieldsMemberActuals_cons env st _ _ l1 hu
      obtain ⟨a2, r2, ha2, hr2, rfl⟩ := updateFieldsMemberActuals_cons env st _ _ r1 hr
      rw [updateFieldsMember_not_a_field env st _ hMt] at ha
      rw [updateFieldsMember_not_a_field env st _ hTmp] at ha2
      cases ha
      cases ha2
      refine ⟨r2, hr2, ?_⟩
      cases h
      rw [handleInsertedMethodCall_unresolved]
      simp [firstActualIsMethodToken, CallExpr.withActuals, initCallOn]

/-- C31: for a field whose type is a non-generic record with initializers (and not a
primitive scalar or a non-generic class, which are tested first): when the
initializer is `new R(a1, ..., an)`, `fieldInitTypeWithInit` checks and rewrites the
call `init(_mt, tmp, a1, ..., an)` and inserts the binding of `tmp`, that call, and
the `PRIM_SET_MEMBER` that stores `tmp`; the rewritten call is
`init(_mt, tmp, a1', ..., an')` where each `ai'` is the rewrite of `ai`, in the same
order, and the `new` expression itself is not emitted.  When the initializer is any
other expression `e`, it inserts the binding of `tmp`, the call `init(_mt, tmp, e')`
with the rewritten `e`, and the `PRIM_SET_MEMBER`. -/
theorem record_field_new_is_spliced (env : Env) (st : InitNormalize) (field : DefExpr)
    (hScalar : (env.isPrimitiveScalar field.sym.type || env.isNonGenericClass field.sym.type)
      = false)
    (hRecord : env.isNonGenericRecordWithInitializers field.sym.type = true) :
    (∀ base args sq tail,
      st.fieldInitTypeWithInit env field
          (.callExpr (.prim .PRIM_NEW (.callExpr (.named base args sq) :: tail)))
        = (st.checkAndUpdate env (initCallOn (newTemp "tmp" field.sym.type) args sq)).map
            (fun x => [tmpDefn (newTemp "tmp" field.sym.type), x,
              st.fieldSet .PRIM_SET_MEMBER field (.symExpr (newTemp "tmp" field.sym.type))])) ∧
    (NotAField env st gMethodToken → NotAField env st (newTemp "tmp" field.sym.type) →
      ∀ args sq x,
        st.checkAndUpdate env (initCallOn (newTemp "tmp" field.sym.type) args sq) = .ok x →
        ∃ args1, List.Forall₂ (fun a a1 => st.updateFieldsMember env a = .ok a1) args args1 ∧
          x = initCallOn (newTemp "tmp" field.sym.type) args1 sq) ∧
    (∀ e, isNewExpr e = false →
      st.fieldInitTypeWithInit env field e
        = (st.checkAndUpdate env e).map (fun e1 =>
            [tmpDefn (newTemp "tmp" field.sym.type),
              initCallOn (newTemp "tmp" field.sym.type) [e1] false,
              st.fieldSet .PRIM_SET_MEMBER field (.symExpr (newTemp "tmp" field.sym.type))])) := by
  refine ⟨?_, ?_, ?_⟩
  · intro base args sq tail
    unfold InitNormalize.fieldInitTypeWithInit
    simp only [hScalar, hRecord, Bool.false_eq_true, if_false, if_true, isNewExpr,
      CallExpr.isPrimitive, beq_self_eq_true]
    exact except_bind_eq_map _ _
  · intro hMt hTmp args sq x hx
    obtain ⟨args1, hargs, hxeq⟩ := updateFieldsMember_initCall env st _ args sq x hMt hTmp
      (checkAndUpdate_ok env st _ _ hx).2
    exact ⟨args1, updateFieldsMemberActuals_forall2 env st args args1 hargs, hxeq⟩
  · intro e hNew
    unfold InitNormalize.fieldInitTypeWithInit
    simp only [hScalar, hRecord, Bool.false_eq_true, if_false, if_true, hNew]
    exact except_bind_eq_map _ _

/-- Witness of C31: for the field `r : R` of the record `[a : int, r : R]` with `a`
initialized, `new R(a, 5)` gives the binding of `tmp`, the call
`init(_mt, tmp, this.a, 5)` and the assignment of `r`. -/
theorem record_field_new_is_spliced_witness :
    (exState (exInit exTypeAR []) (some 1) .cPhase1).fieldInitTypeWithInit (exEnv []) exFieldR
        exNewROfA
      = .ok [tmpDefn (newTemp "tmp" { name := "R" }),
          initCallOn (newTemp "tmp" { name := "R" })
            [(exState (exInit exTypeAR []) (some 1) .cPhase1).getMember "a", .symExpr (exLit 5)]
            false,
          .callExpr (.prim .PRIM_SET_MEMBER
            [.symExpr exThis, .symExpr (new_CStringSymbol "r"),
             .symExpr (newTemp "tmp" { name := "R" })])] :=
  ((record_field_new_is_spliced (exEnv []) (exState (exInit exTypeAR []) (some 1) .cPhase1)
    exFieldR rfl rfl).1 _ _ _ _).trans rfl

/-! ### Implicit fill and the maybe-sync-single operation -/

theorem isTempInit_noMaybe (env : Env) (st : InitNormalize) (tmp : Symbol) (init : Expr)
    (h : st.IsTempInit env tmp init) : isMaybeSyncOp init = false := by
  rcases h with ⟨e, rfl⟩ | ⟨e, rfl⟩ | ⟨e, rfl⟩ | ⟨rest, rfl⟩ | ⟨rest, sq, h⟩
  · rfl
  · rfl
  · rfl
  · rfl
  · exact isMaybeSyncOp_assignment _
      (updateFieldsMember_named_not_assignment env st _ _ _ _ (checkAndUpdate_ok env st _ _ h).2)

theorem isTempTriple_noMaybe (env : Env) (st : InitNormalize) (field : DefExpr)
    (stmts : List Expr) (h : st.IsTempTriple env field stmts) :
    ∀ s ∈ stmts, isMaybeSyncOp s = false := by
  obtain ⟨tmp, init, prim, rfl, hinit, hprim⟩ := h
  intro s hs
  simp only [List.mem_cons, List.mem_singleton, List.not_mem_nil, or_false] at hs
  rcases hs with rfl | rfl | rfl
  · rfl
  · exact isTempInit_noMaybe env st tmp _ hinit
  · rcases hprim with rfl | rfl <;> rfl

theorem maybeSyncGate_of_default (env : Env) (st : InitNormalize) (field : DefExpr) (d : Expr)
    (h : field.init = some d) : st.maybeSyncGate env field = false := by
  unfold InitNormalize.maybeSyncGate
  simp [h]

theorem genericFieldInitTypeWithInit_noMaybe (env : Env) (st : InitNormalize) (field : DefExpr)
    (initExpr : Expr) (stmts : List Expr)
    (h : st.genericFieldInitTypeWithInit env field initExpr = .ok stmts) :
    ∀ s ∈ stmts, isMaybeSyncOp s = false := by
  obtain ⟨e1, T, _, _, rfl⟩ := genericFieldInitTypeWithInit_single env st field initExpr stmts h
  intro s hs
  rw [List.mem_singleton.mp hs]
  rfl

theorem genericFieldInitTypeInference_noMaybe (env : Env) (st : InitNormalize)
    (field : DefExpr) (initExpr : Expr) (stmts : List Expr)
    (h : st.genericFieldInitTypeInference env field initExpr = .ok stmts) :
    ∀ s ∈ stmts, isMaybeSyncOp s = false := by
  rcases genericFieldInitTypeInference_shape env st field initExpr stmts h with h1 | ⟨u, _, rfl⟩
  · exact isTempTriple_noMaybe env st field stmts h1
  · intro s hs
    rw [List.mem_singleton.mp hs]
    rfl

theorem emitBefore_noMaybe (st : InitNormalize) (log : Emitted) (r : Except Failure (List Expr))
    (st1 : InitNormalize) (log1 : Emitted)
    (hr : ∀ stmts, r = .ok stmts → ∀ s ∈ stmts, isMaybeSyncOp s = false)
    (hlog : log.noMaybeSync) (h : emitBefore st log r = .ok (st1, log1)) :
    log1.noMaybeSync := by
  obtain ⟨stmts, hrs, _, rfl⟩ := emitBefore_ok st log r st1 log1 h
  refine ⟨hlog.1, ?_⟩
  intro s hs
  rcases List.mem_append.mp hs with h1 | h1
  · exact hlog.2 s h1
  · exact hr stmts hrs s h1

theorem fieldInitFromField_noMaybe (env : Env) (st : InitNormalize) (log : Emitted)
    (field : DefExpr) (st1 : InitNormalize) (log1 : Emitted) (hlog : log.noMaybeSync)
    (h : st.fieldInitFromField env log field = .ok (st1, log1)) : log1.noMaybeSync := by
  unfold InitNormalize.fieldInitFromField at h
  cases hT : field.exprType <;> cases hI : field.init <;> simp only [hT, hI] at h
  · cases h
    exact hlog
  all_goals
    repeat' split at h
    all_goals first
      | cases h
      | exact emitBefore_noMaybe st log _ st1 log1
          (fun stmts hs => isTempTriple_noMaybe env st field stmts
            (genericFieldInitTypeWoutInit_triple env st field stmts hs)) hlog h
      | exact emitBefore_noMaybe st log _ st1 log1
          (fun stmts hs => isTempTriple_noMaybe env st field stmts
            (fieldInitTypeWoutInit_triple env st field stmts hs)) hlog h
      | exact emitBefore_noMaybe st log _ st1 log1
          (fun stmts hs => isTempTriple_noMaybe env st field stmts
            (fieldInitTypeInference_triple env st field _ stmts hs)) hlog h
      | exact emitBefore_noMaybe st log _ st1 log1
          (fun stmts hs => genericFieldInitTypeWithInit_noMaybe env st field _ stmts hs) hlog h
      | exact emitBefore_noMaybe st log _ st1 log1
          (fun stmts hs => genericFieldInitTypeInference_noMaybe env st field _ stmts hs) hlog h
      | exact emitBefore_noMaybe st log _ st1 log1
          (fun stmts hs => fieldInitTypeWithInit_no_gate env st field _ stmts
            (maybeSyncGate_of_default env st field _ hI) hs) hlog h

theorem initializeFieldStep_noMaybe (env : Env) (st : InitNormalize) (log : Emitted)
    (field : DefExpr) (st1 : InitNormalize) (log1 : Emitted) (hlog : log.noMaybeSync)
    (h : st.initializeFieldStep env log field = .ok (st1, log1)) : log1.noMaybeSync := by
  by_cases hOuter : st.isOuterField field = true
  · rw [initializeFieldStep_outer env st log field hOuter] at h
    cases h
    refine ⟨?_, hlog.2⟩
    intro s hs
    simp only [Emitted.withOuterSet, List.mem_cons] at hs
    rcases hs with rfl | hs
    · rfl
    · exact hlog.1 s hs
  · have hO : st.isOuterField field = false := by simpa using hOuter
    unfold InitNormalize.initializeFieldStep at h
    simp only [hO, Bool.false_eq_true, if_false] at h
    cases hT : field.exprType <;> cases hI : field.init <;> simp only [hT, hI] at h
    · cases h
      exact hlog
    all_goals
      repeat' split at h
      all_goals first
        | cases h
        | exact emitBefore_noMaybe st log _ st1 log1
            (fun stmts hs => isTempTriple_noMaybe env st field stmts
              (genericFieldInitTypeWoutInit_triple env st field stmts hs)) hlog h
        | exact emitBefore_noMaybe st log _ st1 log1
            (fun stmts hs => isTempTriple_noMaybe env st field stmts
              (fieldInitTypeWoutInit_triple env st field stmts hs)) hlog h
        | exact emitBefore_noMaybe st log _ st1 log1
            (fun stmts hs => isTempTriple_noMaybe env st field stmts
              (fieldInitTypeInference_triple env st field _ stmts hs)) hlog h
        | exact emitBefore_noMaybe st log _ st1 log1
            (fun stmts hs => genericFieldInitTypeWithInit_noMaybe env st field _ stmts hs) hlog h
        | exact emitBefore_noMaybe st log _ st1 log1
            (fun stmts hs => genericFieldInitTypeInference_noMaybe env st field _ stmts hs) hlog h
        | exact emitBefore_noMaybe st log _ st1 log1
            (fun stmts hs => fieldInitTypeWithInit_no_gate env st field _ stmts
              (maybeSyncGate_of_default env st field _ hI) hs) hlog h

theorem initializeFieldsFrom_noMaybe (env : Env) (nodes : List DefExpr) :
    ∀ (st : InitNormalize) (log : Emitted) (pos : Nat) (st1 : InitNormalize) (log1 : Emitted),
      log.noMaybeSync →
      InitNormalize.initializeFieldsFrom env st log pos nodes = .ok (st1, log1) →
      log1.noMaybeSync := by
  induction nodes with
  | nil =>
      intro st log pos st1 log1 hlog h
      unfold InitNormalize.initializeFieldsFrom at h
      cases h
      exact hlog
  | cons d rest ih =>
      intro st log pos st1 log1 hlog h
      unfold InitNormalize.initializeFieldsFrom at h
      split at h
      · cases h
      · rename_i st2 log2 hstep
        exact ih st2 log2 (pos + 1) st1 log1
          (initializeFieldStep_noMaybe env _ log d st2 log2 hlog hstep) h

theorem skipToField_noMaybe (env : Env) (field : Nat) (nodes : List DefExpr) :
    ∀ (st : InitNormalize) (log : Emitted) (pos : Nat) (st1 : InitNormalize) (log1 : Emitted),
      log.noMaybeSync →
      InitNormalize.skipToField env field st log pos nodes = .ok (st1, log1) →
      log1.noMaybeSync := by
  induction nodes with
  | nil =>
      intro st log pos st1 log1 hlog h
      unfold InitNormalize.skipToField at h
      cases h
  | cons d rest ih =>
      intro st log pos st1 log1 hlog h
      unfold InitNormalize.skipToField at h
      split at h
      · cases h
        exact hlog
      · split at h
        · cases h
        · rename_i st2 log2 hstep
          exact ih st2 log2 (pos + 1) st1 log1
            (fieldInitFromField_noMaybe env _ log d st2 log2 hlog hstep) h

theorem strategyForRhs_maybe (env : Env) (st : InitNormalize) (field : DefExpr) (rhs : Expr)
    (stmts : List Expr) (h : st.strategyForRhs env field rhs = .ok stmts)
    (s : Expr) (hs : s ∈ stmts) (hm : isMaybeSyncOp s = true) :
    st.maybeSyncGate env field = true ∧ field.sym.hasFlag .FLAG_PARAM = false ∧
    field.sym.hasFlag .FLAG_TYPE_VARIABLE = false ∧ field.exprType.isSome = true := by
  have hcontra : (∀ x ∈ stmts, isMaybeSyncOp x = false) → False := by
    intro hall
    rw [hall s hs] at hm
    cases hm
  unfold InitNormalize.strategyForRhs at h
  repeat' split at h
  · exact (hcontra (genericFieldInitTypeWithInit_noMaybe env st field rhs stmts h)).elim
  · exact (hcontra (genericFieldInitTypeInference_noMaybe env st field rhs stmts h)).elim
  · exact (hcontra (genericFieldInitTypeInference_noMaybe env st field rhs stmts h)).elim
  · exact (hcontra (genericFieldInitTypeInference_noMaybe env st field rhs stmts h)).elim
  · rename_i hP hTV _ hT
    cases hg : st.maybeSyncGate env field with
    | false => exact (hcontra (fieldInitTypeWithInit_no_gate env st field rhs stmts hg h)).elim
    | true => exact ⟨rfl, by simpa using hP, by simpa using hTV, hT⟩
  · exact (hcontra (isTempTriple_noMaybe env st field stmts
      (fieldInitTypeInference_triple env st field rhs stmts h))).elim

/-- C39: implicit fill never emits the maybe-sync-single operation: a step of
`initializeFieldsBefore`, `fieldInitFromField`, the whole of `initializeFieldsBefore`
and the fill of the fields skipped by an explicit initialization add no such operation
to the log, because they run `fieldInitTypeWithInit` only for a declaration with a
default expression, for which the deferred branch is closed.  When the strategy run
for the right-hand side of an explicit initialization statement emits such an
operation, the field is neither param nor type variable, has a declared type and no
default expression, and the conditions of the deferred branch hold. -/
theorem implicit_fill_never_emits_maybe_sync (env : Env) (st : InitNormalize) (log : Emitted)
    (hLog : log.noMaybeSync) :
    (∀ field st1 log1, st.initializeFieldStep env log field = .ok (st1, log1) →
      log1.noMaybeSync) ∧
    (∀ field st1 log1, st.fieldInitFromField env log field = .ok (st1, log1) →
      log1.noMaybeSync) ∧
    (∀ st1 log1, st.initializeFieldsBefore env log = .ok (st1, log1) → log1.noMaybeSync) ∧
    (∀ F st1 log1, st.initSkippedFields env log F = .ok (st1, log1) → log1.noMaybeSync) ∧
    (∀ field d, field.init = some d → st.maybeSyncGate env field = false) ∧
    (∀ field rhs stmts, st.strategyForRhs env field rhs = .ok stmts →
      (∃ s ∈ stmts, isMaybeSyncOp s = true) →
      st.maybeSyncGate env field = true ∧ field.sym.hasFlag .FLAG_PARAM = false ∧
      field.sym.hasFlag .FLAG_TYPE_VARIABLE = false ∧ field.exprType.isSome = true ∧
      field.init = none) := by
  refine ⟨fun field st1 log1 h => initializeFieldStep_noMaybe env st log field st1 log1 hLog h,
    fun field st1 log1 h => fieldInitFromField_noMaybe env st log field st1 log1 hLog h,
    ?_, ?_, fun field d h => maybeSyncGate_of_default env st field d h, ?_⟩
  · intro st1 log1 h
    unfold InitNormalize.initializeFieldsBefore at h
    split at h
    · cases h
      exact hLog
    · exact initializeFieldsFrom_noMaybe env _ st log _ st1 log1 hLog h
  · intro F st1 log1 h
    unfold InitNormalize.initSkippedFields at h
    repeat' split at h
    all_goals first
      | (cases h; done)
      | (cases h; exact hLog)
      | exact skipToField_noMaybe env F _ st log _ st1 log1 hLog h
  · rintro field rhs stmts h ⟨s, hs, hm⟩
    obtain ⟨hg, hP, hTV, hT⟩ := strategyForRhs_maybe env st field rhs stmts h s hs hm
    refine ⟨hg, hP, hTV, hT, ?_⟩
    cases hI : field.init with
    | none => rfl
    | some d =>
        rw [maybeSyncGate_of_default env st field d hI] at hg
        cases hg

/-- Witness of C39: in a compiler-generated initializer of the record `[s : t]`, whose
field has a type variable as declared type, the flush of the field emits no
maybe-sync-single operation, while the explicit initialization `this.s = 5;` emits
one. -/
theorem implicit_fill_never_emits_maybe_sync_witness :
    (∀ st1 log1, (exGeneratedState (exRecord [exFieldOfTypeVar]) (some 0)).initializeFieldsBefore
        (exEnv []) Emitted.empty = .ok (st1, log1) → log1.noMaybeSync) ∧
    ((exGeneratedState (exRecord [exFieldOfTypeVar]) (some 0)).fieldInitFromInitStmt (exEnv [])
        Emitted.empty 0 (exAssign "s" (.symExpr (exLit 5)))).map (fun r => r.2.before)
      = .ok [.callExpr (.prim .PRIM_INIT_MAYBE_SYNC_SINGLE_FIELD
          [.symExpr exThis, .symExpr (new_CStringSymbol "s"), .symExpr (exLit 5)])] :=
  ⟨(implicit_fill_never_emits_maybe_sync (exEnv [])
      (exGeneratedState (exRecord [exFieldOfTypeVar]) (some 0)) Emitted.empty
      ⟨fun _ h => (by cases h), fun _ h => (by cases h)⟩).2.2.1,
   rfl⟩

/-! ### A field is not initialized while it is being filled -/

theorem genericFieldInitTypeWithInit_rewrites (env : Env) (st : InitNormalize)
    (field : DefExpr) (d : Expr) (stmts : List Expr)
    (h : st.genericFieldInitTypeWithInit env field d = .ok stmts) : st.RewritesInit env d := by
  obtain ⟨e1, _, _, hc, _⟩ := genericFieldInitTypeWithInit_single env st field d stmts h
  exact Or.inl ⟨e1, (checkAndUpdate_ok env st d e1 hc).2⟩

theorem genericFieldInitTypeInference_rewrites (env : Env) (st : InitNormalize)
    (field : DefExpr) (d : Expr) (stmts : List Expr)
    (h : st.genericFieldInitTypeInference env field d = .ok stmts) : st.RewritesInit env d := by
  unfold InitNormalize.genericFieldInitTypeInference at h
  dsimp only at h
  repeat' split at h
  all_goals first
    | (cases h; done)
    | (obtain ⟨x, hx, _⟩ := (except_bind_ok _ _ _).mp h
       exact Or.inl ⟨x, (checkAndUpdate_ok env st _ _ hx).2⟩)
    | exact Or.inl ⟨_, rfl⟩

theorem fieldInitTypeInference_rewrites (env : Env) (st : InitNormalize)
    (field : DefExpr) (d : Expr) (stmts : List Expr)
    (h : st.fieldInitTypeInference env field d = .ok stmts) : st.RewritesInit env d := by
  unfold InitNormalize.fieldInitTypeInference at h
  dsimp only at h
  repeat' split at h
  all_goals first
    | cases h
    | (obtain ⟨x, hx, _⟩ := (except_bind_ok _ _ _).mp h
       exact Or.inl ⟨x, (checkAndUpdate_ok env st _ _ hx).2⟩)

theorem fieldInitTypeWithInit_rewrites (env : Env) (st : InitNormalize)
    (field : DefExpr) (d : Expr) (stmts : List Expr)
    (h : st.fieldInitTypeWithInit env field d = .ok stmts) : st.RewritesInit env d := by
  unfold InitNormalize.fieldInitTypeWithInit at h
  dsimp only at h
  repeat' split at h
  all_goals first
    | cases h
    | (obtain ⟨_, _, h2⟩ := (except_bind_ok _ _ _).mp h
       obtain ⟨_, _, h3⟩ := (except_bind_ok _ _ _).mp h2
       obtain ⟨_, _, h4⟩ := (except_bind_ok _ _ _).mp h3
       obtain ⟨x, hx, _⟩ := (except_bind_ok _ _ _).mp h4
       exact Or.inl ⟨x, hx⟩)
    | (obtain ⟨x, hx, _⟩ := (except_bind_ok _ _ _).mp h
       exact Or.inl ⟨x, (checkAndUpdate_ok env st _ _ hx).2⟩)
    | (obtain ⟨x, hx, _⟩ := (except_bind_ok _ _ _).mp h
       exact Or.inr ⟨by assumption, _, _, _, _, _, _, x, rfl, (checkAndUpdate_ok env st _ _ hx).2⟩)

theorem not_rewritesInit_of_read (env : Env) (st : InitNormalize) (d : Expr) (sym : Symbol)
    (a : Nat) (hLocal : env.toLocalFieldSym st.type sym = some a)
    (hField : a < st.type.fields.length) (hNot : ¬ st.fieldIsBefore a)
    (hRead : ReadInRhs sym d) : ¬ st.RewritesInit env d := by
  rintro (⟨e1, h1⟩ | ⟨hNew, p, base, actuals, square, tail, tmp, e1, hd, h1⟩)
  · obtain ⟨f, hf⟩ :=
      updateFieldsMember_error_of_rewrittenRef env st sym a hLocal hField hNot d hRead.1
    rw [hf] at h1
    cases h1
  · obtain ⟨e, hmem, hre⟩ := hRead.2 hNew p base actuals square tail hd
    have href : RewrittenRef sym (.callExpr (.named (.unresolvedSymExpr "init")
        (.symExpr gMethodToken :: .symExpr tmp :: actuals) square)) :=
      RewrittenRef.actual _ e (by simp [isFieldAccess, CallExpr.isNamed])
        (by simp [CallExpr.actuals, hmem]) hre
    obtain ⟨f, hf⟩ :=
      updateFieldsMember_error_of_rewrittenRef env st sym a hLocal hField hNot _ href
    rw [hf] at h1
    cases h1

theorem emitBefore_rewrites (env : Env) (st : InitNormalize) (log : Emitted) (d : Expr)
    (r : Except Failure (List Expr)) (st1 : InitNormalize) (log1 : Emitted)
    (hr : ∀ stmts, r = .ok stmts → st.RewritesInit env d)
    (h : emitBefore st log r = .ok (st1, log1)) : st.RewritesInit env d := by
  obtain ⟨stmts, hrs, _, _⟩ := emitBefore_ok st log r st1 log1 h
  exact hr stmts hrs

theorem fieldInitFromField_rewrites (env : Env) (st : InitNormalize) (log : Emitted)
    (field : DefExpr) (d : Expr) (st1 : InitNormalize) (log1 : Emitted)
    (hI : field.init = some d)
    (h : st.fieldInitFromField env log field = .ok (st1, log1)) : st.RewritesInit env d := by
  unfold InitNormalize.fieldInitFromField at h
  cases hT : field.exprType <;> simp only [hT, hI] at h
  all_goals
    repeat' split at h
    all_goals first
      | cases h
      | exact emitBefore_rewrites env st log d _ st1 log1
          (fun stmts hs => genericFieldInitTypeWithInit_rewrites env st field d stmts hs) h
      | exact emitBefore_rewrites env st log d _ st1 log1
          (fun stmts hs => genericFieldInitTypeInference_rewrites env st field d stmts hs) h
      | exact emitBefore_rewrites env st log d _ st1 log1
          (fun stmts hs => fieldInitTypeWithInit_rewrites env st field d stmts hs) h
      | exact emitBefore_rewrites env st log d _ st1 log1
          (fun stmts hs => fieldInitTypeInference_rewrites env st field d stmts hs) h

theorem initializeFieldStep_rewrites (env : Env) (st : InitNormalize) (log : Emitted)
    (field : DefExpr) (d : Expr) (st1 : InitNormalize) (log1 : Emitted)
    (hO : st.isOuterField field = false) (hI : field.init = some d)
    (h : st.initializeFieldStep env log field = .ok (st1, log1)) : st.RewritesInit env d := by
  unfold InitNormalize.initializeFieldStep at h
  simp only [hO, Bool.false_eq_true, if_false] at h
  cases hT : field.exprType <;> simp only [hT, hI] at h
  all_goals
    repeat' split at h
    all_goals first
      | cases h
      | exact emitBefore_rewrites env st log d _ st1 log1
          (fun stmts hs => genericFieldInitTypeWithInit_rewrites env st field d stmts hs) h
      | exact emitBefore_rewrites env st log d _ st1 log1
          (fun stmts hs => genericFieldInitTypeInference_rewrites env st field d stmts hs) h
      | exact emitBefore_rewrites env st log d _ st1 log1
          (fun stmts hs => fieldInitTypeWithInit_rewrites env st field d stmts hs) h
      | exact emitBefore_rewrites env st log d _ st1 log1
          (fun stmts hs => fieldInitTypeInference_rewrites env st field d stmts hs) h

theorem fieldInitTypeWoutInit_rewrites_type (env : Env) (st : InitNormalize) (field : DefExpr)
    (T : Expr) (stmts : List Expr) (hT : field.exprType = some T)
    (hScalar : (env.isPrimitiveScalar field.sym.type || env.isNonGenericClass field.sym.type)
      = false)
    (hRecord : env.isNonGenericRecordWithInitializers field.sym.type = false)
    (h : st.fieldInitTypeWoutInit env field = .ok stmts) :
    ∃ e1, st.updateFieldsMember env (.callExpr (.prim .PRIM_INIT [T])) = .ok e1 := by
  unfold InitNormalize.fieldInitTypeWoutInit at h
  simp only [hScalar, hRecord, Bool.false_eq_true, if_false, hT] at h
  obtain ⟨x, hx, _⟩ := (except_bind_ok _ _ _).mp h
  exact ⟨x, (checkAndUpdate_ok env st _ _ hx).2⟩

theorem genericFieldInitTypeWoutInit_rewrites_type (env : Env) (st : InitNormalize)
    (field : DefExpr) (T : Expr) (stmts : List Expr) (hT : field.exprType = some T)
    (hScalar : (env.isPrimitiveScalar field.sym.type || env.isNonGenericClass field.sym.type)
      = false)
    (hRecord : env.isNonGenericRecordWithInitializers field.sym.type = false)
    (h : st.genericFieldInitTypeWoutInit env field = .ok stmts) :
    ∃ e1, st.updateFieldsMember env (.callExpr (.prim .PRIM_INIT [T])) = .ok e1 := by
  unfold InitNormalize.genericFieldInitTypeWoutInit at h
  split at h
  · cases h
  · simp only [hScalar, hRecord, Bool.false_eq_true, if_false, hT] at h
    obtain ⟨x, hx, _⟩ := (except_bind_ok _ _ _).mp h
    exact ⟨x, (checkAndUpdate_ok env st _ _ hx).2⟩

theorem typed_field_fill_rewrites_type (env : Env) (st : InitNormalize) (log : Emitted)
    (field : DefExpr) (T : Expr) (hT : field.exprType = some T) (hI : field.init = none)
    (hScalar : (env.isPrimitiveScalar field.sym.type || env.isNonGenericClass field.sym.type)
      = false)
    (hRecord : env.isNonGenericRecordWithInitializers field.sym.type = false) :
    (∀ st1 log1, st.fieldInitFromField env log field = .ok (st1, log1) →
      ∃ e1, st.updateFieldsMember env (.callExpr (.prim .PRIM_INIT [T])) = .ok e1) ∧
    (st.isOuterField field = false →
      ∀ st1 log1, st.initializeFieldStep env log field = .ok (st1, log1) →
      ∃ e1, st.updateFieldsMember env (.callExpr (.prim .PRIM_INIT [T])) = .ok e1) := by
  have key : ∀ st1 log1, st.fieldInitFromField env log field = .ok (st1, log1) →
      ∃ e1, st.updateFieldsMember env (.callExpr (.prim .PRIM_INIT [T])) = .ok e1 := by
    intro st1 log1 h
    unfold InitNormalize.fieldInitFromField at h
    simp only [hT, hI] at h
    split at h
    · obtain ⟨stmts, hs, _, _⟩ := emitBefore_ok _ _ _ _ _ h
      exact genericFieldInitTypeWoutInit_rewrites_type env st field T stmts hT hScalar hRecord hs
    · obtain ⟨stmts, hs, _, _⟩ := emitBefore_ok _ _ _ _ _ h
      exact fieldInitTypeWoutInit_rewrites_type env st field T stmts hT hScalar hRecord hs
  refine ⟨key, ?_⟩
  intro hO st1 log1 h
  apply key st1 log1
  rw [← h]
  unfold InitNormalize.initializeFieldStep InitNormalize.fieldInitFromField
  simp only [hO, Bool.false_eq_true, if_false, hT, hI]

theorem initializeFieldsBefore_at (env : Env) (st : InitNormalize) (log : Emitted) (pos : Nat)
    (field : DefExpr) (hCur : st.mCurrField = some pos)
    (hGet : st.type.fields.get? pos = some field) :
    st.initializeFieldsBefore env log
      = match st.initializeFieldStep env log field with
        | .error f => .error f
        | .ok (st1, log1) =>
            InitNormalize.initializeFieldsFrom env st1 log1 (pos + 1)
              (st.type.fields.drop (pos + 1)) := by
  have hst : { st with mCurrField := some pos } = st := by
    cases st
    simp only at hCur
    subst hCur
    rfl
  have hlt : pos < st.type.fields.length := by
    by_contra hge
    rw [List.get?_eq_none.mpr (by omega)] at hGet
    cases hGet
  have hdrop : st.type.fields.drop pos = field :: st.type.fields.drop (pos + 1) := by
    rw [List.drop_eq_getElem_cons hlt]
    congr 1
    rw [List.get?_eq_getElem?, List.getElem?_eq_getElem hlt] at hGet
    exact Option.some.inj hGet
  unfold InitNormalize.initializeFieldsBefore
  rw [hCur]
  simp only
  rw [hdrop, InitNormalize.initializeFieldsFrom, hst]

/-- C40 as stated fails: in the record `[b = f(x = a), a : int]` the default
expression of `b` contains a bare reference to the field `a`, which is declared after
`b`, inside a named actual; the flush of both fields returns, with the assignment of
`b` emitted from the default expression as it is. -/
theorem later_field_in_named_actual_is_accepted :
    Expr.hasBareRef exFieldA.sym exNamedActualOfA = true ∧
    (exEnv []).toLocalFieldSym exTypeBNamedA exFieldA.sym = some 1 ∧
    ((exState (exInit exTypeBNamedA []) (some 0) .cPhase1).initializeFieldsBefore (exEnv [])
        Emitted.empty).map (fun r => (fieldAssignments r.2.before, r.2.before.take 2))
      = .ok ([some "b", some "a"],
          [tmpDefn (newTemp "tmp" dtUnknown),
           .callExpr (.prim .PRIM_INIT_VAR
             [.symExpr (newTemp "tmp" dtUnknown), exNamedActualOfA])]) :=
  ⟨by decide, by decide, rfl⟩

/-- C40, amended: while the field at position `pos` is being filled, `mCurrField` is
at `pos`, so the fields of the type that count as initialized are exactly those before
`pos`.  A bare reference to a field at or after `pos` is rejected by the rewrite with
the fatal diagnostic "used before defined", and by the check too when the symbol is
not an immediate; a bare reference to a field before `pos` is accepted and replaced by
the member read on `this`.  When the default expression of a field that is not the
`outer` pseudo-field holds a bare reference to a field at or after `pos`, reached
through actuals of calls only (not through a named actual or a base expression), the
step of either path of implicit fill, and with it `initializeFieldsBefore`, ends in a
failure; so does the step for a field without default whose declared-type expression
holds such a reference, when the type of the field is neither a primitive scalar, a
non-generic class nor a non-generic record with initializers (otherwise the
declared-type expression is not examined).  In the record `[a = b, b : int]` and in the record `[c = c]` that failure is
the "used before defined" diagnostic of `b` and of `c`; in the record `[a : int, b = a]`
the default of `b` becomes the member read `this.a`. -/
theorem field_being_filled_is_not_initialized (env : Env) (st : InitNormalize) (log : Emitted)
    (pos : Nat) (hCur : st.mCurrField = some pos) :
    (∀ a, a < st.type.fields.length → (st.isFieldInitialized a = true ↔ a < pos)) ∧
    (∀ sym a, env.toLocalFieldSym st.type sym = some a → a < st.type.fields.length →
      (pos ≤ a →
        st.updateFieldsMember env (.symExpr sym)
          = .error (.usrFatal (usedBeforeDefinedMsg (st.type.fieldName a))) ∧
        (sym.isImmediate = false →
          st.isFieldAccessible env (.symExpr sym)
            = .error (.usrFatal (usedBeforeDefinedMsg (st.type.fieldName a))))) ∧
      (a < pos →
        st.isFieldAccessible env (.symExpr sym) = .ok true ∧
        st.updateFieldsMember env (.symExpr sym) = .ok (st.getMember sym.name))) ∧
    (∀ field d sym a, field.init = some d → st.isOuterField field = false →
      env.toLocalFieldSym st.type sym = some a → pos ≤ a → a < st.type.fields.length →
      ReadInRhs sym d →
      (∃ f, st.initializeFieldStep env log field = .error f) ∧
      (∃ f, st.fieldInitFromField env log field = .error f) ∧
      (st.type.fields.get? pos = some field →
        ∃ f, st.initializeFieldsBefore env log = .error f)) ∧
    (∀ field T sym a, field.exprType = some T → field.init = none →
      st.isOuterField field = false →
      (env.isPrimitiveScalar field.sym.type || env.isNonGenericClass field.sym.type) = false →
      env.isNonGenericRecordWithInitializers field.sym.type = false →
      env.toLocalFieldSym st.type sym = some a → pos ≤ a → a < st.type.fields.length →
      RewrittenRef sym T →
      (∃ f, st.initializeFieldStep env log field = .error f) ∧
      (∃ f, st.fieldInitFromField env log field = .error f)) ∧
    ((exState (exInit exTypeAFromB []) (some 0) .cPhase1).initializeFieldsBefore (exEnv [])
        Emitted.empty = .error (.usrFatal "'b' used before defined (first used here)") ∧
     (exState (exInit exTypeSelf []) (some 0) .cPhase1).initializeFieldsBefore (exEnv [])
        Emitted.empty = .error (.usrFatal "'c' used before defined (first used here)") ∧
     ((exState (exInit exTypeABFromA []) (some 1) .cPhase1).initializeFieldsBefore (exEnv [])
        Emitted.empty).map (fun r => r.2.before)
      = .ok [tmpDefn (newTemp "tmp" exInt),
          .callExpr (.prim .PRIM_MOVE [.symExpr (newTemp "tmp" exInt),
            (exState (exInit exTypeABFromA []) (some 1) .cPhase1).getMember "a"]),
          .callExpr (.prim .PRIM_SET_MEMBER
            [.symExpr exThis, .symExpr (new_CStringSymbol "b"),
             .symExpr (newTemp "tmp" exInt)])]) := by
  have hbefore : ∀ a, st.fieldIsBefore a ↔ a < pos := by
    intro a
    unfold InitNormalize.fieldIsBefore
    rw [hCur]
  refine ⟨?_, ?_, ?_, ?_, rfl, rfl, rfl⟩
  · intro a ha
    rw [isFieldInitialized_iff_before st a ha, hbefore]
  · intro sym a hLocal ha
    have hupd := updateFieldsMember_local_field env st sym a hLocal
    constructor
    · intro hle
      have hnot : ¬ st.fieldIsBefore a := by
        rw [hbefore]
        omega
      have hi : st.isFieldInitialized a = false := by
        cases h : st.isFieldInitialized a
        · rfl
        · exact absurd ((isFieldInitialized_iff_before st a ha).mp h) hnot
      refine ⟨by rw [hupd, hi]; rfl, ?_⟩
      intro hImm
      exact (local_field_accessible_iff env st sym a hImm hLocal ha).2 hnot
    · intro hlt
      have hi : st.isFieldInitialized a = true :=
        (isFieldInitialized_iff_before st a ha).mpr ((hbefore a).mpr hlt)
      refine ⟨?_, by rw [hupd, hi]; rfl⟩
      rw [InitNormalize.isFieldAccessible]
      split
      · rfl
      · simp only [hLocal, hi, if_true]
  · intro field d sym a hI hO hLocal hle ha hRead
    have hnot : ¬ st.fieldIsBefore a := by
      rw [hbefore]
      omega
    have hno := not_rewritesInit_of_read env st d sym a hLocal ha hnot hRead
    have hstep : ∃ f, st.initializeFieldStep env log field = .error f := by
      cases hs : st.initializeFieldStep env log field with
      | error f => exact ⟨f, rfl⟩
      | ok r => exact absurd (initializeFieldStep_rewrites env st log field d r.1 r.2 hO hI hs) hno
    refine ⟨hstep, ?_, ?_⟩
    · cases hs : st.fieldInitFromField env log field with
      | error f => exact ⟨f, rfl⟩
      | ok r => exact absurd (fieldInitFromField_rewrites env st log field d r.1 r.2 hI hs) hno
    · intro hGet
      obtain ⟨f, hf⟩ := hstep
      rw [initializeFieldsBefore_at env st log pos field hCur hGet, hf]
      exact ⟨f, rfl⟩
  · intro field T sym a hT hI hO hScalar hRecord hLocal hle ha hRef
    have hnot : ¬ st.fieldIsBefore a := by
      rw [hbefore]
      omega
    obtain ⟨f, hf⟩ := updateFieldsMember_error_of_rewrittenRef env st sym a hLocal ha hnot
      (.callExpr (.prim .PRIM_INIT [T]))
      (RewrittenRef.actual _ T (by simp [isFieldAccess, CallExpr.isNamed])
        (by simp [CallExpr.actuals]) hRef)
    obtain ⟨h1, h2⟩ := typed_field_fill_rewrites_type env st log field T hT hI hScalar hRecord
    constructor
    · cases hs : st.initializeFieldStep env log field with
      | error f1 => exact ⟨f1, rfl⟩
      | ok r =>
          obtain ⟨e1, he1⟩ := h2 hO r.1 r.2 hs
          rw [hf] at he1
          cases he1
    · cases hs : st.fieldInitFromField env log field with
      | error f1 => exact ⟨f1, rfl⟩
      | ok r =>
          obtain ⟨e1, he1⟩ := h1 r.1 r.2 hs
          rw [hf] at he1
          cases he1

/-- Witness of C40 (amended): in the record `[b : int, a : int]` with `mCurrField` at
`b`, the bare reference to `a` is rejected. -/
theorem field_being_filled_is_not_initialized_witness :
    (exState (exInit exTypeBA []) (some 0) .cPhase1).updateFieldsMember (exEnv [])
        (.symExpr exFieldA.sym)
      = .error (.usrFatal "'a' used before defined (first used here)") :=
  ((((field_being_filled_is_not_initialized (exEnv [])
    (exState (exInit exTypeBA []) (some 0) .cPhase1) Emitted.empty 0 rfl).2.1
    exFieldA.sym 1 (by decide) (by decide)).1 (by decide)).1).trans rfl

end Chapel
